import Mathlib

/-!
# OpenSpades wire protocol codec (`Sources/Server/Shared.cpp`)

A shallow embedding of the packet reader, the packet writer and the packet
variants of `spades::protocol`, with the properties of the codec proved
about the embedding.

Conventions of the embedding.

* A byte of a buffer (`char` of `std::vector<char>`, `uint8_t` once read) is a
  `Fin 256`; a `std::string` is a list of bytes.
* A `PacketReader` is represented by the part of its buffer that lies at and
  after its cursor; reading removes bytes from the front of that list.
* A `PacketWriter` is represented by the bytes written: every `Write...`
  function returns the bytes it appends, and `Generate` concatenates them
  after the type byte.
* `SPRaise` is an `error` result carrying the kind of the exception and the
  reader at the point of the throw.
* The reads that contain a loop are embedded a second time as `Counted` reads,
  which return the same results together with the number of passes made
  through the loop bodies.
-/

set_option maxRecDepth 16384

namespace spades.protocol

/-- One octet of a packet buffer. -/
abbrev Byte := Fin 256

/-- Contents of a `std::string`: a sequence of octets. -/
abbrev Str := List Byte

/-- The exceptions raised while decoding, one constructor per `SPRaise` site. -/
inductive DecodeError where
  /-- A read past the end of the buffer (raised by the inherited `NetPacketReader`). -/
  | receivedPacketTruncated
  /-- `"String too long.: %llu"` of `PacketReader::ReadBytes`. -/
  | stringTooLong (len : Nat)
  /-- `"Packet truncated"` of `Packet::Decode`. -/
  | packetTruncated
  /-- `"Invalid magic."` of `GreetingPacket::Decode`. -/
  | invalidMagic
  /-- `"Unknown trajectory type: %d"` of `DecodeTrajectory` and `WriteTrajectory`. -/
  | unknownTrajectoryType (t : Nat)
  deriving DecidableEq, Repr

/-- Outcome of a read: the value and the reader after it, or the exception
and the reader at the point where it was raised. -/
inductive Res (α : Type) where
  | ok (val : α) (rest : List Byte)
  | error (e : DecodeError) (rest : List Byte)
  deriving DecidableEq, Repr

/-- A read operation of the packet reader: a function of the reader state. -/
def Reader (α : Type) : Type := List Byte → Res α

/-- Sequencing of reads: the first exception raised ends the sequence. -/
instance : Monad Reader where
  pure a := fun r => .ok a r
  bind x f := fun r =>
    match x r with
    | .ok a r1 => f a r1
    | .error e r1 => .error e r1

/-- `SPRaise` inside a read: the exception and the reader as it stands. -/
def SPRaise {α : Type} (e : DecodeError) : Reader α := fun r => .error e r

/-- Result of a packet decoder: a local reader is dropped when the decoder returns or throws. -/
def Res.toExcept {α : Type} : Res α → Except DecodeError α
  | .ok a _ => .ok a
  | .error e _ => .error e

/-- Modelled from the spec: `NetPacketReader::ReadByte` (declared in
`Core/ENetTools.h`, not part of the sources at hand). "Any primitive read past
the end of the buffer fails with a packet truncated error"; otherwise the byte
under the cursor is returned and the cursor advances by one. -/
def ReadByte : Reader Byte
  | [] => .error .receivedPacketTruncated []
  | b :: rest => .ok b rest

/-- Modelled from the spec: `NetPacketReader::ReadData(siz)` (declared in
`Core/ENetTools.h`). It returns the next `siz` bytes and advances the cursor
past them, or fails with the truncation error when fewer remain. -/
def ReadData (siz : Nat) : Reader Str := fun r =>
  if siz ≤ r.length then .ok (r.take siz) (r.drop siz)
  else .error .receivedPacketTruncated r

/-- Modelled from the spec: `NetPacketReader::IsEndOfPacket` (declared in
`Core/ENetTools.h`): the cursor has reached the end of the buffer. -/
def IsEndOfPacket (r : List Byte) : Bool := r.isEmpty

/-- Modelled from the spec: the constructor `NetPacketReader(bytes)` (declared
in `Core/ENetTools.h`). Byte 0 of a buffer is the packet type id and the
variant decoders read the payload that follows it, so the cursor starts after
the first byte. -/
def PacketReader (data : List Byte) : List Byte := data.drop 1

/-- The expression `static_cast<uint32_t>(x) << shift` for `0 ≤ shift < 32`:
a left shift whose result is reduced modulo `2^32`. C++ gives no meaning to
the expression for `shift ≥ 32`; the embedding extends it there by the same
formula (all value bits are shifted out), where a build may do otherwise (the
x86 shift instruction takes the count modulo 32). The shift count reaches 32
only in an integer of six bytes or more; the properties below that fix the
value of an integer keep it to five bytes at most, and the others hold for
whatever value is read. -/
def shl32 (x shift : Nat) : Nat := (x <<< shift) % 2 ^ 32

/-- The loop of `PacketReader::ReadVariableInteger`, with the accumulator `v`
(a `uint32_t`) and the shift count as loop state. -/
def ReadVariableInteger.loop (v shift : Nat) : Reader Nat
  | [] => .error .receivedPacketTruncated []
  | b :: rest =>
    let v1 := v ||| shl32 (b.val &&& 0x7f) shift
    if b.val &&& 0x80 ≠ 0 then ReadVariableInteger.loop v1 (shift + 7) rest
    else .ok v1 rest

/-- `PacketReader::ReadVariableInteger`. -/
def ReadVariableInteger : Reader Nat :=
  ReadVariableInteger.loop 0 0

/-- Conversion of a byte sequence to a C string and back to a `std::string`
(`std::string s = data.c_str()`): the bytes before the first zero byte. -/
def cStr (s : Str) : Str := s.takeWhile (fun b => b ≠ 0)

/-- `PacketReader::ReadBytes`. -/
def ReadBytes : Reader Str := do
  let len ← ReadVariableInteger
  if len > 1024 * 1024 then
    SPRaise (.stringTooLong len)
  else
    let s ← ReadData len
    return cStr s

/-- `PacketReader::ReadString`. -/
def ReadString : Reader Str := ReadBytes

/-- `PacketReader::ReadTimeStamp`; `TimeStampType` is an unsigned integer type
wide enough for the 32-bit value `ReadVariableInteger` returns. -/
def ReadTimeStamp : Reader Nat := ReadVariableInteger

/-- `PacketWriter::WriteVariableInteger`; the argument is a `uint64_t`. -/
def WriteVariableInteger (i : Nat) : List Byte :=
  let b := i &&& 0x7f
  if _h : i >>> 7 ≠ 0 then
    Fin.ofNat (b ||| 0x80) :: WriteVariableInteger (i >>> 7)
  else
    [Fin.ofNat b]
termination_by i
decreasing_by
  simp only [Nat.shiftRight_eq_div_pow] at *
  omega

/-- `PacketWriter::WriteBytes`: the size as a variable-length integer, then the bytes. -/
def WriteBytes (str : Str) : List Byte :=
  WriteVariableInteger str.length ++ str

/-- `PacketWriter::WriteString`. -/
def WriteString (str : Str) : List Byte := WriteBytes str

/-- `PacketWriter::Write(TimeStampType)`. -/
def WriteTimeStamp (t : Nat) : List Byte := WriteVariableInteger t

/-- Modelled from the spec: the constructor `NetPacketWriter(type)` followed by
`ToArray()` (declared in `Core/ENetTools.h`): byte 0 of the buffer is the
packet type id and the bytes written follow it. -/
def ToArray (packetType : Byte) (written : List Byte) : List Byte :=
  packetType :: written

/-! ### `std::map<std::string, std::string>` -/

/-- The order of `std::string` keys (`operator<`): lexicographic on the bytes
taken as unsigned, a proper prefix coming first. -/
def strLt : Str → Str → Bool
  | [], [] => false
  | [], _ :: _ => true
  | _ :: _, [] => false
  | a :: as, b :: bs =>
    if a.val < b.val then true
    else if b.val < a.val then false
    else strLt as bs

/-- A `std::map<std::string, std::string>`: its entries in iteration order,
that is in strictly increasing key order (see `StdMap.WF`). -/
abbrev StdMap := List (Str × Str)

/-- The representation invariant of a `std::map`: keys strictly increasing. -/
def StdMap.WF (dict : StdMap) : Prop :=
  dict.Pairwise (fun a b => strLt a.1 b.1 = true)

/-- `std::map::insert(std::make_pair(key, value))`: the pair is added at its
place in key order; when an entry with an equivalent key exists the map is
left unchanged. -/
def StdMap.insert : StdMap → Str → Str → StdMap
  | [], key, value => [(key, value)]
  | (k, v) :: rest, key, value =>
    if strLt key k then (key, value) :: (k, v) :: rest
    else if strLt k key then (k, v) :: StdMap.insert rest key value
    else (k, v) :: rest

/-- `std::map::find`: the value stored under a key, if any. -/
def StdMap.find (dict : StdMap) (key : Str) : Option Str :=
  (List.find? (fun e => decide (e.1 = key)) dict).map (fun e => e.2)

/-! ### Progress of the reads

The loops of the reader recurse on the bytes left; these facts justify the
recursion. -/

/-- A read that, when it succeeds, leaves the cursor where it was or further on. -/
def Reader.NoBack {α : Type} (x : Reader α) : Prop :=
  ∀ r a r1, x r = .ok a r1 → r1.length ≤ r.length

/-- A read that, when it succeeds, has consumed at least one byte. -/
def Reader.Consumes {α : Type} (x : Reader α) : Prop :=
  ∀ r a r1, x r = .ok a r1 → r1.length < r.length

theorem Reader_bind_apply {α β : Type} (x : Reader α) (f : α → Reader β) (r : List Byte) :
    (x >>= f) r = match x r with
      | .ok a r1 => f a r1
      | .error e r1 => .error e r1 := rfl

theorem Reader_pure_apply {α : Type} (a : α) (r : List Byte) :
    (pure a : Reader α) r = .ok a r := rfl

theorem noBack_pure {α : Type} (a : α) : (Pure.pure a : Reader α).NoBack := by
  intro r b r1 h
  rw [Reader_pure_apply] at h
  cases h
  exact Nat.le_refl _

theorem noBack_raise {α : Type} (e : DecodeError) : (SPRaise e : Reader α).NoBack := by
  intro r b r1 h
  simp [SPRaise] at h

theorem consumes_noBack {α : Type} {x : Reader α} (h : x.Consumes) : x.NoBack :=
  fun r a r1 hr => Nat.le_of_lt (h r a r1 hr)

theorem noBack_bind {α β : Type} {x : Reader α} {f : α → Reader β}
    (hx : x.NoBack) (hf : ∀ a, (f a).NoBack) : (x >>= f).NoBack := by
  intro r b r2 h
  rw [Reader_bind_apply] at h
  cases hxr : x r with
  | error e r1 => rw [hxr] at h; cases h
  | ok a r1 =>
    rw [hxr] at h
    exact Nat.le_trans (hf a r1 b r2 h) (hx r a r1 hxr)

theorem consumes_bind {α β : Type} {x : Reader α} {f : α → Reader β}
    (hx : x.Consumes) (hf : ∀ a, (f a).NoBack) : (x >>= f).Consumes := by
  intro r b r2 h
  rw [Reader_bind_apply] at h
  cases hxr : x r with
  | error e r1 => rw [hxr] at h; cases h
  | ok a r1 =>
    rw [hxr] at h
    exact Nat.lt_of_le_of_lt (hf a r1 b r2 h) (hx r a r1 hxr)

theorem noBack_ite {α : Type} {c : Prop} [Decidable c] {x y : Reader α}
    (hx : x.NoBack) (hy : y.NoBack) : (if c then x else y).NoBack := by
  split
  · exact hx
  · exact hy

theorem ReadByte_consumes : ReadByte.Consumes := by
  intro r a r1 h
  cases r with
  | nil => cases h
  | cons b t => cases h; simp

theorem ReadData_noBack (siz : Nat) : (ReadData siz).NoBack := by
  intro r a r1 h
  unfold ReadData at h
  split at h
  · cases h; simp
  · cases h

theorem ReadVariableInteger_loop_consumes (v shift : Nat) :
    (ReadVariableInteger.loop v shift).Consumes := by
  intro r
  induction r generalizing v shift with
  | nil => intro a r1 h; cases h
  | cons b t ih =>
    intro a r1 h
    simp only [ReadVariableInteger.loop] at h
    split at h
    · exact Nat.lt_trans (ih _ _ a r1 h) (by simp)
    · cases h; simp

theorem ReadVariableInteger_consumes : ReadVariableInteger.Consumes :=
  ReadVariableInteger_loop_consumes 0 0

theorem ReadBytes_consumes : ReadBytes.Consumes := by
  unfold ReadBytes
  refine consumes_bind ReadVariableInteger_consumes (fun len => ?_)
  refine noBack_ite (noBack_raise _) ?_
  exact noBack_bind (ReadData_noBack len) (fun s => noBack_pure _)

theorem ReadString_consumes : ReadString.Consumes := ReadBytes_consumes

/-! ### Maps on the wire -/

/-- The loop of `PacketReader::ReadMap<std::map<std::string, std::string>>`,
with the map under construction as loop state. -/
def ReadMap.loop (dict : StdMap) (r : List Byte) : Res StdMap :=
  match h1 : ReadString r with
  | .error e r1 => .error e r1
  | .ok key r1 =>
    if key.isEmpty then .ok dict r1
    else
      match h2 : ReadString r1 with
      | .error e r2 => .error e r2
      | .ok value r2 => ReadMap.loop (StdMap.insert dict key value) r2
termination_by r.length
decreasing_by
  have l1 := ReadString_consumes _ _ _ h1
  have l2 := ReadString_consumes _ _ _ h2
  omega

/-- `PacketReader::ReadMap<std::map<std::string, std::string>>`. -/
def ReadMap : Reader StdMap := ReadMap.loop []

/-- The `for` loop of `PacketWriter::WriteMap` over the entries of the map. -/
def WriteMap.loop : StdMap → List Byte
  | [] => []
  | item :: rest =>
    (if item.1.isEmpty then [] else WriteString item.1 ++ WriteString item.2)
      ++ WriteMap.loop rest

/-- `PacketWriter::WriteMap`. -/
def WriteMap (dict : StdMap) : List Byte :=
  WriteMap.loop dict ++ WriteString []

/-! ### Dispatch on the packet type -/

/-- The conversion `static_cast<std::size_t>(c)` of a buffer element `c` of
type `char`. Whether `char` is signed is left to the platform: when it is, a
byte with the high bit set is a negative `char` and converts to a value just
below `2^64` (`std::size_t` taken as 64 bits wide). -/
def charToSize (charIsSigned : Bool) (c : Byte) : Nat :=
  if charIsSigned && decide (128 ≤ c.val) then 2 ^ 64 - 256 + c.val else c.val

/-- A `PacketDecodeFuncType`: a function from the buffer to a packet pointer
(`none` is the null pointer) that may throw. -/
abbrev PacketDecodeFuncType (P : Type) := List Byte → Except DecodeError (Option P)

/-- `Packet::Decode`. The table `packetDecodeTable` is built from
`PacketClassList`, which the header declares; it is a parameter here, giving
for an index below 128 the decoder registered there, if any. `P` is the type
of decoded packets. -/
def Packet.Decode {P : Type} (charIsSigned : Bool)
    (packetDecodeTable : Nat → Option (PacketDecodeFuncType P))
    (data : List Byte) : Except DecodeError (Option P) :=
  match data with
  | [] => .error .packetTruncated
  | c :: _ =>
    let typeIndex := charToSize charIsSigned c
    if typeIndex ≥ 128 then .ok none
    else
      match packetDecodeTable typeIndex with
      | none => .ok none
      | some ptr => ptr data

/-! ### Simple packet variants -/

/-- The literal `"Hello"`. -/
def Hello : Str := [72, 101, 108, 108, 111]

/-- `GreetingPacket`: its one field. -/
structure GreetingPacket where
  nonce : Str
  deriving DecidableEq, Repr

/-- The reads of `GreetingPacket::Decode`. -/
def GreetingPacket.Decode.read : Reader GreetingPacket := do
  let magic ← ReadString
  if magic ≠ Hello then
    SPRaise .invalidMagic
  else
    let nonce ← ReadBytes
    return { nonce := nonce }

/-- `GreetingPacket::Decode`. -/
def GreetingPacket.Decode (data : List Byte) : Except DecodeError GreetingPacket :=
  (GreetingPacket.Decode.read (PacketReader data)).toExcept

/-- `GreetingPacket::Generate`; `packetType` is the constant `GreetingPacket::Type`. -/
def GreetingPacket.Generate (packetType : Byte) (p : GreetingPacket) : List Byte :=
  ToArray packetType (WriteString Hello ++ WriteBytes p.nonce)

/-- `GameStateHeaderPacket`: its one field. -/
structure GameStateHeaderPacket where
  properties : StdMap
  deriving DecidableEq, Repr

/-- The reads of `GameStateHeaderPacket::Decode`. -/
def GameStateHeaderPacket.Decode.read : Reader GameStateHeaderPacket := do
  let properties ← ReadMap
  return { properties := properties }

/-- `GameStateHeaderPacket::Decode`. -/
def GameStateHeaderPacket.Decode (data : List Byte) :
    Except DecodeError GameStateHeaderPacket :=
  (GameStateHeaderPacket.Decode.read (PacketReader data)).toExcept

/-- `GameStateHeaderPacket::Generate`. -/
def GameStateHeaderPacket.Generate (packetType : Byte) (p : GameStateHeaderPacket) :
    List Byte :=
  ToArray packetType (WriteMap p.properties)

/-- `GameStateFinalPacket`: its one field. -/
structure GameStateFinalPacket where
  properties : StdMap
  deriving DecidableEq, Repr

/-- The reads of `GameStateFinalPacket::Decode`. -/
def GameStateFinalPacket.Decode.read : Reader GameStateFinalPacket := do
  let properties ← ReadMap
  return { properties := properties }

/-- `GameStateFinalPacket::Decode`. -/
def GameStateFinalPacket.Decode (data : List Byte) :
    Except DecodeError GameStateFinalPacket :=
  (GameStateFinalPacket.Decode.read (PacketReader data)).toExcept

/-- `GameStateFinalPacket::Generate`. -/
def GameStateFinalPacket.Generate (packetType : Byte) (p : GameStateFinalPacket) :
    List Byte :=
  ToArray packetType (WriteMap p.properties)

/-! ### Fixed-size values -/

/-- A `float` as carried on the wire: its four bytes, in wire order. No
arithmetic is done on it by the codec. -/
structure Float32 where
  b0 : Byte
  b1 : Byte
  b2 : Byte
  b3 : Byte
  deriving DecidableEq, Repr

/-- `Vector3`: three floats. -/
structure Vector3 where
  x : Float32
  y : Float32
  z : Float32
  deriving DecidableEq, Repr

/-- `IntVector3`: three `int` components. -/
structure IntVector3 where
  x : Int
  y : Int
  z : Int
  deriving DecidableEq, Repr

/-- Modelled from the spec: `NetPacketReader::ReadFloat` (declared in
`Core/ENetTools.h`), a fixed-size value of four bytes; reading past the end of
the buffer fails with the truncation error. -/
def ReadFloat : Reader Float32 := do
  let b0 ← ReadByte
  let b1 ← ReadByte
  let b2 ← ReadByte
  let b3 ← ReadByte
  return { b0 := b0, b1 := b1, b2 := b2, b3 := b3 }

/-- Modelled from the spec: `NetPacketReader::ReadVector3` (declared in
`Core/ENetTools.h`), a "3-component float vector": three floats in a row. -/
def ReadVector3 : Reader Vector3 := do
  let x ← ReadFloat
  let y ← ReadFloat
  let z ← ReadFloat
  return { x := x, y := y, z := z }

/-- Modelled from the spec: `NetPacketReader::ReadIntColor` (declared in
`Core/ENetTools.h`), a "packed RGB color" of 24 bits: three bytes, one per
component. -/
def ReadIntColor : Reader IntVector3 := do
  let x ← ReadByte
  let y ← ReadByte
  let z ← ReadByte
  return { x := x.val, y := y.val, z := z.val }

/-- Modelled from the spec: `NetPacketWriter::Write(float)` (declared in
`Core/ENetTools.h`): the four bytes of the value. -/
def WriteFloat (f : Float32) : List Byte := [f.b0, f.b1, f.b2, f.b3]

/-- Modelled from the spec: `NetPacketWriter::Write(Vector3)` (declared in
`Core/ENetTools.h`): the three floats in a row. -/
def WriteVector3 (v : Vector3) : List Byte :=
  WriteFloat v.x ++ WriteFloat v.y ++ WriteFloat v.z

/-- The conversion `static_cast<uint8_t>(n)` of an `int`. -/
def toUInt8 (n : Int) : Byte := Fin.ofNat (n % 256).toNat

/-- The conversion `static_cast<int8_t>(b)` of a byte. -/
def toInt8 (b : Byte) : Int := if b.val < 128 then b.val else (b.val : Int) - 256

/-- Modelled from the spec: `NetPacketWriter::WriteColor` (declared in
`Core/ENetTools.h`): the three components, one byte each. -/
def WriteColor (v : IntVector3) : List Byte := [toUInt8 v.x, toUInt8 v.y, toUInt8 v.z]

/-! ### Entity updates -/

/-- What the codec takes from other parts of the program: the quaternion type
`Q` with its rotation compression (`Quaternion::EncodeRotation`,
`Quaternion::DecodeRotation`), the value of a default-constructed quaternion,
and the numeric values of the five `game::TrajectoryType` enumerators. -/
structure External (Q : Type) where
  EncodeRotation : Q → Vector3
  DecodeRotation : Vector3 → Q
  defaultQuaternion : Q
  Linear : Nat
  Gravity : Nat
  Constant : Nat
  RigidBody : Nat
  Player : Nat

namespace EntityUpdateFlags

def None : Nat := 0
def Create : Nat := 1 <<< 0
def Flags : Nat := 1 <<< 1
def Trajectory : Nat := 1 <<< 2
def PlayerInput : Nat := 1 <<< 3
def Tool : Nat := 1 <<< 4
def BlockColor : Nat := 1 <<< 5
def Health : Nat := 1 <<< 6
def Skins : Nat := 1 <<< 7

end EntityUpdateFlags

namespace EntityFlagsValue

def None : Nat := 0
def PlayerClip : Nat := 1 <<< 0
def WeaponClip : Nat := 1 <<< 1
def Fly : Nat := 1 <<< 2

end EntityFlagsValue

/-- `EntityFlags`: the boolean fields used by `ToEntityFlagsValue`. -/
structure EntityFlags where
  playerClip : Bool
  weaponClip : Bool
  fly : Bool
  deriving DecidableEq, Repr

/-- `ToEntityFlagsValue`. -/
def ToEntityFlagsValue (flags : EntityFlags) : Nat :=
  let ret := EntityFlagsValue.None
  let ret := if flags.playerClip then ret ||| EntityFlagsValue.PlayerClip else ret
  let ret := if flags.weaponClip then ret ||| EntityFlagsValue.WeaponClip else ret
  let ret := if flags.fly then ret ||| EntityFlagsValue.Fly else ret
  ret

/-- `FromEntityFlagsValue`. -/
def FromEntityFlagsValue (val : Nat) : EntityFlags :=
  { playerClip := val &&& EntityFlagsValue.PlayerClip ≠ 0
    weaponClip := val &&& EntityFlagsValue.WeaponClip ≠ 0
    fly := val &&& EntityFlagsValue.Fly ≠ 0 }

/-- `Trajectory`: the fields the codec reads and writes. `type` is the numeric
value of the `TrajectoryType`. -/
structure Trajectory (Q : Type) where
  type : Nat
  origin : Vector3
  velocity : Vector3
  angle : Q
  angularVelocity : Vector3
  eulerAngle : Vector3

/-- Modelled from the spec: a zero vector, the "type-default" of a `Vector3`. -/
def Vector3.zero : Vector3 :=
  { x := ⟨0, 0, 0, 0⟩, y := ⟨0, 0, 0, 0⟩, z := ⟨0, 0, 0, 0⟩ }

/-- Modelled from the spec: a default-constructed `Trajectory` (the struct is
declared in a header of the game module), every field at its type default. -/
def Trajectory.new {Q : Type} (ext : External Q) : Trajectory Q :=
  { type := 0, origin := Vector3.zero, velocity := Vector3.zero,
    angle := ext.defaultQuaternion, angularVelocity := Vector3.zero,
    eulerAngle := Vector3.zero }

/-- `DecodeTrajectory`. -/
def DecodeTrajectory {Q : Type} (ext : External Q) : Reader (Trajectory Q) := do
  let traj := Trajectory.new ext
  let type ← ReadByte
  let traj := { traj with type := type.val }
  let origin ← ReadVector3
  let traj := { traj with origin := origin }
  let velocity ← ReadVector3
  let traj := { traj with velocity := velocity }
  if traj.type = ext.Linear ∨ traj.type = ext.Gravity ∨ traj.type = ext.Constant
      ∨ traj.type = ext.RigidBody then
    let angle ← ReadVector3
    let traj := { traj with angle := ext.DecodeRotation angle }
    let angularVelocity ← ReadVector3
    return { traj with angularVelocity := angularVelocity }
  else if traj.type = ext.Player then
    let eulerAngle ← ReadVector3
    return { traj with eulerAngle := eulerAngle }
  else
    SPRaise (.unknownTrajectoryType traj.type)

/-- `WriteTrajectory`; the bytes written before the exception is raised are
lost with the writer. -/
def WriteTrajectory {Q : Type} (ext : External Q) (traj : Trajectory Q) :
    Except DecodeError (List Byte) :=
  let out := [(Fin.ofNat traj.type : Byte)] ++ WriteVector3 traj.origin
    ++ WriteVector3 traj.velocity
  if traj.type = ext.Linear ∨ traj.type = ext.Gravity ∨ traj.type = ext.Constant
      ∨ traj.type = ext.RigidBody then
    .ok (out ++ WriteVector3 (ext.EncodeRotation traj.angle)
      ++ WriteVector3 traj.angularVelocity)
  else if traj.type = ext.Player then
    .ok (out ++ WriteVector3 traj.eulerAngle)
  else
    .error (.unknownTrajectoryType traj.type)

namespace PlayerInputFlags

def None : Nat := 0
def ToolPrimary : Nat := 1 <<< 0
def ToolSecondary : Nat := 1 <<< 1
def Chat : Nat := 1 <<< 2
def Sprint : Nat := 1 <<< 3
def StanceMask : Nat := 3 <<< 6

end PlayerInputFlags

/-- `PlayerInput`: `stance` is the numeric value of the `game::PlayerStance`,
`xmove` and `ymove` are `int8_t`. -/
structure PlayerInput where
  toolPrimary : Bool
  toolSecondary : Bool
  chat : Bool
  sprint : Bool
  stance : Nat
  xmove : Int
  ymove : Int
  deriving DecidableEq, Repr

/-- `DecodePlayerInput`. -/
def DecodePlayerInput : Reader PlayerInput := do
  let flags ← ReadByte
  let xmove ← ReadByte
  let ymove ← ReadByte
  return {
    toolPrimary := flags.val &&& PlayerInputFlags.ToolPrimary ≠ 0
    toolSecondary := flags.val &&& PlayerInputFlags.ToolSecondary ≠ 0
    chat := flags.val &&& PlayerInputFlags.Chat ≠ 0
    sprint := flags.val &&& PlayerInputFlags.Sprint ≠ 0
    stance := (flags.val &&& PlayerInputFlags.StanceMask) >>> 6
    xmove := toInt8 xmove
    ymove := toInt8 ymove }

/-- `WritePlayerInput`. -/
def WritePlayerInput (input : PlayerInput) : List Byte :=
  let flags := PlayerInputFlags.None
  let flags := if input.toolPrimary then flags ||| PlayerInputFlags.ToolPrimary else flags
  let flags := if input.toolSecondary then flags ||| PlayerInputFlags.ToolSecondary else flags
  let flags := if input.chat then flags ||| PlayerInputFlags.Chat else flags
  let flags := if input.sprint then flags ||| PlayerInputFlags.Sprint else flags
  let flags := flags ||| (input.stance <<< 6)
  [Fin.ofNat flags, toUInt8 input.xmove, toUInt8 input.ymove]

/-- `EntityUpdateItem`: the fields the codec reads and writes. `type` and
`tool` are the numeric values of their enumerations. -/
structure EntityUpdateItem (Q : Type) where
  entityId : Nat
  create : Bool
  type : Nat
  includeFlags : Bool
  flags : EntityFlags
  includeTrajectory : Bool
  trajectory : Trajectory Q
  includePlayerInput : Bool
  playerInput : PlayerInput
  includeTool : Bool
  tool : Nat
  includeBlockColor : Bool
  blockColor : IntVector3
  includeHealth : Bool
  health : Nat
  includeSkin : Bool
  bodySkin : Str
  weaponSkin1 : Str
  weaponSkin2 : Str
  weaponSkin3 : Str

/-- Modelled from the spec: a default-constructed `EntityUpdateItem` (the
struct is declared in `Shared.h`): every group "absent", every value at its
"type-default". -/
def EntityUpdateItem.new {Q : Type} (ext : External Q) : EntityUpdateItem Q :=
  { entityId := 0, create := false, type := 0,
    includeFlags := false, flags := ⟨false, false, false⟩,
    includeTrajectory := false, trajectory := Trajectory.new ext,
    includePlayerInput := false, playerInput := ⟨false, false, false, false, 0, 0, 0⟩,
    includeTool := false, tool := 0,
    includeBlockColor := false, blockColor := ⟨0, 0, 0⟩,
    includeHealth := false, health := 0,
    includeSkin := false, bodySkin := [], weaponSkin1 := [], weaponSkin2 := [],
    weaponSkin3 := [] }

/-- `DecodeEntityUpdateItem`. -/
def DecodeEntityUpdateItem {Q : Type} (ext : External Q) : Reader (EntityUpdateItem Q) := do
  let item := EntityUpdateItem.new ext
  let entityId ← ReadVariableInteger
  let item := { item with entityId := entityId % 2 ^ 32 }
  let updates ← ReadByte
  let item := { item with create := updates.val &&& EntityUpdateFlags.Create ≠ 0 }
  let item ← (if item.create then do
      let type ← ReadByte
      return { item with type := type.val }
    else pure item)
  let item := { item with includeFlags := updates.val &&& EntityUpdateFlags.Flags ≠ 0 }
  let item ← (if item.includeFlags then do
      let flags ← ReadByte
      return { item with flags := FromEntityFlagsValue flags.val }
    else pure item)
  let item :=
    { item with includeTrajectory := updates.val &&& EntityUpdateFlags.Trajectory ≠ 0 }
  let item ← (if item.includeTrajectory then do
      let trajectory ← DecodeTrajectory ext
      return { item with trajectory := trajectory }
    else pure item)
  let item :=
    { item with includePlayerInput := updates.val &&& EntityUpdateFlags.PlayerInput ≠ 0 }
  let item ← (if item.includePlayerInput then do
      let playerInput ← DecodePlayerInput
      return { item with playerInput := playerInput }
    else pure item)
  let item :=
    { item with includeBlockColor := updates.val &&& EntityUpdateFlags.BlockColor ≠ 0 }
  let item ← (if item.includeBlockColor then do
      let blockColor ← ReadIntColor
      return { item with blockColor := blockColor }
    else pure item)
  let item := { item with includeHealth := updates.val &&& EntityUpdateFlags.Health ≠ 0 }
  let item ← (if item.includeHealth then do
      let health ← ReadByte
      return { item with health := health.val }
    else pure item)
  let item := { item with includeSkin := updates.val &&& EntityUpdateFlags.Skins ≠ 0 }
  let item ← (if item.includeSkin then do
      let bodySkin ← ReadBytes
      let weaponSkin1 ← ReadBytes
      let weaponSkin2 ← ReadBytes
      let weaponSkin3 ← ReadBytes
      return { item with bodySkin := bodySkin, weaponSkin1 := weaponSkin1,
                         weaponSkin2 := weaponSkin2, weaponSkin3 := weaponSkin3 }
    else pure item)
  return item

/-- The flags byte computed by `WriteEntityUpdateItem`. -/
def WriteEntityUpdateItem.flags {Q : Type} (item : EntityUpdateItem Q) : Nat :=
  let flags := EntityUpdateFlags.None
  let flags := if item.includeFlags then flags ||| EntityUpdateFlags.Flags else flags
  let flags := if item.includeTrajectory then flags ||| EntityUpdateFlags.Trajectory else flags
  let flags := if item.includePlayerInput then flags ||| EntityUpdateFlags.PlayerInput else flags
  let flags := if item.includeTool then flags ||| EntityUpdateFlags.Trajectory else flags
  let flags := if item.includeBlockColor then flags ||| EntityUpdateFlags.BlockColor else flags
  let flags := if item.includeHealth then flags ||| EntityUpdateFlags.Health else flags
  let flags := if item.includeSkin then flags ||| EntityUpdateFlags.Skins else flags
  flags

/-- `WriteEntityUpdateItem`: the bytes it appends to the writer, or the
exception of `WriteTrajectory`. -/
def WriteEntityUpdateItem {Q : Type} (ext : External Q) (item : EntityUpdateItem Q) :
    Except DecodeError (List Byte) := do
  let out := WriteVariableInteger item.entityId
  let out := out ++ [(Fin.ofNat (WriteEntityUpdateItem.flags item) : Byte)]
  let out := if item.create then out ++ [(Fin.ofNat item.type : Byte)] else out
  let out :=
    if item.includeFlags then out ++ [(Fin.ofNat (ToEntityFlagsValue item.flags) : Byte)]
    else out
  let out ← (if item.includeTrajectory then do
      let t ← WriteTrajectory ext item.trajectory
      pure (out ++ t)
    else pure out)
  let out := if item.includePlayerInput then out ++ WritePlayerInput item.playerInput else out
  let out := if item.includeTool then out ++ [(Fin.ofNat item.tool : Byte)] else out
  let out := if item.includeBlockColor then out ++ WriteColor item.blockColor else out
  let out := if item.includeHealth then out ++ [(Fin.ofNat item.health : Byte)] else out
  let out :=
    if item.includeSkin then
      out ++ WriteBytes item.bodySkin ++ WriteBytes item.weaponSkin1
        ++ WriteBytes item.weaponSkin2 ++ WriteBytes item.weaponSkin3
    else out
  return out

theorem ReadFloat_noBack : ReadFloat.NoBack := by
  unfold ReadFloat
  refine noBack_bind (consumes_noBack ReadByte_consumes) (fun _ => ?_)
  refine noBack_bind (consumes_noBack ReadByte_consumes) (fun _ => ?_)
  refine noBack_bind (consumes_noBack ReadByte_consumes) (fun _ => ?_)
  exact noBack_bind (consumes_noBack ReadByte_consumes) (fun _ => noBack_pure _)

theorem ReadVector3_noBack : ReadVector3.NoBack := by
  unfold ReadVector3
  refine noBack_bind ReadFloat_noBack (fun _ => ?_)
  refine noBack_bind ReadFloat_noBack (fun _ => ?_)
  exact noBack_bind ReadFloat_noBack (fun _ => noBack_pure _)

theorem ReadIntColor_noBack : ReadIntColor.NoBack := by
  unfold ReadIntColor
  refine noBack_bind (consumes_noBack ReadByte_consumes) (fun _ => ?_)
  refine noBack_bind (consumes_noBack ReadByte_consumes) (fun _ => ?_)
  exact noBack_bind (consumes_noBack ReadByte_consumes) (fun _ => noBack_pure _)

theorem DecodePlayerInput_noBack : DecodePlayerInput.NoBack := by
  unfold DecodePlayerInput
  refine noBack_bind (consumes_noBack ReadByte_consumes) (fun _ => ?_)
  refine noBack_bind (consumes_noBack ReadByte_consumes) (fun _ => ?_)
  exact noBack_bind (consumes_noBack ReadByte_consumes) (fun _ => noBack_pure _)

theorem DecodeTrajectory_noBack {Q : Type} (ext : External Q) :
    (DecodeTrajectory ext).NoBack := by
  unfold DecodeTrajectory
  refine noBack_bind (consumes_noBack ReadByte_consumes) (fun _ => ?_)
  refine noBack_bind ReadVector3_noBack (fun _ => ?_)
  refine noBack_bind ReadVector3_noBack (fun _ => ?_)
  refine noBack_ite ?_ (noBack_ite ?_ (noBack_raise _))
  · refine noBack_bind ReadVector3_noBack (fun _ => ?_)
    exact noBack_bind ReadVector3_noBack (fun _ => noBack_pure _)
  · exact noBack_bind ReadVector3_noBack (fun _ => noBack_pure _)

theorem DecodeEntityUpdateItem_consumes {Q : Type} (ext : External Q) :
    (DecodeEntityUpdateItem ext).Consumes := by
  unfold DecodeEntityUpdateItem
  refine consumes_bind ReadVariableInteger_consumes (fun _ => ?_)
  refine noBack_bind (consumes_noBack ReadByte_consumes) (fun _ => ?_)
  refine noBack_bind (noBack_ite ?_ (noBack_pure _)) (fun _ => ?_)
  · exact noBack_bind (consumes_noBack ReadByte_consumes) (fun _ => noBack_pure _)
  refine noBack_bind (noBack_ite ?_ (noBack_pure _)) (fun _ => ?_)
  · exact noBack_bind (consumes_noBack ReadByte_consumes) (fun _ => noBack_pure _)
  refine noBack_bind (noBack_ite ?_ (noBack_pure _)) (fun _ => ?_)
  · exact noBack_bind (DecodeTrajectory_noBack ext) (fun _ => noBack_pure _)
  refine noBack_bind (noBack_ite ?_ (noBack_pure _)) (fun _ => ?_)
  · exact noBack_bind DecodePlayerInput_noBack (fun _ => noBack_pure _)
  refine noBack_bind (noBack_ite ?_ (noBack_pure _)) (fun _ => ?_)
  · exact noBack_bind ReadIntColor_noBack (fun _ => noBack_pure _)
  refine noBack_bind (noBack_ite ?_ (noBack_pure _)) (fun _ => ?_)
  · exact noBack_bind (consumes_noBack ReadByte_consumes) (fun _ => noBack_pure _)
  refine noBack_bind (noBack_ite ?_ (noBack_pure _)) (fun _ => ?_)
  · refine noBack_bind (consumes_noBack ReadBytes_consumes) (fun _ => ?_)
    refine noBack_bind (consumes_noBack ReadBytes_consumes) (fun _ => ?_)
    refine noBack_bind (consumes_noBack ReadBytes_consumes) (fun _ => ?_)
    exact noBack_bind (consumes_noBack ReadBytes_consumes) (fun _ => noBack_pure _)
  exact noBack_pure _

/-- `EntityUpdatePacket`: the items in order. -/
structure EntityUpdatePacket (Q : Type) where
  items : List (EntityUpdateItem Q)

/-- The `while` loop of `EntityUpdatePacket::Decode` (and of
`ClientSideEntityUpdatePacket::Decode`), with the items decoded so far as
loop state. -/
def DecodeEntityUpdateItems {Q : Type} (ext : External Q)
    (items : List (EntityUpdateItem Q)) (r : List Byte) : Res (List (EntityUpdateItem Q)) :=
  if IsEndOfPacket r then .ok items r
  else
    match h : DecodeEntityUpdateItem ext r with
    | .error e r1 => .error e r1
    | .ok item r1 => DecodeEntityUpdateItems ext (items ++ [item]) r1
termination_by r.length
decreasing_by exact DecodeEntityUpdateItem_consumes ext _ _ _ h

/-- `EntityUpdatePacket::Decode`. -/
def EntityUpdatePacket.Decode {Q : Type} (ext : External Q) (data : List Byte) :
    Except DecodeError (EntityUpdatePacket Q) :=
  match DecodeEntityUpdateItems ext [] (PacketReader data) with
  | .error e _ => .error e
  | .ok items _ => .ok { items := items }

/-- The `for` loop of `EntityUpdatePacket::Generate` (and of
`ClientSideEntityUpdatePacket::Generate`) over the items. -/
def WriteEntityUpdateItems {Q : Type} (ext : External Q) :
    List (EntityUpdateItem Q) → Except DecodeError (List Byte)
  | [] => .ok []
  | item :: rest => do
    let a ← WriteEntityUpdateItem ext item
    let b ← WriteEntityUpdateItems ext rest
    return a ++ b

/-- `EntityUpdatePacket::Generate`; `packetType` is the constant
`EntityUpdatePacket::Type`. -/
def EntityUpdatePacket.Generate {Q : Type} (ext : External Q) (packetType : Byte)
    (p : EntityUpdatePacket Q) : Except DecodeError (List Byte) := do
  let written ← WriteEntityUpdateItems ext p.items
  return ToArray packetType written

/-- `ClientSideEntityUpdatePacket`: the timestamp and the items in order. -/
structure ClientSideEntityUpdatePacket (Q : Type) where
  timestamp : Nat
  items : List (EntityUpdateItem Q)

/-- `ClientSideEntityUpdatePacket::Decode`. -/
def ClientSideEntityUpdatePacket.Decode {Q : Type} (ext : External Q) (data : List Byte) :
    Except DecodeError (ClientSideEntityUpdatePacket Q) :=
  match ReadTimeStamp (PacketReader data) with
  | .error e _ => .error e
  | .ok timestamp r1 =>
    match DecodeEntityUpdateItems ext [] r1 with
    | .error e _ => .error e
    | .ok items _ => .ok { timestamp := timestamp, items := items }

/-- `ClientSideEntityUpdatePacket::Generate`; `packetType` is the constant
`ClientSideEntityUpdatePacket::Type`. -/
def ClientSideEntityUpdatePacket.Generate {Q : Type} (ext : External Q) (packetType : Byte)
    (p : ClientSideEntityUpdatePacket Q) : Except DecodeError (List Byte) := do
  let written ← WriteEntityUpdateItems ext p.items
  return ToArray packetType (WriteTimeStamp p.timestamp ++ written)

/-! ### Certificates -/

/-- `ServerCertificatePacket`: its three fields. -/
structure ServerCertificatePacket where
  isValid : Bool
  certificate : Str
  signature : Str
  deriving DecidableEq, Repr

/-- The reads of `ServerCertificatePacket::Decode`; the strings of a newly
constructed packet are empty. -/
def ServerCertificatePacket.Decode.read : Reader ServerCertificatePacket := do
  let p : ServerCertificatePacket := { isValid := false, certificate := [], signature := [] }
  let b ← ReadByte
  let p := { p with isValid := b.val ≠ 0 }
  if p.isValid then
    let certificate ← ReadBytes
    let signature ← ReadBytes
    return { p with certificate := certificate, signature := signature }
  else
    return p

/-- `ServerCertificatePacket::Decode`. -/
def ServerCertificatePacket.Decode (data : List Byte) :
    Except DecodeError ServerCertificatePacket :=
  (ServerCertificatePacket.Decode.read (PacketReader data)).toExcept

/-- `ServerCertificatePacket::Generate`; `packetType` is the constant
`ServerCertificatePacket::Type`. -/
def ServerCertificatePacket.Generate (packetType : Byte) (p : ServerCertificatePacket) :
    List Byte :=
  let out := [(Fin.ofNat (if p.isValid then 1 else 0) : Byte)]
  let out := if p.isValid then out ++ WriteBytes p.certificate ++ WriteBytes p.signature else out
  ToArray packetType out

/-- `ClientCertificatePacket`: its three fields. -/
structure ClientCertificatePacket where
  isValid : Bool
  certificate : Str
  signature : Str
  deriving DecidableEq, Repr

/-- The reads of `ClientCertificatePacket::Decode`; the strings of a newly
constructed packet are empty. -/
def ClientCertificatePacket.Decode.read : Reader ClientCertificatePacket := do
  let p : ClientCertificatePacket := { isValid := false, certificate := [], signature := [] }
  let b ← ReadByte
  let p := { p with isValid := b.val ≠ 0 }
  if p.isValid then
    let certificate ← ReadBytes
    let signature ← ReadBytes
    return { p with certificate := certificate, signature := signature }
  else
    return p

/-- `ClientCertificatePacket::Decode`. -/
def ClientCertificatePacket.Decode (data : List Byte) :
    Except DecodeError ClientCertificatePacket :=
  (ClientCertificatePacket.Decode.read (PacketReader data)).toExcept

/-- `ClientCertificatePacket::Generate`; `packetType` is the constant
`ClientCertificatePacket::Type`. -/
def ClientCertificatePacket.Generate (packetType : Byte) (p : ClientCertificatePacket) :
    List Byte :=
  let out := [(Fin.ofNat (if p.isValid then 1 else 0) : Byte)]
  let out := if p.isValid then out ++ WriteBytes p.certificate ++ WriteBytes p.signature else out
  ToArray packetType out

/-! ### Remaining packet variants -/

/-- Modelled from the spec: `NetPacketReader::ReadShort` (declared in
`Core/ENetTools.h`), the read of one of the "16-bit version components": two
bytes, or the truncation error when fewer remain. The order of the two bytes
in the value is not stated; the value is kept as the two bytes in the order
read. -/
def ReadShort : Reader (Byte × Byte) := do
  let b0 ← ReadByte
  let b1 ← ReadByte
  return (b0, b1)

/-- `InitiateConnectionPacket`: its fields. -/
structure InitiateConnectionPacket where
  protocolName : Str
  majorVersion : Byte × Byte
  minorVersion : Byte × Byte
  revision : Byte × Byte
  packageString : Str
  environmentString : Str
  locale : Str
  playerName : Str
  nonce : Str
  deriving DecidableEq, Repr

/-- The reads of `InitiateConnectionPacket::Decode`. -/
def InitiateConnectionPacket.Decode.read : Reader InitiateConnectionPacket := do
  let protocolName ← ReadString
  let majorVersion ← ReadShort
  let minorVersion ← ReadShort
  let revision ← ReadShort
  let packageString ← ReadString
  let environmentString ← ReadString
  let locale ← ReadString
  let playerName ← ReadString
  let nonce ← ReadBytes
  return { protocolName := protocolName, majorVersion := majorVersion,
           minorVersion := minorVersion, revision := revision,
           packageString := packageString, environmentString := environmentString,
           locale := locale, playerName := playerName, nonce := nonce }

/-- `InitiateConnectionPacket::Decode`. -/
def InitiateConnectionPacket.Decode (data : List Byte) :
    Except DecodeError InitiateConnectionPacket :=
  (InitiateConnectionPacket.Decode.read (PacketReader data)).toExcept

/-- `KickPacket`: its one field. -/
structure KickPacket where
  reason : Str
  deriving DecidableEq, Repr

/-- The reads of `KickPacket::Decode`. -/
def KickPacket.Decode.read : Reader KickPacket := do
  let reason ← ReadString
  return { reason := reason }

/-- `KickPacket::Decode`. -/
def KickPacket.Decode (data : List Byte) : Except DecodeError KickPacket :=
  (KickPacket.Decode.read (PacketReader data)).toExcept

/-- `MapDataPacket`: its one field. -/
structure MapDataPacket where
  fragment : Str
  deriving DecidableEq, Repr

/-- The reads of `MapDataPacket::Decode`. -/
def MapDataPacket.Decode.read : Reader MapDataPacket := do
  let fragment ← ReadBytes
  return { fragment := fragment }

/-- `MapDataPacket::Decode`. -/
def MapDataPacket.Decode (data : List Byte) : Except DecodeError MapDataPacket :=
  (MapDataPacket.Decode.read (PacketReader data)).toExcept

/-- `JumpActionPacket`: its one field. -/
structure JumpActionPacket where
  timestamp : Nat
  deriving DecidableEq, Repr

/-- The reads of `JumpActionPacket::Decode`. -/
def JumpActionPacket.Decode.read : Reader JumpActionPacket := do
  let timestamp ← ReadTimeStamp
  return { timestamp := timestamp }

/-- `JumpActionPacket::Decode`. -/
def JumpActionPacket.Decode (data : List Byte) : Except DecodeError JumpActionPacket :=
  (JumpActionPacket.Decode.read (PacketReader data)).toExcept

/-- `ReloadWeaponPacket`: its one field. -/
structure ReloadWeaponPacket where
  timestamp : Nat
  deriving DecidableEq, Repr

/-- The reads of `ReloadWeaponPacket::Decode`. -/
def ReloadWeaponPacket.Decode.read : Reader ReloadWeaponPacket := do
  let timestamp ← ReadTimeStamp
  return { timestamp := timestamp }

/-- `ReloadWeaponPacket::Decode`. -/
def ReloadWeaponPacket.Decode (data : List Byte) : Except DecodeError ReloadWeaponPacket :=
  (ReloadWeaponPacket.Decode.read (PacketReader data)).toExcept

/-! ### Counting the passes of the loops

The decoder has three loops: the `while(true)` of `ReadVariableInteger`, the
`while(true)` of `ReadMap` and the `while(!reader.IsEndOfPacket())` of the two
entity update decoders. The reads are embedded a second time with a count of
the passes through the bodies of these loops; the loops are written as the
repetition of their body, and `Counted.pass` counts one pass. -/

/-- Passes through the bodies of the loops: `completed` counts the passes that
ran to the end of the body or to its `break`, `cut` the passes that an
exception left. -/
structure Passes where
  completed : Nat
  cut : Nat
  deriving DecidableEq, Repr

/-- Sum of two counts. -/
def Passes.add (a b : Passes) : Passes :=
  { completed := a.completed + b.completed, cut := a.cut + b.cut }

/-- The outcome `x` of what ran after `n` passes had been counted. -/
def Passes.after {α : Type} (n : Passes) (x : Res α × Passes) : Res α × Passes :=
  (x.1, n.add x.2)

/-- A read together with the passes of loops made while it ran. -/
def Counted (α : Type) : Type := List Byte → Res α × Passes

/-- Sequencing of counted reads: the counts add up, and the first exception
raised ends the sequence. -/
instance : Monad Counted where
  pure a := fun r => (.ok a r, ⟨0, 0⟩)
  bind x f := fun r =>
    match x r with
    | (.ok a r1, n) => Passes.after n (f a r1)
    | (.error e r1, n) => (.error e r1, n)

/-- A read without a loop: no pass is counted. -/
def Counted.lift {α : Type} (x : Reader α) : Counted α := fun r => (x r, ⟨0, 0⟩)

/-- One pass through a loop body: completed when the body ends, cut when an
exception leaves it. -/
def Counted.pass {α : Type} (body : Counted α) : Counted α := fun r =>
  match body r with
  | (.ok a r1, n) => (.ok a r1, n.add ⟨1, 0⟩)
  | (.error e r1, n) => (.error e r1, n.add ⟨0, 1⟩)

/-- The read that is counted: the count dropped. -/
def Counted.erase {α : Type} (x : Counted α) : Reader α := fun r => (x r).1

theorem erase_pure {α : Type} (a : α) : (Pure.pure a : Counted α).erase = Pure.pure a := rfl

theorem erase_bind {α β : Type} (x : Counted α) (f : α → Counted β) :
    (x >>= f).erase = x.erase >>= fun a => (f a).erase := by
  funext r
  show (match x r with
    | (.ok a r1, n) => Passes.after n (f a r1)
    | (.error e r1, n) => (.error e r1, n)).1 = match (x r).1 with
      | .ok a r1 => (f a r1).1
      | .error e r1 => .error e r1
  rcases x r with ⟨res, n⟩
  cases res <;> rfl

theorem erase_lift {α : Type} (x : Reader α) : (Counted.lift x).erase = x := rfl

theorem erase_pass {α : Type} (x : Counted α) : (Counted.pass x).erase = x.erase := by
  funext r
  show (match x r with
    | (.ok a r1, n) => (Res.ok a r1, n.add ⟨1, 0⟩)
    | (.error e r1, n) => (.error e r1, n.add ⟨0, 1⟩)).1 = (x r).1
  rcases x r with ⟨res, n⟩
  cases res <;> rfl

theorem erase_ite {α : Type} (c : Prop) [Decidable c] (x y : Counted α) :
    (if c then x else y).erase = if c then x.erase else y.erase := by
  split <;> rfl

theorem erase_consumes {α : Type} {x : Counted α} (h : x.erase.Consumes)
    {r : List Byte} {a : α} {r1 : List Byte} {n : Passes} (hr : x r = (.ok a r1, n)) :
    r1.length < r.length :=
  h r a r1 (by show (x r).1 = _; rw [hr])

/-- The body of the loop of `PacketReader::ReadVariableInteger`, from the
accumulator `v` and the shift count: the new accumulator, the new shift count,
and whether the loop goes on (`shift += 7`) or ends (`break`). -/
def Counted.ReadVariableInteger.body (v shift : Nat) : Counted (Nat × Nat × Bool) := do
  let b ← Counted.lift ReadByte
  let v := v ||| shl32 (b.val &&& 0x7f) shift
  if b.val &&& 0x80 ≠ 0 then
    return (v, shift + 7, true)
  else
    return (v, shift, false)

theorem ReadVariableInteger_body_consumes (v shift : Nat) :
    (Counted.pass (Counted.ReadVariableInteger.body v shift)).erase.Consumes := by
  rw [erase_pass, Counted.ReadVariableInteger.body, erase_bind, erase_lift]
  refine consumes_bind ReadByte_consumes (fun b => ?_)
  dsimp only
  rw [erase_ite]
  exact noBack_ite (noBack_pure _) (noBack_pure _)

/-- The loop of `PacketReader::ReadVariableInteger`, each pass counted. -/
def Counted.ReadVariableInteger.loop (v shift : Nat) (r : List Byte) : Res Nat × Passes :=
  match h : Counted.pass (Counted.ReadVariableInteger.body v shift) r with
  | (.error e r1, n) => (.error e r1, n)
  | (.ok (v1, shift1, more) r1, n) =>
    if more then Passes.after n (Counted.ReadVariableInteger.loop v1 shift1 r1)
    else (.ok v1 r1, n)
termination_by r.length
decreasing_by exact erase_consumes (ReadVariableInteger_body_consumes v shift) h

/-- `PacketReader::ReadVariableInteger`, its passes counted. -/
def Counted.ReadVariableInteger : Counted Nat :=
  Counted.ReadVariableInteger.loop 0 0

theorem Counted_bind_apply {α β : Type} (x : Counted α) (f : α → Counted β) (r : List Byte) :
    (x >>= f) r = match x r with
      | (.ok a r1, n) => Passes.after n (f a r1)
      | (.error e r1, n) => (.error e r1, n) := rfl

theorem Counted_pure_apply {α : Type} (a : α) (r : List Byte) :
    (pure a : Counted α) r = (.ok a r, ⟨0, 0⟩) := rfl

theorem Counted_ReadVariableInteger_body_cons (v shift : Nat) (b : Byte) (rest : List Byte) :
    Counted.pass (Counted.ReadVariableInteger.body v shift) (b :: rest) =
      (.ok (v ||| shl32 (b.val &&& 0x7f) shift,
        if b.val &&& 0x80 ≠ 0 then shift + 7 else shift,
        decide (b.val &&& 0x80 ≠ 0)) rest, ⟨1, 0⟩) := by
  by_cases c : b.val &&& 0x80 ≠ 0
  · simp only [Counted.pass, Counted.ReadVariableInteger.body, Counted_bind_apply,
      Counted.lift, ReadByte, Passes.after, ite_apply, if_pos c, Counted_pure_apply, Passes.add,
      decide_eq_true c]
  · simp only [Counted.pass, Counted.ReadVariableInteger.body, Counted_bind_apply,
      Counted.lift, ReadByte, Passes.after, ite_apply, if_neg c, Counted_pure_apply, Passes.add,
      decide_eq_false c]

theorem Counted_ReadVariableInteger_loop_nil (v shift : Nat) :
    Counted.ReadVariableInteger.loop v shift [] =
      (.error .receivedPacketTruncated [], ⟨0, 1⟩) := by
  rw [Counted.ReadVariableInteger.loop]
  split
  · rename_i e r1 n heq
    cases heq
    rfl
  · rename_i v1 shift1 more r1 n heq
    cases heq

theorem Counted_ReadVariableInteger_loop_cons (v shift : Nat) (b : Byte) (rest : List Byte) :
    Counted.ReadVariableInteger.loop v shift (b :: rest) =
      if b.val &&& 0x80 ≠ 0 then
        Passes.after ⟨1, 0⟩
          (Counted.ReadVariableInteger.loop (v ||| shl32 (b.val &&& 0x7f) shift) (shift + 7) rest)
      else (.ok (v ||| shl32 (b.val &&& 0x7f) shift) rest, ⟨1, 0⟩) := by
  rw [Counted.ReadVariableInteger.loop]
  split
  · rename_i e r1 n heq
    rw [Counted_ReadVariableInteger_body_cons] at heq
    cases heq
  · rename_i v1 shift1 more r1 n heq
    rw [Counted_ReadVariableInteger_body_cons] at heq
    cases heq
    by_cases c : b.val &&& 0x80 ≠ 0
    · simp only [if_pos c, decide_eq_true c, if_true]
    · simp only [if_neg c, decide_eq_false c, Bool.false_eq_true, if_false]

theorem erase_ReadVariableInteger_loop (v shift : Nat) (r : List Byte) :
    (Counted.ReadVariableInteger.loop v shift r).1 = ReadVariableInteger.loop v shift r := by
  induction r generalizing v shift with
  | nil => rw [Counted_ReadVariableInteger_loop_nil]; rfl
  | cons b rest ih =>
    rw [Counted_ReadVariableInteger_loop_cons]
    simp only [ReadVariableInteger.loop]
    split
    · exact ih _ _
    · rfl

theorem erase_ReadVariableInteger : Counted.ReadVariableInteger.erase = ReadVariableInteger := by
  funext r
  exact erase_ReadVariableInteger_loop 0 0 r

/-- `PacketReader::ReadBytes`, its passes counted. -/
def Counted.ReadBytes : Counted Str := do
  let len ← Counted.ReadVariableInteger
  if len > 1024 * 1024 then
    Counted.lift (SPRaise (.stringTooLong len))
  else
    let s ← Counted.lift (ReadData len)
    return cStr s

/-- `PacketReader::ReadString`, its passes counted. -/
def Counted.ReadString : Counted Str := Counted.ReadBytes

/-- `PacketReader::ReadTimeStamp`, its passes counted. -/
def Counted.ReadTimeStamp : Counted Nat := Counted.ReadVariableInteger

theorem erase_ReadBytes : Counted.ReadBytes.erase = ReadBytes := by
  unfold Counted.ReadBytes ReadBytes
  simp only [erase_bind, erase_ite, erase_lift, erase_pure, erase_ReadVariableInteger]

theorem erase_ReadString : Counted.ReadString.erase = ReadString := erase_ReadBytes

theorem erase_ReadTimeStamp : Counted.ReadTimeStamp.erase = ReadTimeStamp :=
  erase_ReadVariableInteger

/-- The body of the loop of `PacketReader::ReadMap`, from the map under
construction: `none` when the loop ends (`break` on an empty key), the map
with the pair inserted when it goes on. -/
def Counted.ReadMap.body (dict : StdMap) : Counted (Option StdMap) := do
  let key ← Counted.ReadString
  if key.isEmpty then
    return none
  else
    let value ← Counted.ReadString
    return some (StdMap.insert dict key value)

theorem ReadMap_body_consumes (dict : StdMap) :
    (Counted.pass (Counted.ReadMap.body dict)).erase.Consumes := by
  rw [erase_pass, Counted.ReadMap.body, erase_bind, erase_ReadString]
  refine consumes_bind ReadString_consumes (fun key => ?_)
  rw [erase_ite, erase_bind, erase_ReadString]
  refine noBack_ite (noBack_pure _) ?_
  exact noBack_bind (consumes_noBack ReadString_consumes) (fun _ => noBack_pure _)

/-- The loop of `PacketReader::ReadMap<std::map<std::string, std::string>>`,
each pass counted. -/
def Counted.ReadMap.loop (dict : StdMap) (r : List Byte) : Res StdMap × Passes :=
  match h : Counted.pass (Counted.ReadMap.body dict) r with
  | (.error e r1, n) => (.error e r1, n)
  | (.ok none r1, n) => (.ok dict r1, n)
  | (.ok (some dict1) r1, n) => Passes.after n (Counted.ReadMap.loop dict1 r1)
termination_by r.length
decreasing_by exact erase_consumes (ReadMap_body_consumes dict) h

/-- `PacketReader::ReadMap<std::map<std::string, std::string>>`, its passes
counted. -/
def Counted.ReadMap : Counted StdMap := Counted.ReadMap.loop []

/-- `DecodeEntityUpdateItem`, its passes counted. -/
def Counted.DecodeEntityUpdateItem {Q : Type} (ext : External Q) :
    Counted (EntityUpdateItem Q) := do
  let item := EntityUpdateItem.new ext
  let entityId ← Counted.ReadVariableInteger
  let item := { item with entityId := entityId % 2 ^ 32 }
  let updates ← Counted.lift ReadByte
  let item := { item with create := updates.val &&& EntityUpdateFlags.Create ≠ 0 }
  let item ← (if item.create then do
      let type ← Counted.lift ReadByte
      return { item with type := type.val }
    else pure item)
  let item := { item with includeFlags := updates.val &&& EntityUpdateFlags.Flags ≠ 0 }
  let item ← (if item.includeFlags then do
      let flags ← Counted.lift ReadByte
      return { item with flags := FromEntityFlagsValue flags.val }
    else pure item)
  let item :=
    { item with includeTrajectory := updates.val &&& EntityUpdateFlags.Trajectory ≠ 0 }
  let item ← (if item.includeTrajectory then do
      let trajectory ← Counted.lift (DecodeTrajectory ext)
      return { item with trajectory := trajectory }
    else pure item)
  let item :=
    { item with includePlayerInput := updates.val &&& EntityUpdateFlags.PlayerInput ≠ 0 }
  let item ← (if item.includePlayerInput then do
      let playerInput ← Counted.lift DecodePlayerInput
      return { item with playerInput := playerInput }
    else pure item)
  let item :=
    { item with includeBlockColor := updates.val &&& EntityUpdateFlags.BlockColor ≠ 0 }
  let item ← (if item.includeBlockColor then do
      let blockColor ← Counted.lift ReadIntColor
      return { item with blockColor := blockColor }
    else pure item)
  let item := { item with includeHealth := updates.val &&& EntityUpdateFlags.Health ≠ 0 }
  let item ← (if item.includeHealth then do
      let health ← Counted.lift ReadByte
      return { item with health := health.val }
    else pure item)
  let item := { item with includeSkin := updates.val &&& EntityUpdateFlags.Skins ≠ 0 }
  let item ← (if item.includeSkin then do
      let bodySkin ← Counted.ReadBytes
      let weaponSkin1 ← Counted.ReadBytes
      let weaponSkin2 ← Counted.ReadBytes
      let weaponSkin3 ← Counted.ReadBytes
      return { item with bodySkin := bodySkin, weaponSkin1 := weaponSkin1,
                         weaponSkin2 := weaponSkin2, weaponSkin3 := weaponSkin3 }
    else pure item)
  return item

theorem erase_DecodeEntityUpdateItem {Q : Type} (ext : External Q) :
    (Counted.DecodeEntityUpdateItem ext).erase = DecodeEntityUpdateItem ext := by
  unfold Counted.DecodeEntityUpdateItem DecodeEntityUpdateItem
  simp only [erase_bind, erase_ite, erase_lift, erase_pure, erase_ReadVariableInteger,
    erase_ReadBytes]

theorem DecodeEntityUpdateItem_pass_consumes {Q : Type} (ext : External Q) :
    (Counted.pass (Counted.DecodeEntityUpdateItem ext)).erase.Consumes := by
  rw [erase_pass, erase_DecodeEntityUpdateItem]
  exact DecodeEntityUpdateItem_consumes ext

/-- The `while` loop of `EntityUpdatePacket::Decode` (and of
`ClientSideEntityUpdatePacket::Decode`), each pass counted. -/
def Counted.DecodeEntityUpdateItems {Q : Type} (ext : External Q)
    (items : List (EntityUpdateItem Q)) (r : List Byte) :
    Res (List (EntityUpdateItem Q)) × Passes :=
  if IsEndOfPacket r then (.ok items r, ⟨0, 0⟩)
  else
    match h : Counted.pass (Counted.DecodeEntityUpdateItem ext) r with
    | (.error e r1, n) => (.error e r1, n)
    | (.ok item r1, n) =>
      Passes.after n (Counted.DecodeEntityUpdateItems ext (items ++ [item]) r1)
termination_by r.length
decreasing_by exact erase_consumes (DecodeEntityUpdateItem_pass_consumes ext) h

/-- A variant decoder run on a buffer: a reader is constructed over the
buffer, the reads run on it, and the reader is dropped when the decoder
returns or throws; the passes counted are kept. -/
def Counted.run {α : Type} (read : Counted α) (data : List Byte) :
    Except DecodeError α × Passes :=
  ((read (PacketReader data)).1.toExcept, (read (PacketReader data)).2)

/-- The reads of `GreetingPacket::Decode`, their passes counted. -/
def Counted.GreetingPacket.Decode.read : Counted GreetingPacket := do
  let magic ← Counted.ReadString
  if magic ≠ Hello then
    Counted.lift (SPRaise .invalidMagic)
  else
    let nonce ← Counted.ReadBytes
    return { nonce := nonce }

/-- `GreetingPacket::Decode`, its passes counted. -/
def Counted.GreetingPacket.Decode (data : List Byte) :
    Except DecodeError GreetingPacket × Passes :=
  Counted.run Counted.GreetingPacket.Decode.read data

/-- The reads of `InitiateConnectionPacket::Decode`, their passes counted. -/
def Counted.InitiateConnectionPacket.Decode.read : Counted InitiateConnectionPacket := do
  let protocolName ← Counted.ReadString
  let majorVersion ← Counted.lift ReadShort
  let minorVersion ← Counted.lift ReadShort
  let revision ← Counted.lift ReadShort
  let packageString ← Counted.ReadString
  let environmentString ← Counted.ReadString
  let locale ← Counted.ReadString
  let playerName ← Counted.ReadString
  let nonce ← Counted.ReadBytes
  return { protocolName := protocolName, majorVersion := majorVersion,
           minorVersion := minorVersion, revision := revision,
           packageString := packageString, environmentString := environmentString,
           locale := locale, playerName := playerName, nonce := nonce }

/-- `InitiateConnectionPacket::Decode`, its passes counted. -/
def Counted.InitiateConnectionPacket.Decode (data : List Byte) :
    Except DecodeError InitiateConnectionPacket × Passes :=
  Counted.run Counted.InitiateConnectionPacket.Decode.read data

/-- The reads of `ServerCertificatePacket::Decode`, their passes counted. -/
def Counted.ServerCertificatePacket.Decode.read : Counted ServerCertificatePacket := do
  let p : ServerCertificatePacket := { isValid := false, certificate := [], signature := [] }
  let b ← Counted.lift ReadByte
  let p := { p with isValid := b.val ≠ 0 }
  if p.isValid then
    let certificate ← Counted.ReadBytes
    let signature ← Counted.ReadBytes
    return { p with certificate := certificate, signature := signature }
  else
    return p

/-- `ServerCertificatePacket::Decode`, its passes counted. -/
def Counted.ServerCertificatePacket.Decode (data : List Byte) :
    Except DecodeError ServerCertificatePacket × Passes :=
  Counted.run Counted.ServerCertificatePacket.Decode.read data

/-- The reads of `ClientCertificatePacket::Decode`, their passes counted. -/
def Counted.ClientCertificatePacket.Decode.read : Counted ClientCertificatePacket := do
  let p : ClientCertificatePacket := { isValid := false, certificate := [], signature := [] }
  let b ← Counted.lift ReadByte
  let p := { p with isValid := b.val ≠ 0 }
  if p.isValid then
    let certificate ← Counted.ReadBytes
    let signature ← Counted.ReadBytes
    return { p with certificate := certificate, signature := signature }
  else
    return p

/-- `ClientCertificatePacket::Decode`, its passes counted. -/
def Counted.ClientCertificatePacket.Decode (data : List Byte) :
    Except DecodeError ClientCertificatePacket × Passes :=
  Counted.run Counted.ClientCertificatePacket.Decode.read data

/-- The reads of `KickPacket::Decode`, their passes counted. -/
def Counted.KickPacket.Decode.read : Counted KickPacket := do
  let reason ← Counted.ReadString
  return { reason := reason }

/-- `KickPacket::Decode`, its passes counted. -/
def Counted.KickPacket.Decode (data : List Byte) :
    Except DecodeError KickPacket × Passes :=
  Counted.run Counted.KickPacket.Decode.read data

/-- The reads of `GameStateHeaderPacket::Decode`, their passes counted. -/
def Counted.GameStateHeaderPacket.Decode.read : Counted GameStateHeaderPacket := do
  let properties ← Counted.ReadMap
  return { properties := properties }

/-- `GameStateHeaderPacket::Decode`, its passes counted. -/
def Counted.GameStateHeaderPacket.Decode (data : List Byte) :
    Except DecodeError GameStateHeaderPacket × Passes :=
  Counted.run Counted.GameStateHeaderPacket.Decode.read data

/-- The reads of `MapDataPacket::Decode`, their passes counted. -/
def Counted.MapDataPacket.Decode.read : Counted MapDataPacket := do
  let fragment ← Counted.ReadBytes
  return { fragment := fragment }

/-- `MapDataPacket::Decode`, its passes counted. -/
def Counted.MapDataPacket.Decode (data : List Byte) :
    Except DecodeError MapDataPacket × Passes :=
  Counted.run Counted.MapDataPacket.Decode.read data

/-- The reads of `GameStateFinalPacket::Decode`, their passes counted. -/
def Counted.GameStateFinalPacket.Decode.read : Counted GameStateFinalPacket := do
  let properties ← Counted.ReadMap
  return { properties := properties }

/-- `GameStateFinalPacket::Decode`, its passes counted. -/
def Counted.GameStateFinalPacket.Decode (data : List Byte) :
    Except DecodeError GameStateFinalPacket × Passes :=
  Counted.run Counted.GameStateFinalPacket.Decode.read data

/-- The reads of `JumpActionPacket::Decode`, their passes counted. -/
def Counted.JumpActionPacket.Decode.read : Counted JumpActionPacket := do
  let timestamp ← Counted.ReadTimeStamp
  return { timestamp := timestamp }

/-- `JumpActionPacket::Decode`, its passes counted. -/
def Counted.JumpActionPacket.Decode (data : List Byte) :
    Except DecodeError JumpActionPacket × Passes :=
  Counted.run Counted.JumpActionPacket.Decode.read data

/-- The reads of `ReloadWeaponPacket::Decode`, their passes counted. -/
def Counted.ReloadWeaponPacket.Decode.read : Counted ReloadWeaponPacket := do
  let timestamp ← Counted.ReadTimeStamp
  return { timestamp := timestamp }

/-- `ReloadWeaponPacket::Decode`, its passes counted. -/
def Counted.ReloadWeaponPacket.Decode (data : List Byte) :
    Except DecodeError ReloadWeaponPacket × Passes :=
  Counted.run Counted.ReloadWeaponPacket.Decode.read data

/-- `EntityUpdatePacket::Decode`, its passes counted. -/
def Counted.EntityUpdatePacket.Decode {Q : Type} (ext : External Q) (data : List Byte) :
    Except DecodeError (EntityUpdatePacket Q) × Passes :=
  match Counted.DecodeEntityUpdateItems ext [] (PacketReader data) with
  | (.error e _, n) => (.error e, n)
  | (.ok items _, n) => (.ok { items := items }, n)

/-- `ClientSideEntityUpdatePacket::Decode`, its passes counted. -/
def Counted.ClientSideEntityUpdatePacket.Decode {Q : Type} (ext : External Q)
    (data : List Byte) : Except DecodeError (ClientSideEntityUpdatePacket Q) × Passes :=
  match Counted.ReadTimeStamp (PacketReader data) with
  | (.error e _, n) => (.error e, n)
  | (.ok timestamp r1, n) =>
    match Counted.DecodeEntityUpdateItems ext [] r1 with
    | (.error e _, m) => (.error e, n.add m)
    | (.ok items _, m) => (.ok { timestamp := timestamp, items := items }, n.add m)

/-! ### Notions used to state the properties -/

/-- The value of a run of bytes read as little-endian base-128 groups: the
low seven bits of each byte, the first byte least significant. -/
def base128 : List Byte → Nat
  | [] => 0
  | c :: t => c.val % 128 + 128 * base128 t

/-- The wire form of a sequence of (key, value) pairs: each key and each
value as a length-prefixed byte string, in order. -/
def WritePairs : List (Str × Str) → List Byte
  | [] => []
  | e :: t => WriteString e.1 ++ WriteString e.2 ++ WritePairs t

/-- A byte string that `ReadString` returns as it was written: no zero byte,
at most 1 MiB long. -/
def PlainStr (str : Str) : Prop :=
  (∀ b ∈ str, b ≠ 0) ∧ str.length ≤ 1048576

/-- The four trajectory tags that carry an orientation and an angular
velocity; the fifth tag is `Player`. -/
def External.Oriented {Q : Type} (ext : External Q) (t : Nat) : Prop :=
  t = ext.Linear ∨ t = ext.Gravity ∨ t = ext.Constant ∨ t = ext.RigidBody

/-- An instance of the external parameters: rotations carried as they are,
the tags numbered from 0 in the order of the enumeration. -/
def External.sample : External Vector3 :=
  { EncodeRotation := fun q => q, DecodeRotation := fun v => v,
    defaultQuaternion := Vector3.zero,
    Linear := 0, Gravity := 1, Constant := 2, RigidBody := 3, Player := 4 }

/-- Reading of an optional group with the reader at `s`: a present group is
read by `rd`, which gives `v` and leaves the reader at `s1`; an absent group
consumes no byte (`s1 = s`) and its value is `absent`. -/
def GroupRead {α : Type} (present : Bool) (rd : Reader α) (absent : α)
    (s : List Byte) (v : α) (s1 : List Byte) : Prop :=
  if present = true then rd s = .ok v s1 else v = absent ∧ s1 = s

/-- The reads of the skin group: four byte strings in a row. -/
def ReadSkins : Reader (Str × Str × Str × Str) := do
  let bodySkin ← ReadBytes
  let weaponSkin1 ← ReadBytes
  let weaponSkin2 ← ReadBytes
  let weaponSkin3 ← ReadBytes
  return (bodySkin, weaponSkin1, weaponSkin2, weaponSkin3)

/-- A read whose outcome, when it succeeds, rests on the bytes it consumed
alone: those bytes form a segment `seg` at the front of the buffer, and the
read gives the same value on `seg` followed by anything else. -/
def Reader.Local {α : Type} (x : Reader α) : Prop :=
  ∀ r a r1, x r = .ok a r1 → ∃ seg, r = seg ++ r1 ∧ ∀ y, x (seg ++ y) = .ok a y

/-- The byte segments `segs` are complete items: each of them decodes on its
own to the item at the same position of `items`, with no byte left over. -/
def CompleteItems {Q : Type} (ext : External Q) (segs : List (List Byte))
    (items : List (EntityUpdateItem Q)) : Prop :=
  List.Forall₂ (fun seg item => DecodeEntityUpdateItem ext seg = .ok item []) segs items

/-- An item of the part of the codec where `WriteEntityUpdateItem` and
`DecodeEntityUpdateItem` agree: not a creation, no tool and no trajectory
group, an entity id below 2^32, a stance in 0..3, a health and color
components in 0..255, skins without a zero byte and at most 1 MiB long. The
bounds on `xmove` and `ymove` are the range of their type `int8_t`. -/
def EntityUpdateItem.Restricted {Q : Type} (item : EntityUpdateItem Q) : Prop :=
  item.create = false ∧ item.includeTool = false ∧ item.includeTrajectory = false ∧
  item.entityId < 2 ^ 32 ∧ item.playerInput.stance ≤ 3 ∧
  (-128 ≤ item.playerInput.xmove ∧ item.playerInput.xmove ≤ 127) ∧
  (-128 ≤ item.playerInput.ymove ∧ item.playerInput.ymove ≤ 127) ∧
  item.health < 256 ∧
  (0 ≤ item.blockColor.x ∧ item.blockColor.x < 256) ∧
  (0 ≤ item.blockColor.y ∧ item.blockColor.y < 256) ∧
  (0 ≤ item.blockColor.z ∧ item.blockColor.z < 256) ∧
  PlainStr item.bodySkin ∧ PlainStr item.weaponSkin1 ∧ PlainStr item.weaponSkin2 ∧
  PlainStr item.weaponSkin3

/-- Two items with the same entity id, the same presence flags and equal
values of every group that is present in the first. -/
def EntityUpdateItem.SameGroups {Q : Type} (a b : EntityUpdateItem Q) : Prop :=
  a.entityId = b.entityId ∧ a.create = b.create ∧ a.includeTrajectory = b.includeTrajectory ∧
  a.includeFlags = b.includeFlags ∧ a.includePlayerInput = b.includePlayerInput ∧
  a.includeBlockColor = b.includeBlockColor ∧ a.includeHealth = b.includeHealth ∧
  a.includeSkin = b.includeSkin ∧
  (a.includeFlags = true → a.flags = b.flags) ∧
  (a.includePlayerInput = true → a.playerInput = b.playerInput) ∧
  (a.includeBlockColor = true → a.blockColor = b.blockColor) ∧
  (a.includeHealth = true → a.health = b.health) ∧
  (a.includeSkin = true → a.bodySkin = b.bodySkin ∧ a.weaponSkin1 = b.weaponSkin1 ∧
    a.weaponSkin2 = b.weaponSkin2 ∧ a.weaponSkin3 = b.weaponSkin3)

/-- A counted read that completes at most as many passes as it consumes bytes,
`j` bytes to spare, and on an exception has cut at most `d` passes. -/
def Counted.Within {α : Type} (j d : Nat) (x : Counted α) : Prop :=
  ∀ r, (∀ a r1 n, x r = (.ok a r1, n) → n.cut = 0 ∧ n.completed + r1.length + j ≤ r.length) ∧
    (∀ e r1 n, x r = (.error e r1, n) → n.cut ≤ d ∧ n.completed ≤ r.length)

/-- All the passes begun: those completed and those cut. -/
def Passes.total (n : Passes) : Nat := n.completed + n.cut

/-- A counted read that, when it succeeds with the value `a`, has completed at
least `m a` passes. -/
def Counted.AtLeast {α : Type} (m : α → Nat) (x : Counted α) : Prop :=
  ∀ r a r1 n, x r = (.ok a r1, n) → m a ≤ n.completed

/-- The passes that decoding an item completes at the least: one of the item
loop, one of `ReadVariableInteger` for the entity id, and one of
`ReadVariableInteger` for each of the four skins when the item has them. -/
def EntityUpdateItem.leastPasses {Q : Type} (item : EntityUpdateItem Q) : Nat :=
  2 + if item.includeSkin then 4 else 0

/-- The passes that decoding a list of items completes at the least. -/
def leastPassesOfItems {Q : Type} (items : List (EntityUpdateItem Q)) : Nat :=
  (items.map EntityUpdateItem.leastPasses).sum

/-- The counted decoder `counted` returns what the decoder `decode` returns.
On a buffer of `n` bytes it completes at most `n` passes of loops, and begins
at most `n + 2` passes, at most `n + 1` when the buffer is not empty. When it
returns a packet `p` no pass is cut and at least `least p` passes are
completed; when it raises, at least `leastCut` and at most two passes are
cut. -/
def ReturnsWithin {P : Type} (decode : List Byte → Except DecodeError P)
    (counted : List Byte → Except DecodeError P × Passes) (least : P → Nat)
    (leastCut : Nat) : Prop :=
  ∀ data,
    (counted data).1 = decode data ∧
    (counted data).2.completed ≤ data.length ∧
    (counted data).2.total ≤ data.length + 2 ∧
    (data ≠ [] → (counted data).2.total ≤ data.length + 1) ∧
    (∀ p, decode data = .ok p →
      (counted data).2.cut = 0 ∧ least p ≤ (counted data).2.completed) ∧
    (∀ e, decode data = .error e →
      leastCut ≤ (counted data).2.cut ∧ (counted data).2.cut ≤ 2)

/-! ## Variable-length integers -/

theorem byte_bits (x : Fin 128) :
    (x.val ||| 0x80) % 256 = x.val + 128 ∧ (x.val + 128) &&& 0x7f = x.val ∧
    (x.val + 128) &&& 0x80 = 128 ∧ x.val &&& 0x80 = 0 ∧ x.val &&& 0x7f = x.val := by
  revert x; decide

theorem WriteVariableInteger_cons (i : Nat) (h : 128 ≤ i) :
    WriteVariableInteger i =
      (⟨i % 128 + 128, by omega⟩ : Byte) :: WriteVariableInteger (i / 128) := by
  rw [WriteVariableInteger]
  have h1 : i >>> 7 = i / 128 := by simp [Nat.shiftRight_eq_div_pow]
  have h2 : i &&& 0x7f = i % 128 := by
    have := Nat.and_pow_two_sub_one_eq_mod i 7
    simpa using this
  have h3 : i / 128 ≠ 0 := by omega
  simp only [h1, h2, h3, ne_eq, not_false_eq_true, dite_true]
  congr 1
  apply Fin.ext
  have := (byte_bits ⟨i % 128, by omega⟩).1
  simpa [Fin.ofNat] using this

theorem WriteVariableInteger_last (i : Nat) (h : i < 128) :
    WriteVariableInteger i = [(⟨i, by omega⟩ : Byte)] := by
  rw [WriteVariableInteger]
  have h1 : i >>> 7 = 0 := by simp [Nat.shiftRight_eq_div_pow]; omega
  have h2 : i &&& 0x7f = i % 128 := by
    have := Nat.and_pow_two_sub_one_eq_mod i 7
    simpa using this
  simp only [h1, h2, ne_eq, not_true_eq_false, dite_false]
  congr 1
  apply Fin.ext
  simp [Fin.ofNat]; omega

theorem acc_or_shl32 (acc x shift : Nat) (h1 : acc < 2 ^ shift)
    (h2 : x * 2 ^ shift < 2 ^ 32) : acc ||| shl32 x shift = acc + x * 2 ^ shift := by
  unfold shl32
  rw [Nat.shiftLeft_eq, Nat.mod_eq_of_lt h2, Nat.or_comm, Nat.mul_comm x,
    ← Nat.mul_add_lt_is_or h1, Nat.add_comm]

theorem loop_WriteVariableInteger (rest : List Byte) (w : Nat) :
    ∀ acc shift, acc < 2 ^ shift → acc + w * 2 ^ shift < 2 ^ 32 →
      ReadVariableInteger.loop acc shift (WriteVariableInteger w ++ rest)
        = .ok (acc + w * 2 ^ shift) rest := by
  induction w using Nat.strong_induction_on with
  | _ w ih =>
    intro acc shift hacc hsum
    have hp : 0 < 2 ^ shift := Nat.two_pow_pos shift
    by_cases hw : w < 128
    · rw [WriteVariableInteger_last w hw]
      have hb := byte_bits ⟨w, hw⟩
      simp only [List.singleton_append, ReadVariableInteger.loop, hb.2.2.2.1, hb.2.2.2.2]
      rw [acc_or_shl32 acc w shift hacc (by omega)]
      simp
    · have hw1 : 128 ≤ w := by omega
      rw [WriteVariableInteger_cons w hw1]
      have hb := byte_bits ⟨w % 128, by omega⟩
      have hdm : w = 128 * (w / 128) + w % 128 := (Nat.div_add_mod w 128).symm
      have hpow : 2 ^ (shift + 7) = 128 * 2 ^ shift := by
        rw [Nat.pow_add]; omega
      have hmul : w * 2 ^ shift = (w / 128) * (128 * 2 ^ shift) + (w % 128) * 2 ^ shift := by
        conv_lhs => rw [hdm]
        ring
      have hlow : (w % 128) * 2 ^ shift < 128 * 2 ^ shift :=
        Nat.mul_lt_mul_of_pos_right (Nat.mod_lt _ (by decide)) hp
      have hlow1 : (w % 128) * 2 ^ shift ≤ 127 * 2 ^ shift :=
        Nat.mul_le_mul_right _ (by omega)
      simp only [List.cons_append, ReadVariableInteger.loop, hb.2.1, hb.2.2.1, List.append_eq]
      rw [acc_or_shl32 acc (w % 128) shift hacc (by omega)]
      simp only [ne_eq, OfNat.ofNat_ne_zero, not_false_eq_true, if_true]
      rw [ih (w / 128) (by omega) (acc + w % 128 * 2 ^ shift) (shift + 7)
        (by rw [hpow]; omega) (by rw [hpow]; omega)]
      rw [hpow]
      congr 1
      omega

theorem read_write_varint (v : Nat) (hv : v < 2 ^ 32) (rest : List Byte) :
    ReadVariableInteger (WriteVariableInteger v ++ rest) = .ok v rest := by
  have h := loop_WriteVariableInteger rest v 0 0 (by decide) (by simpa using hv)
  simpa [ReadVariableInteger] using h

/-- C1. For every value `v` with `0 ≤ v ≤ 2^32 - 1`, `ReadVariableInteger`
applied to the bytes written by `WriteVariableInteger v` returns `v` and
consumes exactly those bytes: whatever follows them in the buffer (`rest`,
possibly nothing) is left unread. -/
theorem ReadVariableInteger_WriteVariableInteger (v : Nat) (hv : v < 2 ^ 32)
    (rest : List Byte) :
    ReadVariableInteger (WriteVariableInteger v ++ rest) = .ok v rest := by
  have h := loop_WriteVariableInteger rest v 0 0 (by decide) (by simpa using hv)
  rw [Nat.pow_zero, Nat.mul_one, Nat.zero_add] at h
  exact h

/-- Witness of C1 at `v = 300` followed by one more byte. -/
theorem ReadVariableInteger_WriteVariableInteger_witness :
    ReadVariableInteger (WriteVariableInteger 300 ++ [7]) = .ok 300 [7] :=
  ReadVariableInteger_WriteVariableInteger 300 (by decide) [7]

theorem size_div_128 (v : Nat) (h : 128 ≤ v) : Nat.size v = Nat.size (v / 128) + 7 := by
  have hpos : 0 < Nat.size (v / 128) := Nat.size_pos.mpr (by omega)
  apply Nat.le_antisymm
  · rw [Nat.size_le]
    have h1 : v / 128 < 2 ^ Nat.size (v / 128) := Nat.size_le.mp (Nat.le_refl _)
    rw [Nat.pow_add]
    omega
  · have h1 : 2 ^ (Nat.size (v / 128) - 1) ≤ v / 128 := Nat.lt_size.mp (by omega)
    have h2 : 2 ^ (Nat.size (v / 128) - 1 + 7) ≤ v := by
      rw [Nat.pow_add]; omega
    have h3 : Nat.size (v / 128) - 1 + 7 < Nat.size v := Nat.lt_size.mpr h2
    omega

theorem WriteVariableInteger_length (v : Nat) :
    (WriteVariableInteger v).length = max 1 ((Nat.size v + 6) / 7) := by
  induction v using Nat.strong_induction_on with
  | _ v ih =>
    by_cases hv : v < 128
    · rw [WriteVariableInteger_last v hv]
      have : Nat.size v ≤ 7 := Nat.size_le.mpr (by omega)
      simp only [List.length_singleton]
      omega
    · have hv1 : 128 ≤ v := by omega
      rw [WriteVariableInteger_cons v hv1, List.length_cons, ih (v / 128) (by omega),
        size_div_128 v hv1]
      have hpos : 0 < Nat.size (v / 128) := Nat.size_pos.mpr (by omega)
      omega

theorem WriteVariableInteger_bits (i : Nat) :
    ∀ (v : Nat) (b : Byte), (WriteVariableInteger v)[i]? = some b →
      (∀ j, j < 7 → b.val.testBit j = v.testBit (7 * i + j)) ∧
      b.val.testBit 7 = decide (i + 1 < (WriteVariableInteger v).length) := by
  induction i with
  | zero =>
    intro v b hb
    by_cases hv : v < 128
    · rw [WriteVariableInteger_last v hv] at hb ⊢
      simp only [List.getElem?_cons_zero, Option.some.injEq] at hb
      subst hb
      refine ⟨fun j _ => by simp, ?_⟩
      simpa using Nat.testBit_lt_two_pow (show v < 2 ^ 7 by omega)
    · have hv1 : 128 ≤ v := by omega
      rw [WriteVariableInteger_cons v hv1] at hb ⊢
      simp only [List.getElem?_cons_zero, Option.some.injEq] at hb
      subst hb
      have hlen : 0 < (WriteVariableInteger (v / 128)).length := by
        rw [WriteVariableInteger_length]; omega
      constructor
      · intro j hj
        show (v % 2 ^ 7 + 2 ^ 7).testBit j = _
        rw [Nat.add_comm, Nat.testBit_two_pow_add_gt hj, Nat.testBit_mod_two_pow]
        simp [hj]
      · show (v % 2 ^ 7 + 2 ^ 7).testBit 7 = _
        rw [Nat.add_comm, Nat.testBit_two_pow_add_eq,
          Nat.testBit_lt_two_pow (Nat.mod_lt _ (by decide))]
        simp [hlen]
  | succ i ih =>
    intro v b hb
    by_cases hv : v < 128
    · rw [WriteVariableInteger_last v hv] at hb
      simp at hb
    · have hv1 : 128 ≤ v := by omega
      rw [WriteVariableInteger_cons v hv1] at hb ⊢
      simp only [List.getElem?_cons_succ] at hb
      obtain ⟨h1, h2⟩ := ih (v / 128) b hb
      constructor
      · intro j hj
        rw [h1 j hj]
        have : v / 128 = v >>> 7 := by simp [Nat.shiftRight_eq_div_pow]
        rw [this, Nat.testBit_shiftRight]
        congr 1
        omega
      · rw [h2]
        simp

theorem WriteVariableInteger_getLast (v : Nat) (hv : v ≠ 0) :
    ∀ b, (WriteVariableInteger v).getLast? = some b → b ≠ 0 := by
  induction v using Nat.strong_induction_on with
  | _ v ih =>
    intro b hb
    by_cases hlt : v < 128
    · rw [WriteVariableInteger_last v hlt] at hb
      simp only [List.getLast?_singleton, Option.some.injEq] at hb
      subst hb
      intro h0
      apply hv
      simpa using congrArg Fin.val h0
    · have hv1 : 128 ≤ v := by omega
      rw [WriteVariableInteger_cons v hv1] at hb
      have hne : WriteVariableInteger (v / 128) ≠ [] := by
        intro h
        have := WriteVariableInteger_length (v / 128)
        rw [h] at this
        simp at this
        omega
      obtain ⟨c, t, hct⟩ := List.exists_cons_of_ne_nil hne
      rw [hct, List.getLast?_cons_cons, ← hct] at hb
      exact ih (v / 128) (by omega) (by omega) b hb

/-- C2. For every 64-bit unsigned `v`, `WriteVariableInteger v` is the minimal
little-endian base-128 form: it has `max 1 ⌈bitlength v / 7⌉` bytes; bit `j < 7`
of byte `i` is bit `7 i + j` of `v`; bit 7 is set on every byte except the last
and clear on the last; the last byte is non-zero unless `v = 0`; and `0`, `127`
and `128` are written as `00`, `7F` and `80 01`. -/
theorem WriteVariableInteger_minimal_base128 (v : Nat) (_hv : v < 2 ^ 64) :
    (WriteVariableInteger v).length = max 1 ((Nat.size v + 6) / 7) ∧
    (∀ (i : Nat) (b : Byte), (WriteVariableInteger v)[i]? = some b →
      (∀ j, j < 7 → b.val.testBit j = v.testBit (7 * i + j)) ∧
      b.val.testBit 7 = decide (i + 1 < (WriteVariableInteger v).length)) ∧
    (v ≠ 0 → ∀ b, (WriteVariableInteger v).getLast? = some b → b ≠ 0) ∧
    WriteVariableInteger 0 = [0x00] ∧ WriteVariableInteger 127 = [0x7F] ∧
    WriteVariableInteger 128 = [0x80, 0x01] := by
  refine ⟨WriteVariableInteger_length v, fun i => WriteVariableInteger_bits i v,
    WriteVariableInteger_getLast v, ?_, ?_, ?_⟩
  · rw [WriteVariableInteger_last _ (by decide)]; decide
  · rw [WriteVariableInteger_last _ (by decide)]; decide
  · rw [WriteVariableInteger_cons _ (by decide), WriteVariableInteger_last _ (by decide)]
    decide

/-- Witness of C2 at `v = 2^64 - 1`, the largest argument: ten bytes. -/
theorem WriteVariableInteger_minimal_base128_witness :
    (WriteVariableInteger (2 ^ 64 - 1)).length = 10 :=
  (WriteVariableInteger_minimal_base128 (2 ^ 64 - 1) (by decide)).1.trans (by
    have h : Nat.size (2 ^ 64 - 1) = 64 := by
      apply Nat.le_antisymm
      · exact Nat.size_le.mpr (by decide)
      · exact Nat.lt_size.mpr (by decide)
    rw [h]
    decide)

theorem byte_high_bit (c : Byte) : (c.val &&& 0x80 ≠ 0) ↔ 128 ≤ c.val := by
  revert c; decide

theorem byte_low_bits (c : Byte) : c.val &&& 0x7f = c.val % 128 := by
  have := Nat.and_pow_two_sub_one_eq_mod c.val 7
  simpa using this

theorem or_mod_two_pow32 (a b : Nat) : a % 2 ^ 32 ||| b % 2 ^ 32 = (a ||| b) % 2 ^ 32 := by
  apply Nat.eq_of_testBit_eq
  intro i
  simp only [Nat.testBit_or, Nat.testBit_mod_two_pow]
  cases decide (i < 32) <;> simp

theorem loop_base128 (b : Byte) (rest : List Byte) (hb : b.val < 128) (cs : List Byte) :
    ∀ V s acc, acc = V % 2 ^ 32 → V < 2 ^ s → (∀ c ∈ cs, 128 ≤ c.val) →
      ReadVariableInteger.loop acc s (cs ++ b :: rest)
        = .ok ((V + 2 ^ s * base128 (cs ++ [b])) % 2 ^ 32) rest := by
  induction cs with
  | nil =>
    intro V s acc hacc hV _
    have h0 : ¬ (b.val &&& 0x80 ≠ 0) := by rw [byte_high_bit]; omega
    simp only [List.nil_append, ReadVariableInteger.loop, h0, if_false, byte_low_bits,
      base128, shl32, hacc, or_mod_two_pow32, Nat.shiftLeft_eq, Nat.mul_zero, Nat.add_zero]
    rw [Nat.or_comm, Nat.mul_comm (b.val % 128), ← Nat.mul_add_lt_is_or hV, Nat.add_comm]
  | cons c cs ih =>
    intro V s acc hacc hV hcs
    have h1 : c.val &&& 0x80 ≠ 0 := (byte_high_bit c).mpr (hcs c (List.mem_cons_self _ _))
    have hp : 0 < 2 ^ s := Nat.two_pow_pos s
    have hpow : 2 ^ (s + 7) = 2 ^ s * 128 := by rw [Nat.pow_add]
    have hlow : 2 ^ s * (c.val % 128) ≤ 2 ^ s * 127 :=
      Nat.mul_le_mul_left _ (by omega)
    have hstep : acc ||| shl32 (c.val &&& 0x7f) s = (V + 2 ^ s * (c.val % 128)) % 2 ^ 32 := by
      rw [byte_low_bits, shl32, hacc, or_mod_two_pow32, Nat.shiftLeft_eq, Nat.or_comm,
        Nat.mul_comm (c.val % 128), ← Nat.mul_add_lt_is_or hV, Nat.add_comm]
    simp only [List.cons_append, ReadVariableInteger.loop, hstep, List.append_eq]
    rw [if_pos h1]
    rw [ih (V + 2 ^ s * (c.val % 128)) (s + 7) _ rfl (by rw [hpow]; omega)
      (fun x hx => hcs x (List.mem_cons_of_mem _ hx))]
    congr 2
    simp only [List.cons_append, base128, hpow]
    ring

theorem loop_error (r : List Byte) :
    ∀ v s e rest, ReadVariableInteger.loop v s r = .error e rest →
      e = .receivedPacketTruncated ∧ rest = [] ∧ ∀ c ∈ r, 128 ≤ c.val := by
  induction r with
  | nil =>
    intro v s e rest h
    simp only [ReadVariableInteger.loop, Res.error.injEq] at h
    exact ⟨h.1.symm, h.2.symm, fun c hc => by cases hc⟩
  | cons b t ih =>
    intro v s e rest h
    simp only [ReadVariableInteger.loop] at h
    split at h
    · rename_i hb
      obtain ⟨h1, h2, h3⟩ := ih _ _ e rest h
      refine ⟨h1, h2, fun c hc => ?_⟩
      rcases List.mem_cons.mp hc with rfl | hc
      · exact (byte_high_bit c).mp hb
      · exact h3 c hc
    · cases h

/-- C3, as the code has it. `ReadVariableInteger` has no check of its own on
the length of an integer or on the bits it drops. Given at most four
continuation bytes `cs` (bit 7 set) followed by a byte `b` with bit 7 clear,
it succeeds, consumes exactly those bytes and returns their little-endian
base-128 value reduced modulo `2^32`: the bits 4..6 of a fifth byte are
dropped without an error. The one exception it can raise is the truncation
error of `ReadByte`, and only when every byte left in the buffer has bit 7
set. (With more than five bytes the shift count reaches 32, for which C++
defines no result; the statement does not cover those inputs.) -/
theorem ReadVariableInteger_no_length_check (cs : List Byte) (b : Byte) (rest : List Byte)
    (hcs : ∀ c ∈ cs, 128 ≤ c.val) (hb : b.val < 128) (_hlen : cs.length ≤ 4) :
    ReadVariableInteger (cs ++ b :: rest) = .ok (base128 (cs ++ [b]) % 2 ^ 32) rest ∧
    ∀ r e rest1, ReadVariableInteger r = .error e rest1 →
      e = .receivedPacketTruncated ∧ rest1 = [] ∧ ∀ c ∈ r, 128 ≤ c.val := by
  constructor
  · have := loop_base128 b rest hb cs 0 0 0 (by decide) (by decide) hcs
    simpa [ReadVariableInteger] using this
  · intro r e rest1 h
    exact loop_error r 0 0 e rest1 h

/-- Witness of C3 as the code has it: the five bytes `FF FF FF FF 7F` followed by `00`. -/
theorem ReadVariableInteger_no_length_check_witness :
    ReadVariableInteger ([0xFF, 0xFF, 0xFF, 0xFF] ++ 0x7F :: [0x00])
      = .ok (base128 ([0xFF, 0xFF, 0xFF, 0xFF] ++ [0x7F]) % 2 ^ 32) [0x00] :=
  (ReadVariableInteger_no_length_check [0xFF, 0xFF, 0xFF, 0xFF] 0x7F [0x00]
    (by decide) (by decide) (by decide)).1

/-- Counterexample to C3 as stated: a five-byte integer whose fifth byte `7F`
has bits 4, 5 and 6 set is not rejected; the read returns `2^32 - 1`. -/
theorem ReadVariableInteger_accepts_overflowing_fifth_byte :
    ReadVariableInteger [0xFF, 0xFF, 0xFF, 0xFF, 0x7F] = .ok 4294967295 [] := by
  decide

/-! ## Length-prefixed byte strings -/

theorem ReadBytes_eq (r : List Byte) :
    ReadBytes r = match ReadVariableInteger r with
      | .ok len r1 =>
        if len > 1024 * 1024 then .error (.stringTooLong len) r1
        else if len ≤ r1.length then .ok (cStr (r1.take len)) (r1.drop len)
        else .error .receivedPacketTruncated r1
      | .error e r1 => .error e r1 := by
  unfold ReadBytes
  rw [Reader_bind_apply]
  cases ReadVariableInteger r with
  | error e r1 => rfl
  | ok len r1 =>
    simp only
    split
    · rfl
    · rw [Reader_bind_apply]
      by_cases h : len ≤ r1.length
      · simp only [ReadData, h, if_true]
        rfl
      · simp only [ReadData, h, if_false]

/-- C4. `ReadBytes` enforces the cap of 1 MiB exactly. Whenever the length
prefix decodes to `L` leaving the reader at `r1`: if `L > 1048576` the read
fails with the string-too-long error and the reader is still at `r1`, just
after the prefix, no payload byte consumed; if `L ≤ 1048576` the read never
fails with that error; and for `L = 1048576` with `L` payload bytes available
it succeeds, consuming those `L` bytes. -/
theorem ReadBytes_size_cap (r : List Byte) (L : Nat) (r1 : List Byte)
    (hL : ReadVariableInteger r = .ok L r1) :
    (1048576 < L → ReadBytes r = .error (.stringTooLong L) r1) ∧
    (L ≤ 1048576 → ∀ len rest, ReadBytes r ≠ .error (.stringTooLong len) rest) ∧
    (L = 1048576 → L ≤ r1.length →
      ReadBytes r = .ok (cStr (r1.take L)) (r1.drop L)) := by
  rw [ReadBytes_eq, hL]
  refine ⟨fun h => ?_, fun h len rest => ?_, fun h h1 => ?_⟩
  · simp [h]
  · have : ¬ (L > 1024 * 1024) := by omega
    simp only [this, if_false]
    split <;> simp
  · have : ¬ (L > 1024 * 1024) := by omega
    simp [this, h1]

/-- Witness of C4: the prefix `81 80 40` decodes to `1048577`, one more than
the cap, and the byte after it is not consumed. -/
theorem ReadBytes_size_cap_witness :
    ReadBytes [0x81, 0x80, 0x40, 0x07] = .error (.stringTooLong 1048577) [0x07] :=
  (ReadBytes_size_cap [0x81, 0x80, 0x40, 0x07] 1048577 [0x07] (by decide)).1 (by decide)

theorem ReadBytes_WriteBytes (str : Str) (h : str.length ≤ 1048576) (rest : List Byte) :
    ReadBytes (WriteBytes str ++ rest) = .ok (cStr str) rest := by
  rw [ReadBytes_eq]
  unfold WriteBytes
  rw [List.append_assoc, read_write_varint _ (by omega)]
  have h1 : ¬ (str.length > 1024 * 1024) := by omega
  simp only [h1, if_false, List.length_append, Nat.le_add_right, if_true,
    List.take_left, List.drop_left]

theorem cStr_eq_self_iff (str : Str) : cStr str = str ↔ ∀ b ∈ str, b ≠ 0 := by
  unfold cStr
  rw [List.takeWhile_eq_self_iff]
  simp

/-! ## Greeting -/

theorem GreetingPacket_Decode_eq (data : List Byte) :
    GreetingPacket.Decode data =
      match ReadString (PacketReader data) with
      | .error e _ => .error e
      | .ok magic r1 =>
        if magic ≠ Hello then .error .invalidMagic
        else
          match ReadBytes r1 with
          | .error e _ => .error e
          | .ok nonce _ => .ok { nonce := nonce } := by
  unfold GreetingPacket.Decode GreetingPacket.Decode.read
  rw [Reader_bind_apply]
  cases ReadString (PacketReader data) with
  | error e r1 => rfl
  | ok magic r1 =>
    simp only
    split
    · rfl
    · rw [Reader_bind_apply]
      cases ReadBytes r1 with
      | error e r2 => rfl
      | ok nonce r2 => rfl

theorem GreetingPacket_Decode_Generate (packetType : Byte) (g : GreetingPacket)
    (h : g.nonce.length ≤ 1048576) :
    GreetingPacket.Decode (GreetingPacket.Generate packetType g)
      = .ok { nonce := cStr g.nonce } := by
  rw [GreetingPacket_Decode_eq]
  unfold GreetingPacket.Generate ToArray PacketReader ReadString WriteString
  simp only [List.drop_succ_cons, List.drop_zero]
  rw [ReadBytes_WriteBytes Hello (by decide)]
  have hH : cStr Hello = Hello := by decide
  simp only [hH, ne_eq, not_true_eq_false, if_false]
  have := ReadBytes_WriteBytes g.nonce h []
  rw [List.append_nil] at this
  rw [this]

/-- C5, as the code has it. For every `GreetingPacket` `g` whose nonce is at
most 1 MiB long, `Decode (Generate g)` succeeds and the decoded nonce is the
part of `g.nonce` before its first zero byte (`ReadBytes` converts what it
read to a C string). So the nonce comes back byte for byte exactly when it
contains no zero byte. -/
theorem GreetingPacket_nonce_round_trip (packetType : Byte) (g : GreetingPacket)
    (h : g.nonce.length ≤ 1048576) :
    GreetingPacket.Decode (GreetingPacket.Generate packetType g)
      = .ok { nonce := g.nonce.takeWhile (fun b => b ≠ 0) } ∧
    (GreetingPacket.Decode (GreetingPacket.Generate packetType g) = .ok g
      ↔ ∀ b ∈ g.nonce, b ≠ 0) := by
  have hd := GreetingPacket_Decode_Generate packetType g h
  refine ⟨hd, ?_⟩
  rw [hd, ← cStr_eq_self_iff]
  constructor
  · intro heq
    have := congrArg (fun x => match x with
      | Except.ok (p : GreetingPacket) => p.nonce
      | Except.error _ => []) heq
    simpa using this
  · intro heq
    rw [heq]

/-- Witness of C5 as the code has it: the nonce `41 42 43`. -/
theorem GreetingPacket_nonce_round_trip_witness :
    GreetingPacket.Decode (GreetingPacket.Generate 0 { nonce := [0x41, 0x42, 0x43] })
      = .ok { nonce := [0x41, 0x42, 0x43] } :=
  (GreetingPacket_nonce_round_trip 0 { nonce := [0x41, 0x42, 0x43] } (by decide)).2.mpr
    (by decide)

/-- Counterexample to C5 as stated: the nonce `41 00 42` is written in full
(`Generate` gives type byte, `05 "Hello"`, `03 41 00 42`) and decodes to the
one-byte nonce `41`. -/
theorem GreetingPacket_nonce_with_zero_byte_truncated :
    GreetingPacket.Generate 0 { nonce := [0x41, 0x00, 0x42] }
      = [0, 5, 72, 101, 108, 108, 111, 3, 0x41, 0x00, 0x42] ∧
    GreetingPacket.Decode [0, 5, 72, 101, 108, 108, 111, 3, 0x41, 0x00, 0x42]
      = .ok { nonce := [0x41] } := by
  constructor
  · simp only [GreetingPacket.Generate, ToArray, WriteString, WriteBytes, Hello,
      List.length_cons, List.length_nil]
    rw [WriteVariableInteger_last _ (by decide), WriteVariableInteger_last _ (by decide)]
    decide
  · rfl

/-- C6, as the code has it. `GreetingPacket::Decode` compares the magic after
`ReadString` has cut the field at its first zero byte. For every buffer:
when the first payload field is well formed (its length prefix decodes to
`L ≤ 1 MiB` and `L` bytes follow) and the bytes of the field before its first
zero byte are not `Hello`, `Decode` fails with the invalid-magic error; and
`Decode` succeeds exactly when the first field is well formed, its bytes
before the first zero byte are `Hello`, and a well-formed blob, the nonce,
follows. -/
theorem GreetingPacket_Decode_magic (data : List Byte) :
    (∀ L r1, ReadVariableInteger (PacketReader data) = .ok L r1 →
      L ≤ 1048576 → L ≤ r1.length → cStr (r1.take L) ≠ Hello →
      GreetingPacket.Decode data = .error .invalidMagic) ∧
    (∀ p, GreetingPacket.Decode data = .ok p ↔
      ∃ L r1 rest, ReadVariableInteger (PacketReader data) = .ok L r1 ∧
        L ≤ 1048576 ∧ L ≤ r1.length ∧ cStr (r1.take L) = Hello ∧
        ReadBytes (r1.drop L) = .ok p.nonce rest) := by
  constructor
  · intro L r1 hL hcap havail hne
    rw [GreetingPacket_Decode_eq]
    unfold ReadString
    rw [ReadBytes_eq, hL]
    have h1 : ¬ (L > 1024 * 1024) := by omega
    simp only [h1, if_false, havail, if_true, ne_eq, hne, not_false_eq_true]
  · intro p
    rw [GreetingPacket_Decode_eq]
    unfold ReadString
    rw [ReadBytes_eq]
    cases hV : ReadVariableInteger (PacketReader data) with
    | error e r1 => simp
    | ok L r1 =>
      simp only
      by_cases hcap : L > 1024 * 1024
      · simp only [hcap, if_true]
        constructor
        · intro h; cases h
        · rintro ⟨L1, r2, rest, h1, h2, -⟩
          cases h1
          omega
      · simp only [hcap, if_false]
        by_cases havail : L ≤ r1.length
        · simp only [havail, if_true]
          by_cases hm : cStr (r1.take L) = Hello
          · simp only [hm, ne_eq, not_true_eq_false, if_false]
            cases hN : ReadBytes (r1.drop L) with
            | error e r3 =>
              constructor
              · intro h; cases h
              · rintro ⟨L1, r2, rest, h1, -, -, -, h5⟩
                cases h1
                rw [hN] at h5
                cases h5
            | ok nonce r3 =>
              constructor
              · intro h
                cases h
                exact ⟨L, r1, r3, rfl, by omega, havail, hm, hN⟩
              · rintro ⟨L1, r2, rest, h1, -, -, -, h5⟩
                cases h1
                rw [hN] at h5
                cases h5
                rfl
          · simp only [ne_eq, hm, not_false_eq_true, if_true]
            constructor
            · intro h; cases h
            · rintro ⟨L1, r2, rest, h1, -, -, h4, -⟩
              cases h1
              exact absurd h4 hm
        · simp only [havail, if_false]
          constructor
          · intro h; cases h
          · rintro ⟨L1, r2, rest, h1, -, h3, -⟩
            cases h1
            exact absurd h3 havail

/-- Witness of C6 as the code has it: a first field `"Hellp"` is rejected. -/
theorem GreetingPacket_Decode_magic_witness :
    GreetingPacket.Decode [0, 5, 72, 101, 108, 108, 112, 0] = .error .invalidMagic :=
  (GreetingPacket_Decode_magic [0, 5, 72, 101, 108, 108, 112, 0]).1 5
    [72, 101, 108, 108, 112, 0] (by decide) (by decide) (by decide) (by decide)

/-- Counterexample to C6 as stated: the first field is the nine bytes
`"Hello" 00 "xyz"`, well formed and not the five bytes `Hello`, and `Decode`
succeeds (with the empty nonce that follows) instead of failing with the
invalid-magic error. -/
theorem GreetingPacket_Decode_accepts_magic_with_zero_tail :
    GreetingPacket.Decode [0, 9, 72, 101, 108, 108, 111, 0, 120, 121, 122, 0]
      = .ok { nonce := [] } := by
  rfl

/-! ## Dispatch -/

theorem charToSize_of_lt (s : Bool) (c : Byte) (h : c.val < 128) : charToSize s c = c.val := by
  unfold charToSize
  have : ¬ (128 ≤ c.val) := by omega
  simp [this]

theorem charToSize_of_ge (s : Bool) (c : Byte) (h : 128 ≤ c.val) : 128 ≤ charToSize s c := by
  unfold charToSize
  split
  · have := c.isLt
    omega
  · exact h

/-- C7. `Packet::Decode`, for every table of decoders and whether `char` is
signed or not: on the empty buffer it fails with the packet-truncated error;
on a buffer whose first byte is 128 or more (high bit set), or indexes a slot
with no decoder, it returns null without raising, whatever the decoders of the
table do (none is applied); otherwise the result is that of the decoder
registered for the first byte, applied to the whole buffer. In particular a
first byte 127 with slot 127 empty gives null. -/
theorem Packet_Decode_dispatch {P : Type} (charIsSigned : Bool)
    (table : Nat → Option (PacketDecodeFuncType P)) :
    Packet.Decode charIsSigned table [] = .error .packetTruncated ∧
    (∀ c rest, (128 ≤ c.val ∨ table c.val = none) →
      Packet.Decode charIsSigned table (c :: rest) = .ok none) ∧
    (∀ c rest ptr, c.val < 128 → table c.val = some ptr →
      Packet.Decode charIsSigned table (c :: rest) = ptr (c :: rest)) ∧
    (∀ rest, table 127 = none →
      Packet.Decode charIsSigned table (127 :: rest) = .ok none) := by
  have key : ∀ c rest, (128 ≤ c.val ∨ table c.val = none) →
      Packet.Decode charIsSigned table (c :: rest) = .ok none := by
    intro c rest h
    unfold Packet.Decode
    simp only
    by_cases hc : 128 ≤ c.val
    · have := charToSize_of_ge charIsSigned c hc
      simp [this]
    · rw [charToSize_of_lt charIsSigned c (by omega)]
      rcases h with h | h
      · exact absurd h hc
      · simp [h]
  refine ⟨rfl, key, ?_, ?_⟩
  · intro c rest ptr hc hp
    unfold Packet.Decode
    simp only
    rw [charToSize_of_lt charIsSigned c hc]
    have : ¬ (c.val ≥ 128) := by omega
    simp [this, hp]
  · intro rest h
    exact key 127 rest (Or.inr h)

/-- Witness of C7: with `char` signed, a table whose only decoder sits at
index 3 and a buffer starting with `FF`, the result is null. -/
theorem Packet_Decode_dispatch_witness :
    Packet.Decode true
      (fun i => if i = 3 then some (fun (_ : List Byte) => Except.ok (some ())) else none)
      [0xFF, 0x01] = .ok none :=
  (Packet_Decode_dispatch true
    (fun i => if i = 3 then some (fun (_ : List Byte) => Except.ok (some ())) else none)).2.1
    0xFF [0x01] (Or.inl (by decide))

/-! ## Maps -/

theorem strLt_irrefl (a : Str) : strLt a a = false := by
  induction a with
  | nil => rfl
  | cons x xs ih => simp [strLt, ih]

theorem strLt_asymm (a : Str) : ∀ b, strLt a b = true → strLt b a = false := by
  induction a with
  | nil => intro b h; cases b <;> simp [strLt] at h ⊢
  | cons x xs ih =>
    intro b h
    cases b with
    | nil => simp [strLt] at h
    | cons y ys =>
      simp only [strLt] at h ⊢
      by_cases h1 : x.val < y.val
      · have h2 : ¬ (y.val < x.val) := by omega
        simp [h2, h1]
      · by_cases h2 : y.val < x.val
        · simp [h1, h2] at h
        · simp only [h1, h2, if_false] at h ⊢
          exact ih ys h

theorem strLt_trans (a : Str) : ∀ b c, strLt a b = true → strLt b c = true →
    strLt a c = true := by
  induction a with
  | nil =>
    intro b c h1 h2
    cases b with
    | nil => simp [strLt] at h1
    | cons y ys =>
      cases c with
      | nil => simp [strLt] at h2
      | cons z zs => simp [strLt]
  | cons x xs ih =>
    intro b c h1 h2
    cases b with
    | nil => simp [strLt] at h1
    | cons y ys =>
      cases c with
      | nil => simp [strLt] at h2
      | cons z zs =>
        simp only [strLt] at h1 h2 ⊢
        by_cases hxy : x.val < y.val
        · by_cases hyz : y.val < z.val
          · have : x.val < z.val := by omega
            simp [this]
          · by_cases hzy : z.val < y.val
            · simp [hyz, hzy] at h2
            · have : x.val < z.val := by omega
              simp [this]
        · by_cases hyx : y.val < x.val
          · simp [hxy, hyx] at h1
          · simp only [hxy, hyx, if_false] at h1
            by_cases hyz : y.val < z.val
            · have : x.val < z.val := by omega
              simp [this]
            · by_cases hzy : z.val < y.val
              · simp [hyz, hzy] at h2
              · simp only [hyz, hzy, if_false] at h2
                have e1 : ¬ (x.val < z.val) := by omega
                have e2 : ¬ (z.val < x.val) := by omega
                simp only [e1, e2, if_false]
                exact ih ys zs h1 h2

theorem strLt_connex (a : Str) : ∀ b, strLt a b = false → strLt b a = false → a = b := by
  induction a with
  | nil => intro b h1 h2; cases b <;> simp [strLt] at h1 ⊢
  | cons x xs ih =>
    intro b h1 h2
    cases b with
    | nil => simp [strLt] at h2
    | cons y ys =>
      simp only [strLt] at h1 h2
      by_cases hxy : x.val < y.val
      · simp [hxy] at h1
      · by_cases hyx : y.val < x.val
        · simp [hyx] at h2
        · simp only [hxy, hyx, if_false] at h1 h2
          have : x = y := Fin.ext (by omega)
          rw [this, ih ys h1 h2]

theorem StdMap_mem_insert (dict : StdMap) (key value : Str) :
    ∀ e, e ∈ StdMap.insert dict key value → e ∈ dict ∨ e = (key, value) := by
  induction dict with
  | nil => intro e h; simp [StdMap.insert] at h; exact Or.inr h
  | cons kv rest ih =>
    obtain ⟨k, v⟩ := kv
    intro e h
    simp only [StdMap.insert] at h
    split at h
    · rcases List.mem_cons.mp h with h | h
      · exact Or.inr h
      · exact Or.inl h
    · split at h
      · rcases List.mem_cons.mp h with h | h
        · exact Or.inl (h ▸ List.mem_cons_self _ _)
        · rcases ih e h with h | h
          · exact Or.inl (List.mem_cons_of_mem _ h)
          · exact Or.inr h
      · exact Or.inl h

theorem StdMap_insert_WF (dict : StdMap) (key value : Str) (h : StdMap.WF dict) :
    StdMap.WF (StdMap.insert dict key value) := by
  induction dict with
  | nil => simp [StdMap.insert, StdMap.WF]
  | cons kv rest ih =>
    obtain ⟨k, v⟩ := kv
    unfold StdMap.WF at h ih ⊢
    rw [List.pairwise_cons] at h
    simp only [StdMap.insert]
    split
    · rename_i hlt
      rw [List.pairwise_cons, List.pairwise_cons]
      refine ⟨fun e he => ?_, h⟩
      rcases List.mem_cons.mp he with rfl | he
      · exact hlt
      · exact strLt_trans key k e.1 hlt (h.1 e he)
    · split
      · rename_i hgt
        rw [List.pairwise_cons]
        refine ⟨fun e he => ?_, ih h.2⟩
        rcases StdMap_mem_insert rest key value e he with he | rfl
        · exact h.1 e he
        · exact hgt
      · rw [List.pairwise_cons]
        exact h

theorem StdMap_find_of_lt (dict : StdMap) (key : Str)
    (h : ∀ e ∈ dict, strLt key e.1 = true) : StdMap.find dict key = none := by
  unfold StdMap.find
  rw [Option.map_eq_none', List.find?_eq_none]
  intro e he
  have := h e he
  simp only [decide_eq_true_eq]
  intro heq
  rw [heq, strLt_irrefl] at this
  cases this

theorem StdMap_find_cons (kv : Str × Str) (rest : StdMap) (key : Str) :
    StdMap.find (kv :: rest) key = if kv.1 = key then some kv.2 else StdMap.find rest key := by
  unfold StdMap.find
  rw [List.find?_cons]
  by_cases h : kv.1 = key <;> simp [h]

theorem StdMap_find_insert (dict : StdMap) (key value : Str) (h : StdMap.WF dict) (k : Str) :
    StdMap.find (StdMap.insert dict key value) k =
      match StdMap.find dict k with
      | some x => some x
      | none => if key = k then some value else none := by
  induction dict with
  | nil => simp [StdMap.insert, StdMap.find]
  | cons kv rest ih =>
    obtain ⟨k0, v0⟩ := kv
    unfold StdMap.WF at h ih
    rw [List.pairwise_cons] at h
    simp only [StdMap.insert]
    split
    · rename_i hlt
      rw [StdMap_find_cons]
      by_cases hk : key = k
      · subst hk
        have hnone : StdMap.find ((k0, v0) :: rest) key = none := by
          apply StdMap_find_of_lt
          intro e he
          rcases List.mem_cons.mp he with rfl | he
          · exact hlt
          · exact strLt_trans key k0 e.1 hlt (h.1 e he)
        simp [hnone]
      · simp only [hk, if_false]
        cases StdMap.find ((k0, v0) :: rest) k <;> rfl
    · rename_i hnlt
      split
      · rw [StdMap_find_cons, StdMap_find_cons, ih h.2]
        by_cases hk0 : k0 = k
        · simp [hk0]
        · simp [hk0]
      · rename_i hngt
        have heq : key = k0 :=
          strLt_connex key k0 (by simpa using hnlt) (by simpa using hngt)
        subst heq
        rw [StdMap_find_cons]
        by_cases hk : key = k
        · simp [hk]
        · simp only [hk, if_false]
          cases StdMap.find rest k <;> rfl

theorem StdMap_insert_last (dict : StdMap) (key value : Str)
    (h : ∀ e ∈ dict, strLt e.1 key = true) :
    StdMap.insert dict key value = dict ++ [(key, value)] := by
  induction dict with
  | nil => rfl
  | cons kv rest ih =>
    obtain ⟨k, v⟩ := kv
    have h1 : strLt k key = true := h (k, v) (List.mem_cons_self _ _)
    have h2 : strLt key k = false := strLt_asymm k key h1
    simp only [StdMap.insert, h1, h2, if_true, List.cons_append]
    simp only [Bool.false_eq_true, if_false]
    rw [ih (fun e he => h e (List.mem_cons_of_mem _ he))]

theorem StdMap_foldl_insert_sorted (l : StdMap) :
    ∀ acc : StdMap, StdMap.WF (acc ++ l) →
      List.foldl (fun m e => StdMap.insert m e.1 e.2) acc l = acc ++ l := by
  induction l with
  | nil => intro acc _; simp
  | cons e t ih =>
    intro acc h
    have h1 : StdMap.insert acc e.1 e.2 = acc ++ [e] := by
      apply StdMap_insert_last
      intro x hx
      unfold StdMap.WF at h
      rw [List.pairwise_append] at h
      exact h.2.2 x hx e (List.mem_cons_self _ _)
    rw [List.foldl_cons, h1, ih (acc ++ [e]) (by simpa using h)]
    simp

theorem ReadString_WriteString (str : Str) (h : PlainStr str) (rest : List Byte) :
    ReadString (WriteString str ++ rest) = .ok str rest := by
  unfold ReadString WriteString
  rw [ReadBytes_WriteBytes str h.2 rest, (cStr_eq_self_iff str).mpr h.1]

theorem WriteString_nil : WriteString [] = [0] := by
  unfold WriteString WriteBytes
  rw [List.length_nil, WriteVariableInteger_last 0 (by decide)]
  rfl

theorem ReadMap_loop_end (acc : StdMap) (rest : List Byte) :
    ReadMap.loop acc (WriteString [] ++ rest) = .ok acc rest := by
  have h := ReadString_WriteString [] ⟨by simp, by simp⟩ rest
  rw [ReadMap.loop]
  split
  · rename_i e r1 heq
    rw [h] at heq
    cases heq
  · rename_i key r1 heq
    rw [h] at heq
    cases heq
    simp

theorem ReadMap_loop_pair (acc : StdMap) (key value : Str) (hne : key ≠ [])
    (hk : PlainStr key) (hv : PlainStr value) (r : List Byte) :
    ReadMap.loop acc (WriteString key ++ WriteString value ++ r)
      = ReadMap.loop (StdMap.insert acc key value) r := by
  have h1 := ReadString_WriteString key hk (WriteString value ++ r)
  have h2 := ReadString_WriteString value hv r
  rw [← List.append_assoc] at h1
  rw [ReadMap.loop]
  split
  · rename_i e r1 heq
    rw [h1] at heq
    cases heq
  · rename_i key1 r1 heq
    rw [h1] at heq
    cases heq
    have : key.isEmpty = false := by
      cases key with
      | nil => exact absurd rfl hne
      | cons _ _ => rfl
    simp only [this, Bool.false_eq_true, if_false]
    split
    · rename_i e r2 heq2
      rw [h2] at heq2
      cases heq2
    · rename_i value1 r2 heq2
      rw [h2] at heq2
      cases heq2
      rfl

theorem ReadMap_loop_WritePairs (l : List (Str × Str))
    (hl : ∀ e ∈ l, e.1 ≠ [] ∧ PlainStr e.1 ∧ PlainStr e.2) (rest : List Byte) :
    ∀ acc : StdMap, ReadMap.loop acc (WritePairs l ++ WriteString [] ++ rest)
      = .ok (List.foldl (fun m e => StdMap.insert m e.1 e.2) acc l) rest := by
  induction l with
  | nil =>
    intro acc
    simp only [WritePairs, List.nil_append, List.foldl_nil]
    exact ReadMap_loop_end acc rest
  | cons e t ih =>
    intro acc
    obtain ⟨h1, h2, h3⟩ := hl e (List.mem_cons_self _ _)
    simp only [WritePairs, List.foldl_cons, List.append_assoc]
    have := ReadMap_loop_pair acc e.1 e.2 h1 h2 h3 (WritePairs t ++ (WriteString [] ++ rest))
    simp only [List.append_assoc] at this
    rw [this]
    have := ih (fun x hx => hl x (List.mem_cons_of_mem _ hx)) (StdMap.insert acc e.1 e.2)
    simp only [List.append_assoc] at this
    exact this

theorem WriteMap_loop_eq (dict : StdMap) :
    WriteMap.loop dict = WritePairs (dict.filter (fun e => !e.1.isEmpty)) := by
  induction dict with
  | nil => rfl
  | cons e t ih =>
    simp only [WriteMap.loop, List.filter_cons]
    cases he : e.1.isEmpty
    · simp [WritePairs, ih]
    · simp [ih]

theorem StdMap_foldl_WF (l : List (Str × Str)) :
    ∀ acc : StdMap, StdMap.WF acc →
      StdMap.WF (List.foldl (fun m e => StdMap.insert m e.1 e.2) acc l) := by
  induction l with
  | nil => intro acc h; exact h
  | cons e t ih =>
    intro acc h
    exact ih _ (StdMap_insert_WF acc e.1 e.2 h)

theorem StdMap_find_foldl (l : List (Str × Str)) :
    ∀ acc : StdMap, StdMap.WF acc → ∀ k,
      StdMap.find (List.foldl (fun m e => StdMap.insert m e.1 e.2) acc l) k =
        match StdMap.find acc k with
        | some x => some x
        | none => (List.find? (fun e => decide (e.1 = k)) l).map (fun e => e.2) := by
  induction l with
  | nil =>
    intro acc _ k
    simp only [List.foldl_nil, List.find?_nil, Option.map_none']
    cases StdMap.find acc k <;> rfl
  | cons e t ih =>
    intro acc h k
    rw [List.foldl_cons, ih _ (StdMap_insert_WF acc e.1 e.2 h) k,
      StdMap_find_insert acc e.1 e.2 h k, List.find?_cons]
    cases StdMap.find acc k with
    | some x => rfl
    | none =>
      by_cases hk : e.1 = k
      · simp [hk]
      · simp [hk]

theorem ReadMap_WritePairs (l : List (Str × Str))
    (hl : ∀ e ∈ l, e.1 ≠ [] ∧ PlainStr e.1 ∧ PlainStr e.2) (rest : List Byte) :
    ReadMap (WritePairs l ++ WriteString [] ++ rest)
      = .ok (List.foldl (fun m e => StdMap.insert m e.1 e.2) [] l) rest :=
  ReadMap_loop_WritePairs l hl rest []

theorem ReadMap_WriteMap (m : StdMap) (hWF : StdMap.WF m)
    (hm : ∀ e ∈ m, PlainStr e.1 ∧ PlainStr e.2) (rest : List Byte) :
    ReadMap (WriteMap m ++ rest) = .ok (m.filter (fun e => !e.1.isEmpty)) rest := by
  unfold WriteMap
  rw [WriteMap_loop_eq, ReadMap_WritePairs]
  · have hsorted : StdMap.WF ([] ++ m.filter (fun e => !e.1.isEmpty)) := by
      unfold StdMap.WF at hWF ⊢
      exact hWF.sublist (List.filter_sublist m)
    rw [StdMap_foldl_insert_sorted _ [] hsorted, List.nil_append]
  · intro e he
    rw [List.mem_filter] at he
    refine ⟨?_, hm e he.1⟩
    intro h0
    rw [h0] at he
    simp at he

/-- C8. For every string map `m` (entries in strictly increasing key order)
whose keys and values contain no zero byte and are at most 1 MiB long:
`WriteMap m` is the concatenation of the length-prefixed (key, value) pairs of
the entries with a non-empty key, followed by one zero-length key (the single
byte `00`); and `ReadMap` of that output returns `m` without its empty-key
entry, leaving what follows unread. In particular the map with entries
`"" ↦ "x"` and `"a" ↦ "b"` is written as `01 'a' 01 'b' 00` and read back as
the map with the one entry `"a" ↦ "b"`. -/
theorem WriteMap_ReadMap_round_trip (m : StdMap) (hWF : StdMap.WF m)
    (hm : ∀ e ∈ m, PlainStr e.1 ∧ PlainStr e.2) :
    WriteMap m = WritePairs (m.filter (fun e => !e.1.isEmpty)) ++ WriteString [] ∧
    WriteString [] = [0] ∧
    (∀ rest, ReadMap (WriteMap m ++ rest) = .ok (m.filter (fun e => !e.1.isEmpty)) rest) ∧
    WriteMap [([], [120]), ([97], [98])] = [1, 97, 1, 98, 0] ∧
    ReadMap [1, 97, 1, 98, 0] = .ok [([97], [98])] [] := by
  have hex : WriteMap [([], [120]), ([97], [98])] = [1, 97, 1, 98, 0] := by
    simp only [WriteMap, WriteMap.loop, WriteString, WriteBytes, List.isEmpty_nil,
      List.isEmpty_cons, if_true, List.length_cons, List.length_nil]
    rw [WriteVariableInteger_last 0 (by decide), WriteVariableInteger_last 1 (by decide)]
    decide
  refine ⟨?_, WriteString_nil, ReadMap_WriteMap m hWF hm, hex, ?_⟩
  · unfold WriteMap
    rw [WriteMap_loop_eq]
  · have h := ReadMap_WriteMap [([], [120]), ([97], [98])] (by unfold StdMap.WF; decide)
      (by unfold PlainStr; decide) []
    rw [hex] at h
    exact h

/-- Witness of C8: the map with the entries `"a" ↦ "b"` and `"c" ↦ ""`. -/
theorem WriteMap_ReadMap_round_trip_witness :
    ReadMap (WriteMap [([97], [98]), ([99], [])] ++ [])
      = .ok (List.filter (fun e => !e.1.isEmpty) [([97], [98]), ([99], [])]) [] :=
  (WriteMap_ReadMap_round_trip [([97], [98]), ([99], [])] (by unfold StdMap.WF; decide)
    (by unfold PlainStr; decide)).2.2.1 []

theorem GameStateHeaderPacket_Decode_eq (data : List Byte) :
    GameStateHeaderPacket.Decode data =
      match ReadMap (PacketReader data) with
      | .ok m _ => .ok { properties := m }
      | .error e _ => .error e := by
  unfold GameStateHeaderPacket.Decode GameStateHeaderPacket.Decode.read
  rw [Reader_bind_apply]
  cases ReadMap (PacketReader data) <;> rfl

theorem GameStateFinalPacket_Decode_eq (data : List Byte) :
    GameStateFinalPacket.Decode data =
      match ReadMap (PacketReader data) with
      | .ok m _ => .ok { properties := m }
      | .error e _ => .error e := by
  unfold GameStateFinalPacket.Decode GameStateFinalPacket.Decode.read
  rw [Reader_bind_apply]
  cases ReadMap (PacketReader data) <;> rfl

/-- C9, as the code has it. `ReadMap` adds each pair with `std::map::insert`,
which leaves an existing entry untouched, so on a duplicate key the first
value wins. For every sequence `l` of pairs with non-empty keys (keys and
values without zero byte, at most 1 MiB long), reading the wire form of `l`
followed by the terminator succeeds with a map `m`, the same map that
`GameStateHeaderPacket::Decode` and `GameStateFinalPacket::Decode` store, and
`m` associates every key with the value of its first occurrence in `l` (and
holds no other key). -/
theorem ReadMap_first_value_wins (l : List (Str × Str))
    (hl : ∀ e ∈ l, e.1 ≠ [] ∧ PlainStr e.1 ∧ PlainStr e.2) (packetType : Byte) :
    ∃ m : StdMap,
      (∀ rest, ReadMap (WritePairs l ++ WriteString [] ++ rest) = .ok m rest) ∧
      GameStateHeaderPacket.Decode (ToArray packetType (WritePairs l ++ WriteString []))
        = .ok { properties := m } ∧
      GameStateFinalPacket.Decode (ToArray packetType (WritePairs l ++ WriteString []))
        = .ok { properties := m } ∧
      StdMap.WF m ∧
      ∀ key, StdMap.find m key
        = (List.find? (fun e => decide (e.1 = key)) l).map (fun e => e.2) := by
  refine ⟨List.foldl (fun m e => StdMap.insert m e.1 e.2) [] l,
    ReadMap_WritePairs l hl, ?_, ?_, ?_, ?_⟩
  · have h := ReadMap_WritePairs l hl []
    rw [List.append_nil] at h
    rw [GameStateHeaderPacket_Decode_eq]
    simp only [ToArray, PacketReader, List.drop_succ_cons, List.drop_zero, h]
  · have h := ReadMap_WritePairs l hl []
    rw [List.append_nil] at h
    rw [GameStateFinalPacket_Decode_eq]
    simp only [ToArray, PacketReader, List.drop_succ_cons, List.drop_zero, h]
  · exact StdMap_foldl_WF l [] (by simp [StdMap.WF])
  · intro key
    rw [StdMap_find_foldl l [] (by simp [StdMap.WF]) key]
    rfl

/-- Witness of C9 as the code has it: the pairs `"a" ↦ "1"`, `"a" ↦ "2"`. -/
theorem ReadMap_first_value_wins_witness :
    ∃ m : StdMap,
      (∀ rest, ReadMap (WritePairs [([97], [49]), ([97], [50])] ++ WriteString [] ++ rest)
        = .ok m rest) ∧
      GameStateHeaderPacket.Decode
        (ToArray 0 (WritePairs [([97], [49]), ([97], [50])] ++ WriteString []))
        = .ok { properties := m } ∧
      GameStateFinalPacket.Decode
        (ToArray 0 (WritePairs [([97], [49]), ([97], [50])] ++ WriteString []))
        = .ok { properties := m } ∧
      StdMap.WF m ∧
      ∀ key, StdMap.find m key
        = (List.find? (fun e => decide (e.1 = key)) [([97], [49]), ([97], [50])]).map
            (fun e => e.2) :=
  ReadMap_first_value_wins [([97], [49]), ([97], [50])] (by unfold PlainStr; decide) 0

/-- Counterexample to C9 as stated: on the wire sequence `"a" ↦ "1"`,
`"a" ↦ "2"`, terminator, the decoded map holds `"a" ↦ "1"`, the value of the
first occurrence, not `"2"`, the value of the last. -/
theorem ReadMap_duplicate_key_keeps_first :
    ReadMap [1, 97, 1, 49, 1, 97, 1, 50, 0] = .ok [([97], [49])] [] ∧
    StdMap.find [([97], [49])] [97] = some [49] := by
  constructor
  · have h := ReadMap_WritePairs [([97], [49]), ([97], [50])] (by unfold PlainStr; decide) []
    have hw : WritePairs [([97], [49]), ([97], [50])] ++ WriteString [] ++ []
        = [1, 97, 1, 49, 1, 97, 1, 50, 0] := by
      simp only [WritePairs, WriteString, WriteBytes, List.length_cons, List.length_nil]
      rw [WriteVariableInteger_last 0 (by decide), WriteVariableInteger_last 1 (by decide)]
      decide
    rw [hw] at h
    rw [h]
    decide
  · decide

/-! ## Entity updates -/

theorem DecodeEntityUpdateItems_end {Q : Type} (ext : External Q)
    (items : List (EntityUpdateItem Q)) :
    DecodeEntityUpdateItems ext items [] = .ok items [] := by
  rw [DecodeEntityUpdateItems]
  simp [IsEndOfPacket]

theorem DecodeEntityUpdateItems_ok {Q : Type} (ext : External Q)
    (items : List (EntityUpdateItem Q)) (b : Byte) (r : List Byte)
    (item : EntityUpdateItem Q) (r1 : List Byte)
    (h : DecodeEntityUpdateItem ext (b :: r) = .ok item r1) :
    DecodeEntityUpdateItems ext items (b :: r)
      = DecodeEntityUpdateItems ext (items ++ [item]) r1 := by
  rw [DecodeEntityUpdateItems]
  simp only [IsEndOfPacket, List.isEmpty_cons, Bool.false_eq_true, if_false]
  split
  · rename_i e r2 heq
    rw [h] at heq
    cases heq
  · rename_i item1 r2 heq
    rw [h] at heq
    cases heq
    rfl

theorem DecodeEntityUpdateItems_error {Q : Type} (ext : External Q)
    (items : List (EntityUpdateItem Q)) (b : Byte) (r : List Byte)
    (e : DecodeError) (r1 : List Byte)
    (h : DecodeEntityUpdateItem ext (b :: r) = .error e r1) :
    DecodeEntityUpdateItems ext items (b :: r) = .error e r1 := by
  rw [DecodeEntityUpdateItems]
  simp only [IsEndOfPacket, List.isEmpty_cons, Bool.false_eq_true, if_false]
  split
  · rename_i e1 r2 heq
    rw [h] at heq
    cases heq
    rfl
  · rename_i item1 r2 heq
    rw [h] at heq
    cases heq

/-- C10 at a failing input. The packet with the single item
`entityId = 1, create = true, type = 0` and no other group is written as the
packet type byte followed by `01 00 00`: the id, the flags byte `00` (the
Create bit is never set by `WriteEntityUpdateItem`) and the entity-type byte,
which is written all the same. `Decode` of those bytes reads an item with id 1
and no group, takes the last `00` for the id of a second item and fails with
the truncation error on its flags byte. -/
theorem EntityUpdatePacket_created_item_fails_round_trip {Q : Type} (ext : External Q)
    (packetType : Byte) :
    EntityUpdatePacket.Generate ext packetType
        { items := [{ EntityUpdateItem.new ext with entityId := 1, create := true, type := 0 }] }
      = .ok [packetType, 1, 0, 0] ∧
    EntityUpdatePacket.Decode ext [packetType, 1, 0, 0]
      = .error .receivedPacketTruncated := by
  constructor
  · have h1 : WriteVariableInteger 1 = [1] := by
      rw [WriteVariableInteger_last 1 (by decide)]; rfl
    simp only [EntityUpdatePacket.Generate, WriteEntityUpdateItems, WriteEntityUpdateItem,
      EntityUpdateItem.new, h1]
    rfl
  · have s1 : DecodeEntityUpdateItem ext [1, 0, 0]
        = .ok { EntityUpdateItem.new ext with entityId := 1 } [0] := rfl
    have s2 : DecodeEntityUpdateItem ext [0] = .error .receivedPacketTruncated [] := rfl
    unfold EntityUpdatePacket.Decode PacketReader
    simp only [List.drop_succ_cons, List.drop_zero]
    rw [DecodeEntityUpdateItems_ok ext [] 1 [0, 0] _ _ s1,
      DecodeEntityUpdateItems_error ext _ 0 [] _ _ s2]

/-! ## Certificates -/

theorem ServerCertificatePacket_Decode_eq (c v : Byte) (rest : List Byte) :
    ServerCertificatePacket.Decode (c :: v :: rest) =
      if v ≠ 0 then
        match ReadBytes rest with
        | .error e _ => .error e
        | .ok certificate r1 =>
          match ReadBytes r1 with
          | .error e _ => .error e
          | .ok signature _ =>
            .ok { isValid := true, certificate := certificate, signature := signature }
      else .ok { isValid := false, certificate := [], signature := [] } := by
  unfold ServerCertificatePacket.Decode ServerCertificatePacket.Decode.read PacketReader
  simp only [List.drop_succ_cons, List.drop_zero, Reader_bind_apply, ReadByte]
  by_cases hv : v = 0
  · subst hv
    rfl
  · have hv1 : v.val ≠ 0 := fun h => hv (Fin.ext h)
    simp only [ne_eq, hv, hv1, not_false_eq_true, decide_True, if_true, Reader_bind_apply]
    cases ReadBytes rest with
    | error e r1 => rfl
    | ok certificate r1 =>
      simp only
      cases ReadBytes r1 with
      | error e r2 => rfl
      | ok signature r2 => rfl

theorem ClientCertificatePacket_Decode_eq (c v : Byte) (rest : List Byte) :
    ClientCertificatePacket.Decode (c :: v :: rest) =
      if v ≠ 0 then
        match ReadBytes rest with
        | .error e _ => .error e
        | .ok certificate r1 =>
          match ReadBytes r1 with
          | .error e _ => .error e
          | .ok signature _ =>
            .ok { isValid := true, certificate := certificate, signature := signature }
      else .ok { isValid := false, certificate := [], signature := [] } := by
  unfold ClientCertificatePacket.Decode ClientCertificatePacket.Decode.read PacketReader
  simp only [List.drop_succ_cons, List.drop_zero, Reader_bind_apply, ReadByte]
  by_cases hv : v = 0
  · subst hv
    rfl
  · have hv1 : v.val ≠ 0 := fun h => hv (Fin.ext h)
    simp only [ne_eq, hv, hv1, not_false_eq_true, decide_True, if_true, Reader_bind_apply]
    cases ReadBytes rest with
    | error e r1 => rfl
    | ok certificate r1 =>
      simp only
      cases ReadBytes r1 with
      | error e r2 => rfl
      | ok signature r2 => rfl

/-- C16. For `ServerCertificatePacket` and `ClientCertificatePacket` alike:
`Generate` with `isValid = false` gives the type byte followed by the single
byte `00`, whatever the certificate and signature fields hold; with
`isValid = true` it gives the type byte, `01`, the length-prefixed certificate
and the length-prefixed signature. `Decode` of a buffer whose validity byte is
not zero yields a valid packet holding the two blobs read by `ReadBytes` one
after the other (or the error of the read that fails); with the validity byte
`00` it reads nothing of what follows and yields an invalid packet with empty
certificate and signature. -/
theorem CertificatePacket_carries_blobs_only_when_valid (packetType : Byte)
    (certificate signature : Str) (v : Byte) (rest : List Byte) :
    (ServerCertificatePacket.Generate packetType
        { isValid := false, certificate := certificate, signature := signature }
      = [packetType, 0x00] ∧
     ServerCertificatePacket.Generate packetType
        { isValid := true, certificate := certificate, signature := signature }
      = [packetType, 0x01] ++ WriteBytes certificate ++ WriteBytes signature ∧
     (v ≠ 0 → ServerCertificatePacket.Decode (packetType :: v :: rest) =
        match ReadBytes rest with
        | .error e _ => .error e
        | .ok c r1 =>
          match ReadBytes r1 with
          | .error e _ => .error e
          | .ok s _ => .ok { isValid := true, certificate := c, signature := s }) ∧
     ServerCertificatePacket.Decode (packetType :: 0x00 :: rest)
      = .ok { isValid := false, certificate := [], signature := [] }) ∧
    (ClientCertificatePacket.Generate packetType
        { isValid := false, certificate := certificate, signature := signature }
      = [packetType, 0x00] ∧
     ClientCertificatePacket.Generate packetType
        { isValid := true, certificate := certificate, signature := signature }
      = [packetType, 0x01] ++ WriteBytes certificate ++ WriteBytes signature ∧
     (v ≠ 0 → ClientCertificatePacket.Decode (packetType :: v :: rest) =
        match ReadBytes rest with
        | .error e _ => .error e
        | .ok c r1 =>
          match ReadBytes r1 with
          | .error e _ => .error e
          | .ok s _ => .ok { isValid := true, certificate := c, signature := s }) ∧
     ClientCertificatePacket.Decode (packetType :: 0x00 :: rest)
      = .ok { isValid := false, certificate := [], signature := [] }) := by
  refine ⟨⟨rfl, ?_, ?_, ?_⟩, ⟨rfl, ?_, ?_, ?_⟩⟩
  · simp [ServerCertificatePacket.Generate, ToArray]
    rfl
  · intro hv
    rw [ServerCertificatePacket_Decode_eq, if_pos hv]
  · rw [ServerCertificatePacket_Decode_eq]
    simp
  · simp [ClientCertificatePacket.Generate, ToArray]
    rfl
  · intro hv
    rw [ClientCertificatePacket_Decode_eq, if_pos hv]
  · rw [ClientCertificatePacket_Decode_eq]
    simp

/-- Witness of C16: validity byte `02`, certificate `AA BB`, signature `CC`. -/
theorem CertificatePacket_carries_blobs_only_when_valid_witness :
    ServerCertificatePacket.Decode [0x03, 0x02, 0x02, 0xAA, 0xBB, 0x01, 0xCC]
      = .ok { isValid := true, certificate := [0xAA, 0xBB], signature := [0xCC] } :=
  ((CertificatePacket_carries_blobs_only_when_valid 0x03 [] [] 0x02
    [0x02, 0xAA, 0xBB, 0x01, 0xCC]).1.2.2.1 (by decide)).trans rfl

/-! ## Player input -/

theorem toInt8_toUInt8 (x : Int) (h1 : -128 ≤ x) (h2 : x ≤ 127) : toInt8 (toUInt8 x) = x := by
  unfold toInt8 toUInt8
  have hv : ((Fin.ofNat (x % 256).toNat : Byte)).val = (x % 256).toNat := by
    show (x % 256).toNat % 256 = (x % 256).toNat
    omega
  rw [hv]
  split <;> omega

theorem toUInt8_val (x : Int) : ((toUInt8 x).val : Int) = x % 256 := by
  unfold toUInt8
  show (((x % 256).toNat % 256 : Nat) : Int) = x % 256
  omega

theorem Byte_ofNat_val (n : Nat) (h : n < 256) : (Fin.ofNat n : Byte).val = n :=
  Nat.mod_eq_of_lt h

theorem WritePlayerInput_flags (a b c d : Bool) (stance : Nat) (x y : Int) (hs : stance ≤ 3) :
    ∃ fl : Nat,
      WritePlayerInput ⟨a, b, c, d, stance, x, y⟩ = [Fin.ofNat fl, toUInt8 x, toUInt8 y] ∧
      fl < 256 ∧ fl.testBit 0 = a ∧ fl.testBit 1 = b ∧ fl.testBit 2 = c ∧
      fl.testBit 3 = d ∧ fl.testBit 4 = false ∧ fl.testBit 5 = false ∧
      fl >>> 6 = stance ∧
      decide (fl &&& PlayerInputFlags.ToolPrimary ≠ 0) = a ∧
      decide (fl &&& PlayerInputFlags.ToolSecondary ≠ 0) = b ∧
      decide (fl &&& PlayerInputFlags.Chat ≠ 0) = c ∧
      decide (fl &&& PlayerInputFlags.Sprint ≠ 0) = d ∧
      (fl &&& PlayerInputFlags.StanceMask) >>> 6 = stance := by
  have : stance = 0 ∨ stance = 1 ∨ stance = 2 ∨ stance = 3 := by omega
  rcases this with rfl | rfl | rfl | rfl <;> refine ⟨_, rfl, ?_⟩ <;> dsimp only <;>
    revert a b c d <;> decide

/-- C17. For every `PlayerInput` with stance in 0..3 and `xmove`, `ymove` in
`[-128, 127]` (any booleans): `WritePlayerInput` writes exactly three bytes;
bits 0, 1, 2, 3 of the first are `toolPrimary`, `toolSecondary`, `chat`,
`sprint`, its bits 4 and 5 are clear and its bits 6..7 hold the stance; the
second and third bytes are `xmove` and `ymove` in two's complement (the value
modulo 256); and `DecodePlayerInput` on those three bytes returns the
original `PlayerInput`, leaving what follows unread. -/
theorem PlayerInput_round_trip (input : PlayerInput) (hs : input.stance ≤ 3)
    (hx : -128 ≤ input.xmove ∧ input.xmove ≤ 127)
    (hy : -128 ≤ input.ymove ∧ input.ymove ≤ 127) (rest : List Byte) :
    ∃ b0 b1 b2 : Byte, WritePlayerInput input = [b0, b1, b2] ∧
      b0.val.testBit 0 = input.toolPrimary ∧ b0.val.testBit 1 = input.toolSecondary ∧
      b0.val.testBit 2 = input.chat ∧ b0.val.testBit 3 = input.sprint ∧
      b0.val.testBit 4 = false ∧ b0.val.testBit 5 = false ∧
      b0.val >>> 6 = input.stance ∧
      (b1.val : Int) = input.xmove % 256 ∧ (b2.val : Int) = input.ymove % 256 ∧
      DecodePlayerInput (WritePlayerInput input ++ rest) = .ok input rest := by
  obtain ⟨a, b, c, d, stance, x, y⟩ := input
  obtain ⟨fl, hw, hlt, h0, h1, h2, h3, h4, h5, h6, d0, d1, d2, d3, d6⟩ :=
    WritePlayerInput_flags a b c d stance x y hs
  have hv := Byte_ofNat_val fl hlt
  refine ⟨Fin.ofNat fl, toUInt8 x, toUInt8 y, hw, ?_, ?_, ?_, ?_, ?_, ?_, ?_,
    toUInt8_val x, toUInt8_val y, ?_⟩
  · rw [hv]; exact h0
  · rw [hv]; exact h1
  · rw [hv]; exact h2
  · rw [hv]; exact h3
  · rw [hv]; exact h4
  · rw [hv]; exact h5
  · rw [hv]; exact h6
  · rw [hw]
    simp only [DecodePlayerInput, Reader_bind_apply, ReadByte, List.cons_append,
      List.nil_append, Reader_pure_apply, hv, d0, d1, d2, d3, d6,
      toInt8_toUInt8 x hx.1 hx.2, toInt8_toUInt8 y hy.1 hy.2]

/-- Witness of C17: both tools held, crouching stance 1, `xmove = -1`, `ymove = 127`. -/
theorem PlayerInput_round_trip_witness :
    ∃ b0 b1 b2 : Byte,
      WritePlayerInput ⟨true, true, false, false, 1, -1, 127⟩ = [b0, b1, b2] ∧
      b0.val.testBit 0 = true ∧ b0.val.testBit 1 = true ∧
      b0.val.testBit 2 = false ∧ b0.val.testBit 3 = false ∧
      b0.val.testBit 4 = false ∧ b0.val.testBit 5 = false ∧
      b0.val >>> 6 = 1 ∧
      (b1.val : Int) = (-1) % 256 ∧ (b2.val : Int) = 127 % 256 ∧
      DecodePlayerInput (WritePlayerInput ⟨true, true, false, false, 1, -1, 127⟩ ++ [9])
        = .ok ⟨true, true, false, false, 1, -1, 127⟩ [9] :=
  PlayerInput_round_trip ⟨true, true, false, false, 1, -1, 127⟩ (by decide)
    ⟨by decide, by decide⟩ ⟨by decide, by decide⟩ [9]

/-! ## Trajectories -/

theorem ReadVector3_WriteVector3 (v : Vector3) (rest : List Byte) :
    ReadVector3 (WriteVector3 v ++ rest) = .ok v rest := rfl

theorem ReadFloat_of_length (r : List Byte) (h : 4 ≤ r.length) :
    ∃ f, ReadFloat r = .ok f (r.drop 4) := by
  rcases r with _ | ⟨b0, _ | ⟨b1, _ | ⟨b2, _ | ⟨b3, rest⟩⟩⟩⟩
  · simp at h
  · simp at h
  · simp at h
  · simp at h
  · exact ⟨⟨b0, b1, b2, b3⟩, rfl⟩

theorem ReadVector3_of_length (r : List Byte) (h : 12 ≤ r.length) :
    ∃ v, ReadVector3 r = .ok v (r.drop 12) := by
  obtain ⟨x, hx⟩ := ReadFloat_of_length r (by omega)
  obtain ⟨y, hy⟩ := ReadFloat_of_length (r.drop 4) (by rw [List.length_drop]; omega)
  obtain ⟨z, hz⟩ := ReadFloat_of_length ((r.drop 4).drop 4)
    (by rw [List.length_drop, List.length_drop]; omega)
  refine ⟨⟨x, y, z⟩, ?_⟩
  simp only [List.drop_drop, Nat.reduceAdd] at hy hz
  unfold ReadVector3
  simp only [Reader_bind_apply, hx, hy, hz, Reader_pure_apply]

theorem DecodeTrajectory_eq {Q : Type} (ext : External Q) (tag : Byte) (o v : Vector3)
    (body r1 r : List Byte) (ho : ReadVector3 body = .ok o r1) (hv : ReadVector3 r1 = .ok v r) :
    DecodeTrajectory ext (tag :: body) =
      if tag.val = ext.Linear ∨ tag.val = ext.Gravity ∨ tag.val = ext.Constant
          ∨ tag.val = ext.RigidBody then
        match ReadVector3 r with
        | .error e r1 => .error e r1
        | .ok angle r1 =>
          match ReadVector3 r1 with
          | .error e r2 => .error e r2
          | .ok angularVelocity r2 =>
            .ok { Trajectory.new ext with
                  type := tag.val, origin := o, velocity := v,
                  angle := ext.DecodeRotation angle, angularVelocity := angularVelocity } r2
      else if tag.val = ext.Player then
        match ReadVector3 r with
        | .error e r1 => .error e r1
        | .ok eulerAngle r1 =>
          .ok { Trajectory.new ext with
                type := tag.val, origin := o, velocity := v, eulerAngle := eulerAngle } r1
      else .error (.unknownTrajectoryType tag.val) r := by
  unfold DecodeTrajectory
  simp only [Reader_bind_apply, ReadByte, ho, hv]
  split
  · simp only [Reader_bind_apply]
    cases ReadVector3 r with
    | error e r1 => rfl
    | ok a r1 =>
      simp only
      cases ReadVector3 r1 with
      | error e r2 => rfl
      | ok w r2 => rfl
  · split
    · simp only [Reader_bind_apply]
      cases ReadVector3 r with
      | error e r1 => rfl
      | ok a r1 => rfl
    · rfl

theorem WriteTrajectory_eq {Q : Type} (ext : External Q) (traj : Trajectory Q) :
    WriteTrajectory ext traj =
      if traj.type = ext.Linear ∨ traj.type = ext.Gravity ∨ traj.type = ext.Constant
          ∨ traj.type = ext.RigidBody then
        .ok ((Fin.ofNat traj.type : Byte) :: (WriteVector3 traj.origin
          ++ WriteVector3 traj.velocity ++ WriteVector3 (ext.EncodeRotation traj.angle)
          ++ WriteVector3 traj.angularVelocity))
      else if traj.type = ext.Player then
        .ok ((Fin.ofNat traj.type : Byte) :: (WriteVector3 traj.origin
          ++ WriteVector3 traj.velocity ++ WriteVector3 traj.eulerAngle))
      else .error (.unknownTrajectoryType traj.type) := by
  unfold WriteTrajectory
  split
  · simp
  · split
    · simp
    · rfl

/-- C13. An unknown trajectory tag is an error, never a default. For every tag
byte that is none of the five `TrajectoryType` values, `DecodeTrajectory` on a
buffer holding that tag followed by at least the 24 bytes of the origin and
velocity vectors fails with the unknown-trajectory-type error (raised after
those two vectors were read) and returns no `Trajectory`; and
`WriteTrajectory` raises the same error for every `Trajectory` whose type is
none of the five values. -/
theorem Trajectory_unknown_tag_is_error {Q : Type} (ext : External Q) :
    (∀ (tag : Byte) (body : List Byte),
      tag.val ≠ ext.Linear → tag.val ≠ ext.Gravity → tag.val ≠ ext.Constant →
      tag.val ≠ ext.RigidBody → tag.val ≠ ext.Player → 24 ≤ body.length →
      DecodeTrajectory ext (tag :: body)
        = .error (.unknownTrajectoryType tag.val) (body.drop 24)) ∧
    (∀ traj : Trajectory Q,
      traj.type ≠ ext.Linear → traj.type ≠ ext.Gravity → traj.type ≠ ext.Constant →
      traj.type ≠ ext.RigidBody → traj.type ≠ ext.Player →
      WriteTrajectory ext traj = .error (.unknownTrajectoryType traj.type)) := by
  constructor
  · intro tag body h1 h2 h3 h4 h5 hlen
    obtain ⟨o, ho⟩ := ReadVector3_of_length body (by omega)
    obtain ⟨v, hv⟩ := ReadVector3_of_length (body.drop 12) (by rw [List.length_drop]; omega)
    simp only [List.drop_drop, Nat.reduceAdd] at hv
    rw [DecodeTrajectory_eq ext tag o v body _ _ ho hv]
    have hn : ¬ (tag.val = ext.Linear ∨ tag.val = ext.Gravity ∨ tag.val = ext.Constant
        ∨ tag.val = ext.RigidBody) := by
      rintro (h | h | h | h)
      · exact h1 h
      · exact h2 h
      · exact h3 h
      · exact h4 h
    rw [if_neg hn, if_neg h5]
  · intro traj h1 h2 h3 h4 h5
    rw [WriteTrajectory_eq]
    have hn : ¬ (traj.type = ext.Linear ∨ traj.type = ext.Gravity
        ∨ traj.type = ext.Constant ∨ traj.type = ext.RigidBody) := by
      rintro (h | h | h | h)
      · exact h1 h
      · exact h2 h
      · exact h3 h
      · exact h4 h
    rw [if_neg hn, if_neg h5]

/-- Witness of C13: the tag 99 followed by 24 bytes, with the tags numbered 0..4. -/
theorem Trajectory_unknown_tag_is_error_witness :
    DecodeTrajectory External.sample (99 :: List.replicate 24 0)
      = .error (.unknownTrajectoryType 99) [] :=
  (Trajectory_unknown_tag_is_error External.sample).1 99 (List.replicate 24 0)
    (by decide) (by decide) (by decide) (by decide) (by decide) (by decide)

/-- C14. The shape of a trajectory on the wire is determined by its tag, and
`WriteTrajectory` and `DecodeTrajectory` agree on it. For a tag among
`Linear`, `Gravity`, `Constant`, `RigidBody`: the writer emits the tag byte,
then origin, velocity, encoded orientation and angular velocity (four
3-vectors), and the decoder consumes exactly the tag byte and four 3-vectors,
filling the orientation (through `DecodeRotation`) and the angular velocity.
For the tag `Player` (a value different from those four): the writer emits the
tag byte, then origin, velocity and euler angles (three 3-vectors), and the
decoder consumes exactly the tag byte and three 3-vectors, filling the euler
angles and leaving orientation and angular velocity as constructed. -/
theorem Trajectory_shape_by_tag {Q : Type} (ext : External Q) (traj : Trajectory Q)
    (tag : Byte) (o v a w : Vector3) (rest : List Byte) :
    (ext.Oriented traj.type →
      WriteTrajectory ext traj = .ok ((Fin.ofNat traj.type : Byte) ::
        (WriteVector3 traj.origin ++ WriteVector3 traj.velocity
          ++ WriteVector3 (ext.EncodeRotation traj.angle)
          ++ WriteVector3 traj.angularVelocity))) ∧
    (ext.Oriented tag.val →
      DecodeTrajectory ext (tag ::
        (WriteVector3 o ++ WriteVector3 v ++ WriteVector3 a ++ WriteVector3 w ++ rest))
        = .ok { Trajectory.new ext with
                type := tag.val, origin := o, velocity := v,
                angle := ext.DecodeRotation a, angularVelocity := w } rest) ∧
    (¬ ext.Oriented ext.Player → traj.type = ext.Player →
      WriteTrajectory ext traj = .ok ((Fin.ofNat traj.type : Byte) ::
        (WriteVector3 traj.origin ++ WriteVector3 traj.velocity
          ++ WriteVector3 traj.eulerAngle))) ∧
    (¬ ext.Oriented ext.Player → tag.val = ext.Player →
      DecodeTrajectory ext (tag :: (WriteVector3 o ++ WriteVector3 v ++ WriteVector3 a ++ rest))
        = .ok { Trajectory.new ext with
                type := tag.val, origin := o, velocity := v, eulerAngle := a } rest) ∧
    (traj.type < 256 → ext.Oriented traj.type →
      ∃ bytes, WriteTrajectory ext traj = .ok bytes ∧ bytes.length = 49 ∧
        DecodeTrajectory ext (bytes ++ rest)
          = .ok { Trajectory.new ext with
                  type := traj.type, origin := traj.origin, velocity := traj.velocity,
                  angle := ext.DecodeRotation (ext.EncodeRotation traj.angle),
                  angularVelocity := traj.angularVelocity } rest) ∧
    (traj.type < 256 → ¬ ext.Oriented ext.Player → traj.type = ext.Player →
      ∃ bytes, WriteTrajectory ext traj = .ok bytes ∧ bytes.length = 37 ∧
        DecodeTrajectory ext (bytes ++ rest)
          = .ok { Trajectory.new ext with
                  type := traj.type, origin := traj.origin, velocity := traj.velocity,
                  eulerAngle := traj.eulerAngle } rest) := by
  unfold External.Oriented
  refine ⟨fun h => ?_, fun h => ?_, fun hp h => ?_, fun hp h => ?_, fun hlt h => ?_,
    fun hlt hp h => ?_⟩
  · rw [WriteTrajectory_eq, if_pos h]
  · simp only [List.append_assoc]
    rw [DecodeTrajectory_eq ext tag o v _ _ _ (ReadVector3_WriteVector3 o _)
      (ReadVector3_WriteVector3 v _), if_pos h]
    simp only [ReadVector3_WriteVector3]
  · rw [WriteTrajectory_eq, if_neg (h ▸ hp), if_pos h]
  · simp only [List.append_assoc]
    rw [DecodeTrajectory_eq ext tag o v _ _ _ (ReadVector3_WriteVector3 o _)
      (ReadVector3_WriteVector3 v _), if_neg (h ▸ hp), if_pos h]
    simp only [ReadVector3_WriteVector3]
  · have hv : (Fin.ofNat traj.type : Byte).val = traj.type := Byte_ofNat_val _ hlt
    refine ⟨_, by rw [WriteTrajectory_eq, if_pos h], by simp [WriteVector3, WriteFloat], ?_⟩
    simp only [List.cons_append, List.append_assoc]
    rw [DecodeTrajectory_eq ext _ traj.origin traj.velocity _ _ _ (ReadVector3_WriteVector3 _ _)
      (ReadVector3_WriteVector3 _ _), hv, if_pos h]
    simp only [ReadVector3_WriteVector3]
  · have hv : (Fin.ofNat traj.type : Byte).val = traj.type := Byte_ofNat_val _ hlt
    refine ⟨_, by rw [WriteTrajectory_eq, if_neg (h ▸ hp), if_pos h],
      by simp [WriteVector3, WriteFloat], ?_⟩
    simp only [List.cons_append, List.append_assoc]
    rw [DecodeTrajectory_eq ext _ traj.origin traj.velocity _ _ _ (ReadVector3_WriteVector3 _ _)
      (ReadVector3_WriteVector3 _ _), hv, if_neg (h ▸ hp), if_pos h]
    simp only [ReadVector3_WriteVector3]

/-- Witness of C14: with the tags numbered 0..4, a `Player` trajectory read
from the tag byte `04` and three zero vectors. -/
theorem Trajectory_shape_by_tag_witness :
    DecodeTrajectory External.sample (4 :: (WriteVector3 Vector3.zero
        ++ WriteVector3 Vector3.zero ++ WriteVector3 Vector3.zero ++ [7]))
      = .ok { Trajectory.new External.sample with
              type := 4, origin := Vector3.zero, velocity := Vector3.zero,
              eulerAngle := Vector3.zero } [7] :=
  (Trajectory_shape_by_tag External.sample (Trajectory.new External.sample) 4
    Vector3.zero Vector3.zero Vector3.zero Vector3.zero [7]).2.2.2.1
    (by unfold External.Oriented; decide) rfl

/-! ## Items of an entity update -/

theorem WriteEntityUpdateItem_flags_bits {Q : Type} (item : EntityUpdateItem Q) :
    WriteEntityUpdateItem.flags item < 256 ∧
    (WriteEntityUpdateItem.flags item).testBit 0 = false ∧
    (WriteEntityUpdateItem.flags item).testBit 1 = item.includeFlags ∧
    (WriteEntityUpdateItem.flags item).testBit 2 = (item.includeTrajectory || item.includeTool) ∧
    (WriteEntityUpdateItem.flags item).testBit 3 = item.includePlayerInput ∧
    (WriteEntityUpdateItem.flags item).testBit 4 = false ∧
    (WriteEntityUpdateItem.flags item).testBit 5 = item.includeBlockColor ∧
    (WriteEntityUpdateItem.flags item).testBit 6 = item.includeHealth ∧
    (WriteEntityUpdateItem.flags item).testBit 7 = item.includeSkin := by
  unfold WriteEntityUpdateItem.flags
  generalize item.includeFlags = a
  generalize item.includeTrajectory = b
  generalize item.includePlayerInput = c
  generalize item.includeTool = d
  generalize item.includeBlockColor = e
  generalize item.includeHealth = f
  generalize item.includeSkin = g
  revert a b c d e f g
  decide

theorem Byte_and_bit (f : Byte) :
    decide (f.val &&& EntityUpdateFlags.Create ≠ 0) = f.val.testBit 0 ∧
    decide (f.val &&& EntityUpdateFlags.Flags ≠ 0) = f.val.testBit 1 ∧
    decide (f.val &&& EntityUpdateFlags.Trajectory ≠ 0) = f.val.testBit 2 ∧
    decide (f.val &&& EntityUpdateFlags.PlayerInput ≠ 0) = f.val.testBit 3 ∧
    decide (f.val &&& EntityUpdateFlags.Tool ≠ 0) = f.val.testBit 4 ∧
    decide (f.val &&& EntityUpdateFlags.BlockColor ≠ 0) = f.val.testBit 5 ∧
    decide (f.val &&& EntityUpdateFlags.Health ≠ 0) = f.val.testBit 6 ∧
    decide (f.val &&& EntityUpdateFlags.Skins ≠ 0) = f.val.testBit 7 := by
  revert f
  decide

theorem bind_ok_iff {α β : Type} (x : Reader α) (k : α → Reader β) (s : List Byte)
    (b : β) (r : List Byte) :
    (x >>= k) s = .ok b r ↔ ∃ a s1, x s = .ok a s1 ∧ k a s1 = .ok b r := by
  rw [Reader_bind_apply]
  cases x s with
  | error e s1 => simp
  | ok a s1 =>
    constructor
    · intro h; exact ⟨a, s1, rfl, h⟩
    · rintro ⟨a1, s2, h1, h2⟩
      cases h1
      exact h2

theorem pure_ok_iff {α : Type} (a b : α) (s r : List Byte) :
    (pure a : Reader α) s = .ok b r ↔ b = a ∧ r = s := by
  rw [Reader_pure_apply]
  constructor
  · intro h; cases h; exact ⟨rfl, rfl⟩
  · rintro ⟨rfl, rfl⟩; rfl

theorem stage_iff {α I β : Type} (c : Bool) (rd : Reader α) (upd : α → I) (it : I)
    (absent : α) (hd : upd absent = it) (K : I → Reader β) (s : List Byte) (b : β)
    (r : List Byte) :
    ((if c = true then (rd >>= fun a => pure (upd a)) else pure it) >>= K) s = .ok b r ↔
      ∃ v s1, GroupRead c rd absent s v s1 ∧ K (upd v) s1 = .ok b r := by
  cases c with
  | false =>
    simp only [Bool.false_eq_true, if_false, GroupRead, bind_ok_iff, pure_ok_iff]
    constructor
    · rintro ⟨a, s1, ⟨rfl, rfl⟩, h⟩
      exact ⟨absent, s1, ⟨rfl, rfl⟩, by rw [hd]; exact h⟩
    · rintro ⟨v, s1, ⟨rfl, rfl⟩, h⟩
      exact ⟨it, s1, ⟨rfl, rfl⟩, by rw [← hd]; exact h⟩
  | true =>
    simp only [if_true, GroupRead, bind_ok_iff, pure_ok_iff]
    constructor
    · rintro ⟨a, s1, ⟨v, s2, h1, rfl, rfl⟩, h⟩
      exact ⟨v, _, h1, h⟩
    · rintro ⟨v, s1, h1, h⟩
      exact ⟨upd v, s1, ⟨v, s1, h1, rfl, rfl⟩, h⟩

theorem ReadSkins_bind {I : Type} (g : Str → Str → Str → Str → I) :
    (ReadBytes >>= fun a => ReadBytes >>= fun b => ReadBytes >>= fun c =>
      ReadBytes >>= fun d => (pure (g a b c d) : Reader I))
      = ReadSkins >>= fun sk => pure (g sk.1 sk.2.1 sk.2.2.1 sk.2.2.2) := by
  funext s
  simp only [ReadSkins, Reader_bind_apply]
  cases ReadBytes s with
  | error e s1 => rfl
  | ok a s1 =>
    simp only
    cases ReadBytes s1 with
    | error e s2 => rfl
    | ok b s2 =>
      simp only
      cases ReadBytes s2 with
      | error e s3 => rfl
      | ok c s3 =>
        simp only
        cases ReadBytes s3 with
        | error e s4 => rfl
        | ok d s4 => rfl

theorem DecodeEntityUpdateItem_ok_iff {Q : Type} (ext : External Q) (r : List Byte)
    (item : EntityUpdateItem Q) (r1 : List Byte) :
    DecodeEntityUpdateItem ext r = .ok item r1 ↔
      ∃ id s, ReadVariableInteger r = .ok id s ∧
      ∃ f s0, ReadByte s = .ok f s0 ∧
      ∃ type s1, GroupRead (f.val.testBit 0) ReadByte 0 s0 type s1 ∧
      ∃ flags s2, GroupRead (f.val.testBit 1) ReadByte 0 s1 flags s2 ∧
      ∃ trajectory s3,
        GroupRead (f.val.testBit 2) (DecodeTrajectory ext) (Trajectory.new ext) s2 trajectory s3 ∧
      ∃ playerInput s4,
        GroupRead (f.val.testBit 3) DecodePlayerInput ⟨false, false, false, false, 0, 0, 0⟩
          s3 playerInput s4 ∧
      ∃ blockColor s5, GroupRead (f.val.testBit 5) ReadIntColor ⟨0, 0, 0⟩ s4 blockColor s5 ∧
      ∃ health s6, GroupRead (f.val.testBit 6) ReadByte 0 s5 health s6 ∧
      ∃ skins, GroupRead (f.val.testBit 7) ReadSkins ([], [], [], []) s6 skins r1 ∧
      item =
        { entityId := id % 2 ^ 32,
          create := f.val.testBit 0, type := type.val,
          includeFlags := f.val.testBit 1, flags := FromEntityFlagsValue flags.val,
          includeTrajectory := f.val.testBit 2, trajectory := trajectory,
          includePlayerInput := f.val.testBit 3, playerInput := playerInput,
          includeTool := false, tool := 0,
          includeBlockColor := f.val.testBit 5, blockColor := blockColor,
          includeHealth := f.val.testBit 6, health := health.val,
          includeSkin := f.val.testBit 7,
          bodySkin := skins.1, weaponSkin1 := skins.2.1, weaponSkin2 := skins.2.2.1,
          weaponSkin3 := skins.2.2.2 } := by
  unfold DecodeEntityUpdateItem
  dsimp only
  rw [bind_ok_iff]
  refine exists_congr fun id => exists_congr fun s => and_congr Iff.rfl ?_
  rw [bind_ok_iff]
  refine exists_congr fun f => exists_congr fun s0 => and_congr Iff.rfl ?_
  obtain ⟨b0, b1, b2, b3, -, b5, b6, b7⟩ := Byte_and_bit f
  simp only [b0, b1, b2, b3, b5, b6, b7]
  refine (stage_iff _ _ _ _ 0 ?_ _ _ _ _).trans ?_
  · rfl
  refine exists_congr fun type => exists_congr fun s1 => and_congr Iff.rfl ?_
  dsimp only
  refine (stage_iff _ _ _ _ 0 ?_ _ _ _ _).trans ?_
  · rfl
  refine exists_congr fun flags => exists_congr fun s2 => and_congr Iff.rfl ?_
  dsimp only
  refine (stage_iff _ _ _ _ (Trajectory.new ext) ?_ _ _ _ _).trans ?_
  · rfl
  refine exists_congr fun trajectory => exists_congr fun s3 => and_congr Iff.rfl ?_
  dsimp only
  refine (stage_iff _ _ _ _ ⟨false, false, false, false, 0, 0, 0⟩ ?_ _ _ _ _).trans ?_
  · rfl
  refine exists_congr fun playerInput => exists_congr fun s4 => and_congr Iff.rfl ?_
  dsimp only
  refine (stage_iff _ _ _ _ ⟨0, 0, 0⟩ ?_ _ _ _ _).trans ?_
  · rfl
  refine exists_congr fun blockColor => exists_congr fun s5 => and_congr Iff.rfl ?_
  dsimp only
  refine (stage_iff _ _ _ _ 0 ?_ _ _ _ _).trans ?_
  · rfl
  refine exists_congr fun health => exists_congr fun s6 => and_congr Iff.rfl ?_
  dsimp only
  rw [ReadSkins_bind]
  refine (stage_iff _ _ _ _ ([], [], [], []) ?_ _ _ _ _).trans ?_
  · rfl
  constructor
  · rintro ⟨skins, s7, h1, h2⟩
    rw [pure_ok_iff] at h2
    obtain ⟨h3, rfl⟩ := h2
    exact ⟨skins, h1, h3⟩
  · rintro ⟨skins, h1, h3⟩
    exact ⟨skins, r1, h1, (pure_ok_iff _ _ _ _).mpr ⟨h3, rfl⟩⟩

theorem ite_append_nil (c : Bool) (out x : List Byte) :
    (if c = true then out ++ x else out) = out ++ (if c = true then x else []) := by
  cases c <;> simp

theorem WriteEntityUpdateItem_eq {Q : Type} (ext : External Q) (item : EntityUpdateItem Q) :
    WriteEntityUpdateItem ext item =
      match (if item.includeTrajectory then WriteTrajectory ext item.trajectory
             else .ok []) with
      | .error e => .error e
      | .ok t => .ok (WriteVariableInteger item.entityId
          ++ [(Fin.ofNat (WriteEntityUpdateItem.flags item) : Byte)]
          ++ (if item.create then [(Fin.ofNat item.type : Byte)] else [])
          ++ (if item.includeFlags then [(Fin.ofNat (ToEntityFlagsValue item.flags) : Byte)]
              else [])
          ++ t
          ++ (if item.includePlayerInput then WritePlayerInput item.playerInput else [])
          ++ (if item.includeTool then [(Fin.ofNat item.tool : Byte)] else [])
          ++ (if item.includeBlockColor then WriteColor item.blockColor else [])
          ++ (if item.includeHealth then [(Fin.ofNat item.health : Byte)] else [])
          ++ (if item.includeSkin then
                WriteBytes item.bodySkin ++ WriteBytes item.weaponSkin1
                  ++ WriteBytes item.weaponSkin2 ++ WriteBytes item.weaponSkin3
              else [])) := by
  unfold WriteEntityUpdateItem
  cases h2 : item.includeTrajectory
  · simp only [Bool.false_eq_true, if_false, pure_bind, List.append_nil]
    repeat rw [ite_append_nil]
    cases item.includeSkin
    · simp only [Bool.false_eq_true, if_false, List.append_nil]
      rfl
    · simp only [if_true, List.append_assoc]
      rfl
  · simp only [if_true]
    cases WriteTrajectory ext item.trajectory with
    | error e => rfl
    | ok t =>
      simp only [bind, Except.bind, pure, Except.pure]
      repeat rw [ite_append_nil]
      cases item.includeSkin
      · simp only [Bool.false_eq_true, if_false, List.append_nil]
      · simp only [if_true, List.append_assoc]


theorem flags_byte_val {Q : Type} (item : EntityUpdateItem Q) :
    (Fin.ofNat (WriteEntityUpdateItem.flags item) : Byte).val = WriteEntityUpdateItem.flags item :=
  Byte_ofNat_val _ (WriteEntityUpdateItem_flags_bits item).1

/-- C19. The tool group has no presence bit of its own in the encoder: for
every item with `includeTool = true` the flags byte written by
`WriteEntityUpdateItem` has the Trajectory bit (`1 << 2`) set, and for every
item whatsoever its Tool bit (`1 << 4`) is clear. So an item with
`includeTool = true` and `includeTrajectory = false` gets the same flags byte
as the item with `includeTrajectory = true` and `includeTool = false` (all
other fields equal), while its output still contains the one tool byte, after
the player input and before the block color. -/
theorem WriteEntityUpdateItem_tool_bit_collision {Q : Type} (ext : External Q)
    (item : EntityUpdateItem Q) :
    (item.includeTool = true →
      (Fin.ofNat (WriteEntityUpdateItem.flags item) : Byte).val.testBit 2 = true) ∧
    (Fin.ofNat (WriteEntityUpdateItem.flags item) : Byte).val.testBit 4 = false ∧
    WriteEntityUpdateItem.flags { item with includeTool := true, includeTrajectory := false }
      = WriteEntityUpdateItem.flags { item with includeTool := false, includeTrajectory := true } ∧
    (item.includeTool = true → item.includeTrajectory = false →
      WriteEntityUpdateItem ext item = .ok (WriteVariableInteger item.entityId
          ++ [(Fin.ofNat (WriteEntityUpdateItem.flags item) : Byte)]
          ++ (if item.create then [(Fin.ofNat item.type : Byte)] else [])
          ++ (if item.includeFlags then [(Fin.ofNat (ToEntityFlagsValue item.flags) : Byte)]
              else [])
          ++ (if item.includePlayerInput then WritePlayerInput item.playerInput else [])
          ++ [(Fin.ofNat item.tool : Byte)]
          ++ (if item.includeBlockColor then WriteColor item.blockColor else [])
          ++ (if item.includeHealth then [(Fin.ofNat item.health : Byte)] else [])
          ++ (if item.includeSkin then
                WriteBytes item.bodySkin ++ WriteBytes item.weaponSkin1
                  ++ WriteBytes item.weaponSkin2 ++ WriteBytes item.weaponSkin3
              else []))) := by
  obtain ⟨-, -, -, h2, -, h4, -, -, -⟩ := WriteEntityUpdateItem_flags_bits item
  refine ⟨fun ht => ?_, ?_, ?_, fun ht htr => ?_⟩
  · rw [flags_byte_val, h2, ht, Bool.or_true]
  · rw [flags_byte_val, h4]
  · unfold WriteEntityUpdateItem.flags
    dsimp only
    generalize item.includeFlags = a
    generalize item.includePlayerInput = c
    generalize item.includeBlockColor = e
    generalize item.includeHealth = f
    generalize item.includeSkin = g
    revert a c e f g
    decide
  · rw [WriteEntityUpdateItem_eq, htr, ht]
    simp only [Bool.false_eq_true, if_false, if_true, List.append_nil]

/-- C18 at its failing input. The Create bit (bit 0) of the flags byte written
by `WriteEntityUpdateItem` is clear for every item, also when `item.create` is
true: the item `entityId = 1, create = true, type = 0` with no other group is
written as `01 00 00`, that is the id, the flags byte `00`, and the
entity-type byte directly after it. -/
theorem WriteEntityUpdateItem_create_bit_never_set {Q : Type} (ext : External Q) :
    (∀ item : EntityUpdateItem Q,
      (Fin.ofNat (WriteEntityUpdateItem.flags item) : Byte).val.testBit 0 = false) ∧
    WriteEntityUpdateItem ext
        { EntityUpdateItem.new ext with entityId := 1, create := true, type := 0 }
      = .ok [1, 0, 0] := by
  constructor
  · intro item
    rw [flags_byte_val, (WriteEntityUpdateItem_flags_bits item).2.1]
  · rw [WriteEntityUpdateItem_eq]
    simp only [EntityUpdateItem.new, Bool.false_eq_true, if_false, if_true, List.append_nil]
    rw [WriteVariableInteger_last 1 (by decide)]
    rfl

/-- Witness of C19: an item with only the tool group, tool 3, is written as
the id `01`, the flags byte `04` (the Trajectory bit) and the tool byte `03`. -/
theorem WriteEntityUpdateItem_tool_bit_collision_witness :
    WriteEntityUpdateItem External.sample
        { EntityUpdateItem.new External.sample with entityId := 1, includeTool := true, tool := 3 }
      = .ok [1, 4, 3] :=
  ((WriteEntityUpdateItem_tool_bit_collision External.sample
      { EntityUpdateItem.new External.sample with
        entityId := 1, includeTool := true, tool := 3 }).2.2.2 rfl rfl).trans (by
    simp only [EntityUpdateItem.new, Bool.false_eq_true, if_false, List.append_nil]
    rw [WriteVariableInteger_last 1 (by decide)]
    rfl)

theorem GroupRead_absent {α : Type} {present : Bool} (h : present = false) (rd : Reader α)
    (absent : α) (s : List Byte) : GroupRead present rd absent s absent s := by
  unfold GroupRead
  rw [h]
  exact ⟨rfl, rfl⟩

theorem GroupRead_present {α : Type} {present : Bool} (h : present = true) {rd : Reader α}
    (absent : α) {s : List Byte} {v : α} {s1 : List Byte} (hr : rd s = .ok v s1) :
    GroupRead present rd absent s v s1 := by
  unfold GroupRead
  rw [h]
  exact hr

theorem DecodeEntityUpdateItem_nil {Q : Type} (ext : External Q) :
    DecodeEntityUpdateItem ext [] = .error .receivedPacketTruncated [] := rfl

theorem DecodeEntityUpdateItems_step {Q : Type} (ext : External Q)
    (items : List (EntityUpdateItem Q)) (r : List Byte) (item : EntityUpdateItem Q)
    (r1 : List Byte) (h : DecodeEntityUpdateItem ext r = .ok item r1) :
    DecodeEntityUpdateItems ext items r = DecodeEntityUpdateItems ext (items ++ [item]) r1 := by
  cases r with
  | nil => rw [DecodeEntityUpdateItem_nil] at h; cases h
  | cons b t => exact DecodeEntityUpdateItems_ok ext items b t item r1 h

theorem DecodeEntityUpdateItems_fail {Q : Type} (ext : External Q)
    (items : List (EntityUpdateItem Q)) (r : List Byte) (e : DecodeError)
    (r1 : List Byte) (hne : r ≠ []) (h : DecodeEntityUpdateItem ext r = .error e r1) :
    DecodeEntityUpdateItems ext items r = .error e r1 := by
  cases r with
  | nil => exact absurd rfl hne
  | cons b t => exact DecodeEntityUpdateItems_error ext items b t e r1 h

theorem DecodeEntityUpdateItem_no_group {Q : Type} (ext : External Q) (r : List Byte)
    (id : Nat) (s0 : List Byte) (h : ReadVariableInteger r = .ok id (0 :: s0)) :
    DecodeEntityUpdateItem ext r
      = .ok { EntityUpdateItem.new ext with entityId := id % 2 ^ 32 } s0 := by
  rw [DecodeEntityUpdateItem_ok_iff]
  exact ⟨id, _, h, 0, _, rfl, 0, _, GroupRead_absent (by decide) _ _ _,
    0, _, GroupRead_absent (by decide) _ _ _,
    Trajectory.new ext, _, GroupRead_absent (by decide) _ _ _,
    ⟨false, false, false, false, 0, 0, 0⟩, _, GroupRead_absent (by decide) _ _ _,
    ⟨0, 0, 0⟩, _, GroupRead_absent (by decide) _ _ _,
    0, _, GroupRead_absent (by decide) _ _ _,
    ([], [], [], []), GroupRead_absent (by decide) _ _ _, rfl⟩

theorem DecodeEntityUpdateItem_flags_health {Q : Type} (ext : External Q) (id : Nat)
    (hid : id < 2 ^ 32) (fl h : Byte) (y : List Byte) :
    DecodeEntityUpdateItem ext (WriteVariableInteger id ++ 66 :: fl :: h :: y)
      = .ok { EntityUpdateItem.new ext with
              entityId := id, includeFlags := true, flags := FromEntityFlagsValue fl.val,
              includeHealth := true, health := h.val } y := by
  rw [DecodeEntityUpdateItem_ok_iff]
  refine ⟨id, _, read_write_varint id hid _, 66, _, rfl,
    0, _, GroupRead_absent (by decide) _ _ _,
    fl, _, GroupRead_present (by decide) _ rfl,
    Trajectory.new ext, _, GroupRead_absent (by decide) _ _ _,
    ⟨false, false, false, false, 0, 0, 0⟩, _, GroupRead_absent (by decide) _ _ _,
    ⟨0, 0, 0⟩, _, GroupRead_absent (by decide) _ _ _,
    h, _, GroupRead_present (by decide) _ rfl,
    ([], [], [], []), GroupRead_absent (by decide) _ _ _, ?_⟩
  rw [Nat.mod_eq_of_lt hid]
  rfl

theorem DecodeEntityUpdateItem_create_player {Q : Type} (ext : External Q) (id : Nat)
    (hid : id < 2 ^ 32) (t tag : Byte) (o v e : Vector3)
    (hp : ¬ ext.Oriented ext.Player) (htag : tag.val = ext.Player) (y : List Byte) :
    DecodeEntityUpdateItem ext (WriteVariableInteger id ++ 5 :: t :: tag ::
        (WriteVector3 o ++ WriteVector3 v ++ WriteVector3 e ++ y))
      = .ok { EntityUpdateItem.new ext with
              entityId := id, create := true, type := t.val,
              includeTrajectory := true,
              trajectory := { Trajectory.new ext with
                type := tag.val, origin := o, velocity := v, eulerAngle := e } } y := by
  have htr : DecodeTrajectory ext (tag ::
        (WriteVector3 o ++ WriteVector3 v ++ WriteVector3 e ++ y))
      = .ok { Trajectory.new ext with
                type := tag.val, origin := o, velocity := v, eulerAngle := e } y := by
    unfold External.Oriented at hp
    simp only [List.append_assoc]
    rw [DecodeTrajectory_eq ext tag o v _ _ _ (ReadVector3_WriteVector3 o _)
      (ReadVector3_WriteVector3 v _), if_neg (htag ▸ hp), if_pos htag]
    simp only [ReadVector3_WriteVector3]
  rw [DecodeEntityUpdateItem_ok_iff]
  refine ⟨id, _, read_write_varint id hid _, 5, _, rfl,
    t, _, GroupRead_present (by decide) _ rfl,
    0, _, GroupRead_absent (by decide) _ _ _,
    _, _, GroupRead_present (by decide) _ htr,
    ⟨false, false, false, false, 0, 0, 0⟩, _, GroupRead_absent (by decide) _ _ _,
    ⟨0, 0, 0⟩, _, GroupRead_absent (by decide) _ _ _,
    0, _, GroupRead_absent (by decide) _ _ _,
    ([], [], [], []), GroupRead_absent (by decide) _ _ _, ?_⟩
  rw [Nat.mod_eq_of_lt hid]
  rfl


/-- C11. Item decoding is gated by the flags byte. `DecodeEntityUpdateItem`
succeeds with `item`, leaving the reader at `r1`, exactly when: the id varint
and the flags byte `f` are read; then, in this fixed order, the creation type
(bit 0 of `f`), the entity flags (bit 1), the trajectory (bit 2), the player
input (bit 3), the block color (bit 5), the health (bit 6) and the four skins
(bit 7) are read, each one if and only if its bit is set and each absent one
consuming no byte (`GroupRead`); and `item` marks exactly the groups whose bit
is set as present, holds the values read for them and is as constructed
everywhere else. With `f = 0` only the id varint and the flags byte are
consumed. Hence a buffer with two items, the first with
`f = {Flags, Health} = 0x42` and the second with `f = {Create, Trajectory} =
0x05` and a `Player` trajectory, decodes through `EntityUpdatePacket::Decode`
to exactly those two items in that order, nothing else populated. -/
theorem DecodeEntityUpdateItem_flag_gated {Q : Type} (ext : External Q) :
    (∀ (r : List Byte) (item : EntityUpdateItem Q) (r1 : List Byte),
      DecodeEntityUpdateItem ext r = .ok item r1 ↔
        ∃ id s, ReadVariableInteger r = .ok id s ∧
        ∃ f s0, ReadByte s = .ok f s0 ∧
        ∃ type s1, GroupRead (f.val.testBit 0) ReadByte 0 s0 type s1 ∧
        ∃ flags s2, GroupRead (f.val.testBit 1) ReadByte 0 s1 flags s2 ∧
        ∃ trajectory s3,
          GroupRead (f.val.testBit 2) (DecodeTrajectory ext) (Trajectory.new ext)
            s2 trajectory s3 ∧
        ∃ playerInput s4,
          GroupRead (f.val.testBit 3) DecodePlayerInput ⟨false, false, false, false, 0, 0, 0⟩
            s3 playerInput s4 ∧
        ∃ blockColor s5, GroupRead (f.val.testBit 5) ReadIntColor ⟨0, 0, 0⟩ s4 blockColor s5 ∧
        ∃ health s6, GroupRead (f.val.testBit 6) ReadByte 0 s5 health s6 ∧
        ∃ skins, GroupRead (f.val.testBit 7) ReadSkins ([], [], [], []) s6 skins r1 ∧
        item =
          { entityId := id % 2 ^ 32,
            create := f.val.testBit 0, type := type.val,
            includeFlags := f.val.testBit 1, flags := FromEntityFlagsValue flags.val,
            includeTrajectory := f.val.testBit 2, trajectory := trajectory,
            includePlayerInput := f.val.testBit 3, playerInput := playerInput,
            includeTool := false, tool := 0,
            includeBlockColor := f.val.testBit 5, blockColor := blockColor,
            includeHealth := f.val.testBit 6, health := health.val,
            includeSkin := f.val.testBit 7,
            bodySkin := skins.1, weaponSkin1 := skins.2.1, weaponSkin2 := skins.2.2.1,
            weaponSkin3 := skins.2.2.2 }) ∧
    (∀ (r : List Byte) (id : Nat) (s0 : List Byte),
      ReadVariableInteger r = .ok id (0 :: s0) →
      DecodeEntityUpdateItem ext r
        = .ok { EntityUpdateItem.new ext with entityId := id % 2 ^ 32 } s0) ∧
    (∀ (packetType : Byte) (id1 id2 : Nat) (fl h t tag : Byte) (o v e : Vector3),
      id1 < 2 ^ 32 → id2 < 2 ^ 32 → ¬ ext.Oriented ext.Player → tag.val = ext.Player →
      EntityUpdatePacket.Decode ext (packetType ::
          (WriteVariableInteger id1 ++ 0x42 :: fl :: h ::
            (WriteVariableInteger id2 ++ 0x05 :: t :: tag ::
              (WriteVector3 o ++ WriteVector3 v ++ WriteVector3 e))))
        = .ok { items :=
            [ { EntityUpdateItem.new ext with
                entityId := id1, includeFlags := true, flags := FromEntityFlagsValue fl.val,
                includeHealth := true, health := h.val },
              { EntityUpdateItem.new ext with
                entityId := id2, create := true, type := t.val,
                includeTrajectory := true,
                trajectory := { Trajectory.new ext with
                  type := tag.val, origin := o, velocity := v, eulerAngle := e } } ] }) := by
  refine ⟨DecodeEntityUpdateItem_ok_iff ext, DecodeEntityUpdateItem_no_group ext, ?_⟩
  intro packetType id1 id2 fl h t tag o v e h1 h2 hp htag
  have d1 := DecodeEntityUpdateItem_flags_health ext id1 h1 fl h
    (WriteVariableInteger id2 ++ 0x05 :: t :: tag ::
      (WriteVector3 o ++ WriteVector3 v ++ WriteVector3 e))
  have d2 := DecodeEntityUpdateItem_create_player ext id2 h2 t tag o v e hp htag []
  rw [List.append_nil] at d2
  unfold EntityUpdatePacket.Decode PacketReader
  simp only [List.drop_succ_cons, List.drop_zero]
  rw [DecodeEntityUpdateItems_step ext [] _ _ _ d1,
    DecodeEntityUpdateItems_step ext _ _ _ _ d2, DecodeEntityUpdateItems_end]
  rfl

/-- Witness of C11: ids 7 and 300, with the tags numbered 0..4. -/
theorem DecodeEntityUpdateItem_flag_gated_witness :
    EntityUpdatePacket.Decode External.sample (9 ::
        (WriteVariableInteger 7 ++ 0x42 :: 0x05 :: 100 ::
          (WriteVariableInteger 300 ++ 0x05 :: 2 :: 4 ::
            (WriteVector3 Vector3.zero ++ WriteVector3 Vector3.zero
              ++ WriteVector3 Vector3.zero))))
      = .ok { items :=
          [ { EntityUpdateItem.new External.sample with
              entityId := 7, includeFlags := true,
              flags := FromEntityFlagsValue (0x05 : Byte).val,
              includeHealth := true, health := (100 : Byte).val },
            { EntityUpdateItem.new External.sample with
              entityId := 300, create := true, type := (2 : Byte).val,
              includeTrajectory := true,
              trajectory := { Trajectory.new External.sample with
                type := (4 : Byte).val, origin := Vector3.zero, velocity := Vector3.zero,
                eulerAngle := Vector3.zero } } ] } :=
  (DecodeEntityUpdateItem_flag_gated External.sample).2.2 9 7 300 0x05 100 2 4
    Vector3.zero Vector3.zero Vector3.zero (by decide) (by decide)
    (by unfold External.Oriented; decide) rfl

/-- C12 at its failing input. `DecodeEntityUpdateItem` has no branch for the
Tool bit (`1 << 4`): whatever the flags byte, a decoded item has `includeTool`
and `tool` as they were constructed. On the item bytes `01 10 03` (id 1,
flags byte with only the Tool bit, tool id 3) it returns an item with no
group and leaves the tool byte `03` unread; `EntityUpdatePacket::Decode` of a
packet holding those bytes then takes `03` for the id of a second item and
fails with the truncation error. -/
theorem DecodeEntityUpdateItem_has_no_tool_group {Q : Type} (ext : External Q)
    (packetType : Byte) :
    (∀ (r : List Byte) (item : EntityUpdateItem Q) (r1 : List Byte),
      DecodeEntityUpdateItem ext r = .ok item r1 →
      item.includeTool = (EntityUpdateItem.new ext).includeTool ∧
      item.tool = (EntityUpdateItem.new ext).tool) ∧
    DecodeEntityUpdateItem ext [0x01, 0x10, 0x03]
      = .ok { EntityUpdateItem.new ext with entityId := 1 } [0x03] ∧
    EntityUpdatePacket.Decode ext [packetType, 0x01, 0x10, 0x03]
      = .error .receivedPacketTruncated := by
  have s1 : DecodeEntityUpdateItem ext [0x01, 0x10, 0x03]
      = .ok { EntityUpdateItem.new ext with entityId := 1 } [0x03] := rfl
  have s2 : DecodeEntityUpdateItem ext [0x03] = .error .receivedPacketTruncated [] := rfl
  refine ⟨?_, s1, ?_⟩
  · intro r item r1 h
    rw [DecodeEntityUpdateItem_ok_iff] at h
    obtain ⟨id, s, -, f, s0, -, type, sa, -, flags, sb, -, trajectory, sc, -,
      playerInput, sd, -, blockColor, se, -, health, sf, -, skins, -, rfl⟩ := h
    exact ⟨rfl, rfl⟩
  · unfold EntityUpdatePacket.Decode PacketReader
    simp only [List.drop_succ_cons, List.drop_zero]
    rw [DecodeEntityUpdateItems_step ext [] _ _ _ s1,
      DecodeEntityUpdateItems_fail ext _ _ _ _ (by simp) s2]

/-! ## Batches of items -/

theorem local_pure {α : Type} (a : α) : (Pure.pure a : Reader α).Local := by
  intro r b r1 h
  rw [Reader_pure_apply] at h
  cases h
  exact ⟨[], rfl, fun y => rfl⟩

theorem local_raise {α : Type} (e : DecodeError) : (SPRaise e : Reader α).Local := by
  intro r b r1 h
  simp [SPRaise] at h

theorem local_bind {α β : Type} {x : Reader α} {f : α → Reader β}
    (hx : x.Local) (hf : ∀ a, (f a).Local) : (x >>= f).Local := by
  intro r b r2 h
  rw [bind_ok_iff] at h
  obtain ⟨a, r1, h1, h2⟩ := h
  obtain ⟨seg1, e1, l1⟩ := hx r a r1 h1
  obtain ⟨seg2, e2, l2⟩ := hf a r1 b r2 h2
  refine ⟨seg1 ++ seg2, by rw [e1, e2, List.append_assoc], fun y => ?_⟩
  rw [bind_ok_iff]
  exact ⟨a, seg2 ++ y, by rw [List.append_assoc]; exact l1 _, l2 y⟩

theorem local_ite {α : Type} {c : Prop} [Decidable c] {x y : Reader α}
    (hx : x.Local) (hy : y.Local) : (if c then x else y).Local := by
  split
  · exact hx
  · exact hy

theorem ReadByte_local : ReadByte.Local := by
  intro r a r1 h
  cases r with
  | nil => cases h
  | cons b t =>
    cases h
    exact ⟨[a], rfl, fun y => rfl⟩

theorem ReadData_local (siz : Nat) : (ReadData siz).Local := by
  intro r a r1 h
  unfold ReadData at h
  split at h
  · rename_i hlen
    cases h
    refine ⟨r.take siz, (List.take_append_drop siz r).symm, fun y => ?_⟩
    have hl : (r.take siz).length = siz := by
      rw [List.length_take]; omega
    unfold ReadData
    rw [if_pos (by rw [List.length_append]; omega), List.take_left' hl, List.drop_left' hl]
  · cases h

theorem ReadVariableInteger_loop_local (v shift : Nat) :
    (ReadVariableInteger.loop v shift).Local := by
  intro r
  induction r generalizing v shift with
  | nil => intro a r1 h; cases h
  | cons b t ih =>
    intro a r1 h
    simp only [ReadVariableInteger.loop] at h
    split at h
    · rename_i hb
      obtain ⟨seg, e, l⟩ := ih _ _ a r1 h
      refine ⟨b :: seg, by rw [e]; rfl, fun y => ?_⟩
      simp only [List.cons_append, ReadVariableInteger.loop]
      rw [if_pos hb]
      exact l y
    · rename_i hb
      cases h
      refine ⟨[b], rfl, fun y => ?_⟩
      simp only [List.cons_append, List.nil_append, ReadVariableInteger.loop]
      rw [if_neg hb]
      rfl

theorem ReadVariableInteger_local : ReadVariableInteger.Local :=
  ReadVariableInteger_loop_local 0 0

theorem ReadBytes_local : ReadBytes.Local := by
  unfold ReadBytes
  refine local_bind ReadVariableInteger_local (fun len => ?_)
  refine local_ite (local_raise _) ?_
  exact local_bind (ReadData_local len) (fun s => local_pure _)

theorem ReadFloat_local : ReadFloat.Local := by
  unfold ReadFloat
  refine local_bind ReadByte_local (fun _ => ?_)
  refine local_bind ReadByte_local (fun _ => ?_)
  refine local_bind ReadByte_local (fun _ => ?_)
  exact local_bind ReadByte_local (fun _ => local_pure _)

theorem ReadVector3_local : ReadVector3.Local := by
  unfold ReadVector3
  refine local_bind ReadFloat_local (fun _ => ?_)
  refine local_bind ReadFloat_local (fun _ => ?_)
  exact local_bind ReadFloat_local (fun _ => local_pure _)

theorem ReadIntColor_local : ReadIntColor.Local := by
  unfold ReadIntColor
  refine local_bind ReadByte_local (fun _ => ?_)
  refine local_bind ReadByte_local (fun _ => ?_)
  exact local_bind ReadByte_local (fun _ => local_pure _)

theorem DecodePlayerInput_local : DecodePlayerInput.Local := by
  unfold DecodePlayerInput
  refine local_bind ReadByte_local (fun _ => ?_)
  refine local_bind ReadByte_local (fun _ => ?_)
  exact local_bind ReadByte_local (fun _ => local_pure _)

theorem DecodeTrajectory_local {Q : Type} (ext : External Q) :
    (DecodeTrajectory ext).Local := by
  unfold DecodeTrajectory
  refine local_bind ReadByte_local (fun _ => ?_)
  refine local_bind ReadVector3_local (fun _ => ?_)
  refine local_bind ReadVector3_local (fun _ => ?_)
  refine local_ite ?_ (local_ite ?_ (local_raise _))
  · refine local_bind ReadVector3_local (fun _ => ?_)
    exact local_bind ReadVector3_local (fun _ => local_pure _)
  · exact local_bind ReadVector3_local (fun _ => local_pure _)

theorem DecodeEntityUpdateItem_local {Q : Type} (ext : External Q) :
    (DecodeEntityUpdateItem ext).Local := by
  unfold DecodeEntityUpdateItem
  refine local_bind ReadVariableInteger_local (fun _ => ?_)
  refine local_bind ReadByte_local (fun _ => ?_)
  refine local_bind (local_ite ?_ (local_pure _)) (fun _ => ?_)
  · exact local_bind ReadByte_local (fun _ => local_pure _)
  refine local_bind (local_ite ?_ (local_pure _)) (fun _ => ?_)
  · exact local_bind ReadByte_local (fun _ => local_pure _)
  refine local_bind (local_ite ?_ (local_pure _)) (fun _ => ?_)
  · exact local_bind (DecodeTrajectory_local ext) (fun _ => local_pure _)
  refine local_bind (local_ite ?_ (local_pure _)) (fun _ => ?_)
  · exact local_bind DecodePlayerInput_local (fun _ => local_pure _)
  refine local_bind (local_ite ?_ (local_pure _)) (fun _ => ?_)
  · exact local_bind ReadIntColor_local (fun _ => local_pure _)
  refine local_bind (local_ite ?_ (local_pure _)) (fun _ => ?_)
  · exact local_bind ReadByte_local (fun _ => local_pure _)
  refine local_bind (local_ite ?_ (local_pure _)) (fun _ => ?_)
  · refine local_bind ReadBytes_local (fun _ => ?_)
    refine local_bind ReadBytes_local (fun _ => ?_)
    refine local_bind ReadBytes_local (fun _ => ?_)
    exact local_bind ReadBytes_local (fun _ => local_pure _)
  exact local_pure _


theorem complete_item_extends {Q : Type} (ext : External Q) (seg : List Byte)
    (item : EntityUpdateItem Q) (h : DecodeEntityUpdateItem ext seg = .ok item []) (y : List Byte) :
    DecodeEntityUpdateItem ext (seg ++ y) = .ok item y := by
  obtain ⟨seg1, e1, l1⟩ := DecodeEntityUpdateItem_local ext seg item [] h
  rw [List.append_nil] at e1
  rw [e1]
  exact l1 y

theorem DecodeEntityUpdateItems_segments {Q : Type} (ext : External Q)
    (segs : List (List Byte)) (items : List (EntityUpdateItem Q))
    (h : List.Forall₂ (fun seg item => DecodeEntityUpdateItem ext seg = .ok item []) segs items) :
    ∀ (acc : List (EntityUpdateItem Q)) (rest : List Byte),
      DecodeEntityUpdateItems ext acc (segs.flatten ++ rest)
        = DecodeEntityUpdateItems ext (acc ++ items) rest := by
  induction h with
  | nil => intro acc rest; simp
  | cons h1 _ ih =>
    intro acc rest
    rw [List.flatten_cons, List.append_assoc,
      DecodeEntityUpdateItems_step ext acc _ _ _ (complete_item_extends ext _ _ h1 _), ih]
    simp

theorem DecodeEntityUpdateItems_ok_segments {Q : Type} (ext : External Q) (n : Nat) :
    ∀ (r : List Byte), r.length ≤ n →
    ∀ (acc res : List (EntityUpdateItem Q)) (r1 : List Byte),
      DecodeEntityUpdateItems ext acc r = .ok res r1 →
      ∃ segs items, r = segs.flatten ∧ res = acc ++ items ∧
        List.Forall₂ (fun seg item => DecodeEntityUpdateItem ext seg = .ok item []) segs items := by
  induction n with
  | zero =>
    intro r hr acc res r1 h
    have : r = [] := List.length_eq_zero.mp (by omega)
    subst this
    rw [DecodeEntityUpdateItems_end] at h
    cases h
    exact ⟨[], [], rfl, by simp, List.Forall₂.nil⟩
  | succ n ih =>
    intro r hr acc res r1 h
    cases r with
    | nil =>
      rw [DecodeEntityUpdateItems_end] at h
      cases h
      exact ⟨[], [], rfl, by simp, List.Forall₂.nil⟩
    | cons b t =>
      cases hd : DecodeEntityUpdateItem ext (b :: t) with
      | error e r2 =>
        rw [DecodeEntityUpdateItems_error ext acc b t e r2 hd] at h
        cases h
      | ok item r2 =>
        rw [DecodeEntityUpdateItems_ok ext acc b t item r2 hd] at h
        have hlt := DecodeEntityUpdateItem_consumes ext _ _ _ hd
        obtain ⟨segs, items, e1, e2, hf⟩ := ih r2 (by simp at hr hlt; omega) _ res r1 h
        obtain ⟨seg, e3, l3⟩ := DecodeEntityUpdateItem_local ext _ _ _ hd
        have hseg : DecodeEntityUpdateItem ext seg = .ok item [] := by
          have := l3 []
          rwa [List.append_nil] at this
        refine ⟨seg :: segs, item :: items, ?_, ?_, List.Forall₂.cons hseg hf⟩
        · rw [List.flatten_cons, ← e1, e3]
        · rw [e2]; simp

theorem DecodeEntityUpdateItems_ok_iff {Q : Type} (ext : External Q) (r : List Byte)
    (items : List (EntityUpdateItem Q)) :
    (∃ r1, DecodeEntityUpdateItems ext [] r = .ok items r1) ↔
      ∃ segs, r = segs.flatten ∧ CompleteItems ext segs items := by
  constructor
  · rintro ⟨r1, h⟩
    obtain ⟨segs, its, e1, e2, hf⟩ :=
      DecodeEntityUpdateItems_ok_segments ext r.length r (Nat.le_refl _) [] items r1 h
    rw [List.nil_append] at e2
    subst e2
    exact ⟨segs, e1, hf⟩
  · rintro ⟨segs, e1, hf⟩
    have := DecodeEntityUpdateItems_segments ext segs items hf [] []
    rw [List.append_nil, List.nil_append, DecodeEntityUpdateItems_end] at this
    exact ⟨[], by rw [e1]; exact this⟩

theorem DecodeEntityUpdateItems_fail_after {Q : Type} (ext : External Q)
    (segs : List (List Byte)) (items : List (EntityUpdateItem Q)) (bad : List Byte)
    (e : DecodeError) (r1 : List Byte) (hf : CompleteItems ext segs items)
    (hne : bad ≠ []) (hbad : DecodeEntityUpdateItem ext bad = .error e r1) :
    DecodeEntityUpdateItems ext [] (segs.flatten ++ bad) = .error e r1 := by
  rw [DecodeEntityUpdateItems_segments ext segs items hf [] bad,
    DecodeEntityUpdateItems_fail ext _ bad e r1 hne hbad]

/-- C15. Batch decoding is all-or-nothing. `EntityUpdatePacket.Decode` returns
a packet exactly when the payload (the buffer after the type byte) is a
concatenation of byte segments each of which is one complete item, and the
packet holds exactly those items in order; when, after any number of complete
items, decoding the next item from the non-empty rest of the payload fails
with an error (truncation, oversized skin, unknown trajectory tag), `Decode`
fails with that error and returns no packet. The same holds for
`ClientSideEntityUpdatePacket.Decode` on the payload after its timestamp, and
a failing timestamp read fails the decode as well. -/
theorem EntityUpdate_batch_all_or_nothing {Q : Type} (ext : External Q) (data : List Byte) :
    (∀ p : EntityUpdatePacket Q, EntityUpdatePacket.Decode ext data = .ok p ↔
      ∃ segs, PacketReader data = segs.flatten ∧ CompleteItems ext segs p.items) ∧
    (∀ segs items bad e r1, CompleteItems ext segs items → bad ≠ [] →
      DecodeEntityUpdateItem ext bad = .error e r1 →
      PacketReader data = segs.flatten ++ bad →
      EntityUpdatePacket.Decode ext data = .error e) ∧
    (∀ e r0, ReadTimeStamp (PacketReader data) = .error e r0 →
      ClientSideEntityUpdatePacket.Decode ext data = .error e) ∧
    (∀ ts r0, ReadTimeStamp (PacketReader data) = .ok ts r0 →
      (∀ p : ClientSideEntityUpdatePacket Q,
        ClientSideEntityUpdatePacket.Decode ext data = .ok p ↔
          p.timestamp = ts ∧ ∃ segs, r0 = segs.flatten ∧ CompleteItems ext segs p.items) ∧
      (∀ segs items bad e r1, CompleteItems ext segs items → bad ≠ [] →
        DecodeEntityUpdateItem ext bad = .error e r1 →
        r0 = segs.flatten ++ bad →
        ClientSideEntityUpdatePacket.Decode ext data = .error e)) := by
  refine ⟨fun p => ?_, ?_, ?_, ?_⟩
  · rw [← DecodeEntityUpdateItems_ok_iff]
    unfold EntityUpdatePacket.Decode
    cases h : DecodeEntityUpdateItems ext [] (PacketReader data) with
    | error e r1 => simp
    | ok items r1 =>
      obtain ⟨pitems⟩ := p
      simp
  · intro segs items bad e r1 hf hne hbad hdata
    unfold EntityUpdatePacket.Decode
    rw [hdata, DecodeEntityUpdateItems_fail_after ext segs items bad e r1 hf hne hbad]
  · intro e r0 h
    unfold ClientSideEntityUpdatePacket.Decode
    rw [h]
  · intro ts r0 h
    constructor
    · intro p
      rw [← DecodeEntityUpdateItems_ok_iff]
      unfold ClientSideEntityUpdatePacket.Decode
      rw [h]
      cases h1 : DecodeEntityUpdateItems ext [] r0 with
      | error e r1 => simp [h1]
      | ok items r1 =>
        obtain ⟨pts, pitems⟩ := p
        simp only [h1, Except.ok.injEq, ClientSideEntityUpdatePacket.mk.injEq, Res.ok.injEq,
          exists_eq_right]
        constructor
        · rintro ⟨rfl, rfl⟩; exact ⟨rfl, r1, rfl, rfl⟩
        · rintro ⟨rfl, r2, rfl, -⟩; exact ⟨rfl, rfl⟩
    · intro segs items bad e r1 hf hne hbad hdata
      unfold ClientSideEntityUpdatePacket.Decode
      rw [h]
      simp only
      rw [hdata, DecodeEntityUpdateItems_fail_after ext segs items bad e r1 hf hne hbad]

/-- C15 at a concrete buffer: one complete item `01 00` followed by the lone
byte `02`, the start of a second item that ends before its flags byte. -/
theorem EntityUpdate_batch_all_or_nothing_witness :
    EntityUpdatePacket.Decode External.sample [9, 1, 0, 2] = .error .receivedPacketTruncated :=
  (EntityUpdate_batch_all_or_nothing External.sample [9, 1, 0, 2]).2.1 [[1, 0]]
    [{ EntityUpdateItem.new External.sample with entityId := 1 }] [2]
    .receivedPacketTruncated []
    (List.Forall₂.cons rfl List.Forall₂.nil) (by decide) rfl rfl

/-! ## Round trip of restricted packets -/

theorem GroupRead_seg {α : Type} (present : Bool) (rd : Reader α) (absent : α)
    (bytes : List Byte) (val : α) (y : List Byte)
    (h : present = true → rd (bytes ++ y) = .ok val y) :
    GroupRead present rd absent ((if present = true then bytes else []) ++ y)
      (if present = true then val else absent) y := by
  cases present with
  | false => exact ⟨rfl, rfl⟩
  | true => exact h rfl

theorem FromEntityFlagsValue_ToEntityFlagsValue (flags : EntityFlags) :
    FromEntityFlagsValue (Fin.ofNat (ToEntityFlagsValue flags) : Byte).val = flags := by
  obtain ⟨a, b, c⟩ := flags
  revert a b c
  decide

theorem DecodePlayerInput_WritePlayerInput (input : PlayerInput) (hs : input.stance ≤ 3)
    (hx : -128 ≤ input.xmove ∧ input.xmove ≤ 127)
    (hy : -128 ≤ input.ymove ∧ input.ymove ≤ 127) (rest : List Byte) :
    DecodePlayerInput (WritePlayerInput input ++ rest) = .ok input rest := by
  obtain ⟨a, b, c, d, stance, x, y⟩ := input
  obtain ⟨fl, hw, hlt, -, -, -, -, -, -, -, d0, d1, d2, d3, d6⟩ :=
    WritePlayerInput_flags a b c d stance x y hs
  have hv := Byte_ofNat_val fl hlt
  rw [hw]
  simp only [DecodePlayerInput, Reader_bind_apply, ReadByte, List.cons_append,
    List.nil_append, Reader_pure_apply, hv, d0, d1, d2, d3, d6,
    toInt8_toUInt8 x hx.1 hx.2, toInt8_toUInt8 y hy.1 hy.2]

theorem ReadIntColor_WriteColor (c : IntVector3) (hx : 0 ≤ c.x ∧ c.x < 256)
    (hy : 0 ≤ c.y ∧ c.y < 256) (hz : 0 ≤ c.z ∧ c.z < 256) (rest : List Byte) :
    ReadIntColor (WriteColor c ++ rest) = .ok c rest := by
  obtain ⟨x, y, z⟩ := c
  dsimp only at hx hy hz
  have ex : ((toUInt8 x).val : Int) = x := by rw [toUInt8_val]; omega
  have ey : ((toUInt8 y).val : Int) = y := by rw [toUInt8_val]; omega
  have ez : ((toUInt8 z).val : Int) = z := by rw [toUInt8_val]; omega
  simp only [ReadIntColor, WriteColor, Reader_bind_apply, ReadByte, List.cons_append,
    List.nil_append, Reader_pure_apply, ex, ey, ez]

theorem ReadBytes_WriteBytes_plain (str : Str) (h : PlainStr str) (rest : List Byte) :
    ReadBytes (WriteBytes str ++ rest) = .ok str rest := by
  rw [ReadBytes_WriteBytes str h.2 rest, (cStr_eq_self_iff str).mpr h.1]

theorem ReadSkins_WriteBytes (a b c d : Str) (ha : PlainStr a) (hb : PlainStr b)
    (hc : PlainStr c) (hd : PlainStr d) (rest : List Byte) :
    ReadSkins ((WriteBytes a ++ WriteBytes b ++ WriteBytes c ++ WriteBytes d) ++ rest)
      = .ok (a, b, c, d) rest := by
  simp only [ReadSkins, Reader_bind_apply, List.append_assoc,
    ReadBytes_WriteBytes_plain a ha, ReadBytes_WriteBytes_plain b hb,
    ReadBytes_WriteBytes_plain c hc, ReadBytes_WriteBytes_plain d hd, Reader_pure_apply]

theorem restricted_item_round_trip {Q : Type} (ext : External Q) (item : EntityUpdateItem Q)
    (h : item.Restricted) :
    ∃ bytes item1, WriteEntityUpdateItem ext item = .ok bytes ∧
      (∀ y, DecodeEntityUpdateItem ext (bytes ++ y) = .ok item1 y) ∧
      item.SameGroups item1 := by
  obtain ⟨hc, ht, htr, hid, hs, hx, hy, hh, hcx, hcy, hcz, hb, hw1, hw2, hw3⟩ := h
  obtain ⟨-, b0, b1, b2, b3, -, b5, b6, b7⟩ := WriteEntityUpdateItem_flags_bits item
  rw [htr, ht, Bool.or_false] at b2
  have hw : WriteEntityUpdateItem ext item = .ok (WriteVariableInteger item.entityId ++
      ((Fin.ofNat (WriteEntityUpdateItem.flags item) : Byte) ::
      ((if item.includeFlags = true then [(Fin.ofNat (ToEntityFlagsValue item.flags) : Byte)]
          else []) ++
      ((if item.includePlayerInput = true then WritePlayerInput item.playerInput else []) ++
      ((if item.includeBlockColor = true then WriteColor item.blockColor else []) ++
      ((if item.includeHealth = true then [(Fin.ofNat item.health : Byte)] else []) ++
      (if item.includeSkin = true then
          WriteBytes item.bodySkin ++ WriteBytes item.weaponSkin1
            ++ WriteBytes item.weaponSkin2 ++ WriteBytes item.weaponSkin3
        else []))))))) := by
    rw [WriteEntityUpdateItem_eq, htr, hc, ht]
    simp only [Bool.false_eq_true, if_false, List.append_nil, List.append_assoc,
      List.singleton_append, List.cons_append, List.nil_append]
  refine ⟨_,
    { entityId := item.entityId % 2 ^ 32,
      create := false, type := (0 : Byte).val,
      includeFlags := item.includeFlags,
      flags := FromEntityFlagsValue
        (if item.includeFlags = true then (Fin.ofNat (ToEntityFlagsValue item.flags) : Byte)
          else 0).val,
      includeTrajectory := false, trajectory := Trajectory.new ext,
      includePlayerInput := item.includePlayerInput,
      playerInput := if item.includePlayerInput = true then item.playerInput
        else ⟨false, false, false, false, 0, 0, 0⟩,
      includeTool := false, tool := 0,
      includeBlockColor := item.includeBlockColor,
      blockColor := if item.includeBlockColor = true then item.blockColor else ⟨0, 0, 0⟩,
      includeHealth := item.includeHealth,
      health := (if item.includeHealth = true then (Fin.ofNat item.health : Byte) else 0).val,
      includeSkin := item.includeSkin,
      bodySkin := (if item.includeSkin = true then
        (item.bodySkin, item.weaponSkin1, item.weaponSkin2, item.weaponSkin3)
        else ([], [], [], [])).1,
      weaponSkin1 := (if item.includeSkin = true then
        (item.bodySkin, item.weaponSkin1, item.weaponSkin2, item.weaponSkin3)
        else ([], [], [], [])).2.1,
      weaponSkin2 := (if item.includeSkin = true then
        (item.bodySkin, item.weaponSkin1, item.weaponSkin2, item.weaponSkin3)
        else ([], [], [], [])).2.2.1,
      weaponSkin3 := (if item.includeSkin = true then
        (item.bodySkin, item.weaponSkin1, item.weaponSkin2, item.weaponSkin3)
        else ([], [], [], [])).2.2.2 },
    hw, fun y => ?_, ?_⟩
  · rw [DecodeEntityUpdateItem_ok_iff]
    simp only [List.append_assoc, List.cons_append]
    refine ⟨item.entityId, _, read_write_varint _ hid _, _, _, rfl, ?_⟩
    rw [flags_byte_val, b0, b1, b2, b3, b5, b6, b7]
    exact ⟨0, _, GroupRead_absent rfl _ _ _,
      _, _, GroupRead_seg _ _ _ _ _ _ (fun _ => rfl),
      _, _, GroupRead_absent rfl _ _ _,
      _, _, GroupRead_seg _ _ _ _ _ _
        (fun _ => DecodePlayerInput_WritePlayerInput _ hs hx hy _),
      _, _, GroupRead_seg _ _ _ _ _ _ (fun _ => ReadIntColor_WriteColor _ hcx hcy hcz _),
      _, _, GroupRead_seg _ _ _ _ _ _ (fun _ => rfl),
      _, GroupRead_seg _ _ _ _ _ _ (fun _ => by
        have := ReadSkins_WriteBytes _ _ _ _ hb hw1 hw2 hw3 y
        simpa only [List.append_assoc] using this),
      rfl⟩
  · unfold EntityUpdateItem.SameGroups
    dsimp only
    refine ⟨(Nat.mod_eq_of_lt hid).symm, hc, htr, rfl, rfl, rfl, rfl, rfl, ?_, ?_, ?_, ?_, ?_⟩
    · intro hp
      rw [if_pos hp, FromEntityFlagsValue_ToEntityFlagsValue]
    · intro hp
      rw [if_pos hp]
    · intro hp
      rw [if_pos hp]
    · intro hp
      rw [if_pos hp, Byte_ofNat_val _ hh]
    · intro hp
      rw [if_pos hp]
      exact ⟨rfl, rfl, rfl, rfl⟩

theorem restricted_items_round_trip {Q : Type} (ext : External Q)
    (items : List (EntityUpdateItem Q)) (h : ∀ item ∈ items, item.Restricted) :
    ∃ bytes items1, WriteEntityUpdateItems ext items = .ok bytes ∧
      (∀ acc, DecodeEntityUpdateItems ext acc bytes = .ok (acc ++ items1) []) ∧
      List.Forall₂ EntityUpdateItem.SameGroups items items1 := by
  induction items with
  | nil =>
    refine ⟨[], [], rfl, fun acc => ?_, List.Forall₂.nil⟩
    rw [DecodeEntityUpdateItems_end, List.append_nil]
  | cons item t ih =>
    obtain ⟨b1, i1, hw1, hd1, hs1⟩ :=
      restricted_item_round_trip ext item (h item (List.mem_cons_self _ _))
    obtain ⟨b2, is2, hw2, hd2, hs2⟩ := ih (fun x hx => h x (List.mem_cons_of_mem _ hx))
    refine ⟨b1 ++ b2, i1 :: is2, ?_, fun acc => ?_, List.Forall₂.cons hs1 hs2⟩
    · simp only [WriteEntityUpdateItems, hw1, hw2]
      rfl
    · rw [DecodeEntityUpdateItems_step ext acc _ _ _ (hd1 b2), hd2]
      simp

/-- C20. Restricted round trip. For every list of items all of which are
`Restricted` (no creation, no tool, no trajectory, entity id below 2^32,
stance in 0..3, health and color components in 0..255, skins free of zero
bytes and at most 1 MiB long), `EntityUpdatePacket.Generate` succeeds and
`EntityUpdatePacket.Decode` of its output succeeds with as many items in the
same order, each with the same entity id, the same presence flags and equal
values of every present group; and for every timestamp below 2^32 the same
holds for `ClientSideEntityUpdatePacket`, whose decoded timestamp is the
written one. -/
theorem EntityUpdate_restricted_round_trip {Q : Type} (ext : External Q) (packetType : Byte)
    (items : List (EntityUpdateItem Q)) (h : ∀ item ∈ items, item.Restricted) :
    (∃ bytes p, EntityUpdatePacket.Generate ext packetType { items := items } = .ok bytes ∧
      EntityUpdatePacket.Decode ext bytes = .ok p ∧
      List.Forall₂ EntityUpdateItem.SameGroups items p.items) ∧
    (∀ timestamp, timestamp < 2 ^ 32 →
      ∃ bytes p,
        ClientSideEntityUpdatePacket.Generate ext packetType
          { timestamp := timestamp, items := items } = .ok bytes ∧
        ClientSideEntityUpdatePacket.Decode ext bytes = .ok p ∧
        p.timestamp = timestamp ∧
        List.Forall₂ EntityUpdateItem.SameGroups items p.items) := by
  obtain ⟨bytes, items1, hw, hd, hs⟩ := restricted_items_round_trip ext items h
  constructor
  · refine ⟨ToArray packetType bytes, { items := items1 }, ?_, ?_, hs⟩
    · simp only [EntityUpdatePacket.Generate, hw]
      rfl
    · unfold EntityUpdatePacket.Decode ToArray PacketReader
      simp only [List.drop_succ_cons, List.drop_zero, hd, List.nil_append]
  · intro timestamp hts
    refine ⟨ToArray packetType (WriteTimeStamp timestamp ++ bytes),
      { timestamp := timestamp, items := items1 }, ?_, ?_, rfl, hs⟩
    · simp only [ClientSideEntityUpdatePacket.Generate, hw]
      rfl
    · unfold ClientSideEntityUpdatePacket.Decode ToArray PacketReader ReadTimeStamp
        WriteTimeStamp
      simp only [List.drop_succ_cons, List.drop_zero, read_write_varint timestamp hts, hd,
        List.nil_append]

/-- C20 at a concrete packet: one item with entity id 3, a health of 100 and
a body skin of one byte. -/
theorem EntityUpdate_restricted_round_trip_witness :
    ∃ bytes p,
      EntityUpdatePacket.Generate External.sample 5
        { items := [{ EntityUpdateItem.new External.sample with
            entityId := 3, includeHealth := true, health := 100,
            includeSkin := true, bodySkin := [65] }] } = .ok bytes ∧
      EntityUpdatePacket.Decode External.sample bytes = .ok p ∧
      List.Forall₂ EntityUpdateItem.SameGroups
        [{ EntityUpdateItem.new External.sample with
            entityId := 3, includeHealth := true, health := 100,
            includeSkin := true, bodySkin := [65] }] p.items :=
  (EntityUpdate_restricted_round_trip External.sample 5
    [{ EntityUpdateItem.new External.sample with
        entityId := 3, includeHealth := true, health := 100,
        includeSkin := true, bodySkin := [65] }]
    (by
      intro item hi
      rw [List.mem_singleton] at hi
      subst hi
      unfold EntityUpdateItem.Restricted PlainStr
      decide)).1

/-! ## Termination -/

theorem after_eq_iff {α : Type} (m : Passes) (x : Res α × Passes) (res : Res α) (n : Passes) :
    Passes.after m x = (res, n) ↔ ∃ k, x = (res, k) ∧ n = m.add k := by
  obtain ⟨y, k⟩ := x
  simp only [Passes.after, Prod.mk.injEq]
  constructor
  · rintro ⟨rfl, rfl⟩
    exact ⟨k, ⟨rfl, rfl⟩, rfl⟩
  · rintro ⟨k1, ⟨rfl, rfl⟩, rfl⟩
    exact ⟨rfl, rfl⟩

theorem Counted_ReadVariableInteger_loop_count (v shift : Nat) (r : List Byte) :
    (∀ a r1 n, Counted.ReadVariableInteger.loop v shift r = (.ok a r1, n) →
      n.cut = 0 ∧ n.completed + r1.length = r.length) ∧
    (∀ e r1 n, Counted.ReadVariableInteger.loop v shift r = (.error e r1, n) →
      e = .receivedPacketTruncated ∧ r1 = [] ∧ n.completed = r.length ∧ n.cut = 1) := by
  induction r generalizing v shift with
  | nil =>
    rw [Counted_ReadVariableInteger_loop_nil]
    constructor
    · intro a r1 n h; cases h
    · intro e r1 n h; cases h; exact ⟨rfl, rfl, rfl, rfl⟩
  | cons b rest ih =>
    rw [Counted_ReadVariableInteger_loop_cons]
    split
    · constructor
      · intro a r1 n h
        obtain ⟨k, hk, rfl⟩ := (after_eq_iff _ _ _ _).mp h
        have := (ih _ _).1 a r1 k hk
        simp only [Passes.add, List.length_cons]
        omega
      · intro e r1 n h
        obtain ⟨k, hk, rfl⟩ := (after_eq_iff _ _ _ _).mp h
        obtain ⟨h1, h2, h3, h4⟩ := (ih _ _).2 e r1 k hk
        refine ⟨h1, h2, ?_, ?_⟩
        · simp only [Passes.add, List.length_cons]
          omega
        · simp only [Passes.add]
          omega
    · constructor
      · intro a r1 n h
        cases h
        exact ⟨rfl, by simp only [List.length_cons]; omega⟩
      · intro e r1 n h; cases h

theorem within_pure {α : Type} (d : Nat) (a : α) : (Pure.pure a : Counted α).Within 0 d := by
  intro r
  constructor
  · intro b r1 n h
    rw [Counted_pure_apply] at h
    cases h
    refine ⟨rfl, ?_⟩
    show 0 + r.length + 0 ≤ r.length
    omega
  · intro e r1 n h
    rw [Counted_pure_apply] at h
    cases h

theorem within_lift {α : Type} (d : Nat) {x : Reader α} (hx : x.NoBack) :
    (Counted.lift x).Within 0 d := by
  intro r
  constructor
  · intro b r1 n h
    simp only [Counted.lift, Prod.mk.injEq] at h
    obtain ⟨h1, rfl⟩ := h
    exact ⟨rfl, by have := hx r b r1 h1; simpa using this⟩
  · intro e r1 n h
    simp only [Counted.lift, Prod.mk.injEq] at h
    obtain ⟨h1, rfl⟩ := h
    exact ⟨Nat.zero_le _, Nat.zero_le _⟩

theorem within_lift_consumes {α : Type} (d : Nat) {x : Reader α} (hx : x.Consumes) :
    (Counted.lift x).Within 1 d := by
  intro r
  constructor
  · intro b r1 n h
    simp only [Counted.lift, Prod.mk.injEq] at h
    obtain ⟨h1, rfl⟩ := h
    have := hx r b r1 h1
    refine ⟨rfl, ?_⟩
    show 0 + r1.length + 1 ≤ r.length
    omega
  · intro e r1 n h
    simp only [Counted.lift, Prod.mk.injEq] at h
    obtain ⟨h1, rfl⟩ := h
    exact ⟨Nat.zero_le _, Nat.zero_le _⟩

theorem within_bind {α β : Type} {jx jf d : Nat} {x : Counted α} {f : α → Counted β}
    (hx : x.Within jx d) (hf : ∀ a, (f a).Within jf d) : (x >>= f).Within (jx + jf) d := by
  intro r
  rw [Counted_bind_apply]
  rcases hxr : x r with ⟨res, n⟩
  cases res with
  | error e r1 =>
    constructor
    · intro b r2 m h; cases h
    · intro e2 r2 m h
      cases h
      exact (hx r).2 e r1 n hxr
  | ok a r1 =>
    obtain ⟨c1, l1⟩ := (hx r).1 a r1 n hxr
    constructor
    · intro b r2 m h
      obtain ⟨k, hk, rfl⟩ := (after_eq_iff _ _ _ _).mp h
      obtain ⟨c2, l2⟩ := (hf a r1).1 b r2 k hk
      simp only [Passes.add]
      omega
    · intro e r2 m h
      obtain ⟨k, hk, rfl⟩ := (after_eq_iff _ _ _ _).mp h
      obtain ⟨c2, l2⟩ := (hf a r1).2 e r2 k hk
      simp only [Passes.add]
      omega

theorem within_mono {α : Type} {j d j1 d1 : Nat} {x : Counted α} (hx : x.Within j d)
    (hj : j1 ≤ j) (hd : d ≤ d1) : x.Within j1 d1 := by
  intro r
  constructor
  · intro a r1 n h
    obtain ⟨c, l⟩ := (hx r).1 a r1 n h
    exact ⟨c, by omega⟩
  · intro e r1 n h
    obtain ⟨c, l⟩ := (hx r).2 e r1 n h
    exact ⟨by omega, l⟩

theorem within_bind_right {α β : Type} {j d : Nat} {x : Counted α} {f : α → Counted β}
    (hx : x.Within 0 d) (hf : ∀ a, (f a).Within j d) : (x >>= f).Within j d :=
  within_mono (within_bind hx hf) (by omega) (Nat.le_refl _)

theorem within_bind_left {α β : Type} {j d : Nat} {x : Counted α} {f : α → Counted β}
    (hx : x.Within j d) (hf : ∀ a, (f a).Within 0 d) : (x >>= f).Within j d :=
  within_mono (within_bind hx hf) (by omega) (Nat.le_refl _)

theorem within_ite {α : Type} {j d : Nat} {c : Prop} [Decidable c] {x y : Counted α}
    (hx : x.Within j d) (hy : y.Within j d) : (if c then x else y).Within j d := by
  split
  · exact hx
  · exact hy

theorem within_ReadVariableInteger : Counted.ReadVariableInteger.Within 0 1 := by
  intro r
  constructor
  · intro a r1 n h
    obtain ⟨c, l⟩ := (Counted_ReadVariableInteger_loop_count 0 0 r).1 a r1 n h
    exact ⟨c, by omega⟩
  · intro e r1 n h
    obtain ⟨-, -, l, c⟩ := (Counted_ReadVariableInteger_loop_count 0 0 r).2 e r1 n h
    exact ⟨by omega, by omega⟩

theorem within_ReadBytes : Counted.ReadBytes.Within 0 1 := by
  unfold Counted.ReadBytes
  refine within_bind_right within_ReadVariableInteger (fun len => ?_)
  refine within_ite (within_lift 1 (noBack_raise _)) ?_
  exact within_bind_right (within_lift 1 (ReadData_noBack len)) (fun s => within_pure 1 _)

theorem within_DecodeEntityUpdateItem {Q : Type} (ext : External Q) :
    (Counted.DecodeEntityUpdateItem ext).Within 1 1 := by
  unfold Counted.DecodeEntityUpdateItem
  refine within_bind_right within_ReadVariableInteger (fun _ => ?_)
  refine within_bind_left (within_lift_consumes 1 ReadByte_consumes) (fun _ => ?_)
  have hb : (Counted.lift ReadByte).Within 0 1 :=
    within_lift 1 (consumes_noBack ReadByte_consumes)
  refine within_bind_right (within_ite ?_ (within_pure 1 _)) (fun _ => ?_)
  · exact within_bind_right hb (fun _ => within_pure 1 _)
  refine within_bind_right (within_ite ?_ (within_pure 1 _)) (fun _ => ?_)
  · exact within_bind_right hb (fun _ => within_pure 1 _)
  refine within_bind_right (within_ite ?_ (within_pure 1 _)) (fun _ => ?_)
  · exact within_bind_right (within_lift 1 (DecodeTrajectory_noBack ext))
      (fun _ => within_pure 1 _)
  refine within_bind_right (within_ite ?_ (within_pure 1 _)) (fun _ => ?_)
  · exact within_bind_right (within_lift 1 DecodePlayerInput_noBack) (fun _ => within_pure 1 _)
  refine within_bind_right (within_ite ?_ (within_pure 1 _)) (fun _ => ?_)
  · exact within_bind_right (within_lift 1 ReadIntColor_noBack) (fun _ => within_pure 1 _)
  refine within_bind_right (within_ite ?_ (within_pure 1 _)) (fun _ => ?_)
  · exact within_bind_right hb (fun _ => within_pure 1 _)
  refine within_bind_right (within_ite ?_ (within_pure 1 _)) (fun _ => ?_)
  · refine within_bind_right within_ReadBytes (fun _ => ?_)
    refine within_bind_right within_ReadBytes (fun _ => ?_)
    refine within_bind_right within_ReadBytes (fun _ => ?_)
    exact within_bind_right within_ReadBytes (fun _ => within_pure 1 _)
  exact within_pure 1 _

theorem Counted_ReadBytes_count (r : List Byte) (s : Str) (r1 : List Byte) (n : Passes)
    (h : Counted.ReadBytes r = (.ok s r1, n)) :
    n.cut = 0 ∧ n.completed + r1.length + s.length ≤ r.length := by
  unfold Counted.ReadBytes at h
  rw [Counted_bind_apply] at h
  rcases h0 : Counted.ReadVariableInteger r with ⟨res, n0⟩
  rw [h0] at h
  cases res with
  | error e r0 => cases h
  | ok len r0 =>
    obtain ⟨c0, l0⟩ := (Counted_ReadVariableInteger_loop_count 0 0 r).1 len r0 n0 h0
    obtain ⟨k, hk, rfl⟩ := (after_eq_iff _ _ _ _).mp h
    by_cases c : len > 1024 * 1024
    · rw [if_pos c] at hk
      simp [Counted.lift, SPRaise] at hk
    · rw [if_neg c, Counted_bind_apply] at hk
      simp only [Counted.lift, ReadData] at hk
      by_cases hl : len ≤ r0.length
      · simp only [if_pos hl] at hk
        obtain ⟨k1, hk1, rfl⟩ := (after_eq_iff _ _ _ _).mp hk
        rw [Counted_pure_apply] at hk1
        cases hk1
        have h1 : (cStr (List.take len r0)).length ≤ (List.take len r0).length :=
          (List.takeWhile_sublist _).length_le
        have h2 : (List.take len r0).length = len := by
          rw [List.length_take]; omega
        have h3 : (List.drop len r0).length = r0.length - len := List.length_drop _ _
        simp only [Passes.add]
        omega
      · simp only [if_neg hl] at hk
        cases hk

theorem within_ReadMap_body (dict : StdMap) : (Counted.ReadMap.body dict).Within 0 1 := by
  unfold Counted.ReadMap.body Counted.ReadString
  refine within_bind_right within_ReadBytes (fun key => ?_)
  refine within_ite (within_pure 1 _) ?_
  exact within_bind_right within_ReadBytes (fun _ => within_pure 1 _)

theorem Counted_ReadMap_body_more (dict dict1 : StdMap) (r r1 : List Byte) (n : Passes)
    (h : Counted.ReadMap.body dict r = (.ok (some dict1) r1, n)) :
    n.completed + r1.length + 1 ≤ r.length := by
  unfold Counted.ReadMap.body Counted.ReadString at h
  rw [Counted_bind_apply] at h
  rcases h0 : Counted.ReadBytes r with ⟨res, n0⟩
  rw [h0] at h
  cases res with
  | error e r0 => cases h
  | ok key r0 =>
    obtain ⟨c0, l0⟩ := Counted_ReadBytes_count r key r0 n0 h0
    obtain ⟨k, hk, rfl⟩ := (after_eq_iff _ _ _ _).mp h
    cases key with
    | nil =>
      simp only [List.isEmpty_nil, if_true, Counted_pure_apply, Prod.mk.injEq,
        Res.ok.injEq] at hk
      exact absurd hk.1.1 (by simp)
    | cons b t =>
      simp only [List.isEmpty_cons, Bool.false_eq_true, if_false] at hk
      rw [Counted_bind_apply] at hk
      rcases h1 : Counted.ReadBytes r0 with ⟨res1, n1⟩
      rw [h1] at hk
      cases res1 with
      | error e r2 => cases hk
      | ok value r2 =>
        obtain ⟨c1, l1⟩ := Counted_ReadBytes_count r0 value r2 n1 h1
        obtain ⟨k1, hk1, rfl⟩ := (after_eq_iff _ _ _ _).mp hk
        rw [Counted_pure_apply] at hk1
        cases hk1
        simp only [Passes.add, List.length_cons] at *
        omega

theorem pass_eq_ok_iff {α : Type} (x : Counted α) (r : List Byte) (a : α) (r1 : List Byte)
    (n : Passes) :
    Counted.pass x r = (.ok a r1, n) ↔ ∃ k, x r = (.ok a r1, k) ∧ n = k.add ⟨1, 0⟩ := by
  unfold Counted.pass
  rcases x r with ⟨res, k⟩
  cases res with
  | ok b r2 =>
    simp only [Prod.mk.injEq, Res.ok.injEq]
    constructor
    · rintro ⟨⟨rfl, rfl⟩, rfl⟩
      exact ⟨k, ⟨⟨rfl, rfl⟩, rfl⟩, rfl⟩
    · rintro ⟨k1, ⟨⟨rfl, rfl⟩, rfl⟩, rfl⟩
      exact ⟨⟨rfl, rfl⟩, rfl⟩
  | error e r2 =>
    simp

theorem pass_eq_error_iff {α : Type} (x : Counted α) (r : List Byte) (e : DecodeError)
    (r1 : List Byte) (n : Passes) :
    Counted.pass x r = (.error e r1, n) ↔ ∃ k, x r = (.error e r1, k) ∧ n = k.add ⟨0, 1⟩ := by
  unfold Counted.pass
  rcases x r with ⟨res, k⟩
  cases res with
  | ok b r2 =>
    simp
  | error e2 r2 =>
    simp only [Prod.mk.injEq, Res.error.injEq]
    constructor
    · rintro ⟨⟨rfl, rfl⟩, rfl⟩
      exact ⟨k, ⟨⟨rfl, rfl⟩, rfl⟩, rfl⟩
    · rintro ⟨k1, ⟨⟨rfl, rfl⟩, rfl⟩, rfl⟩
      exact ⟨⟨rfl, rfl⟩, rfl⟩

theorem Counted_ReadMap_loop_error (dict : StdMap) (r : List Byte) (e : DecodeError)
    (r1 : List Byte) (n : Passes)
    (h : Counted.pass (Counted.ReadMap.body dict) r = (.error e r1, n)) :
    Counted.ReadMap.loop dict r = (.error e r1, n) := by
  rw [Counted.ReadMap.loop]
  split
  · rename_i heq; rw [h] at heq; cases heq; rfl
  · rename_i heq; rw [h] at heq; cases heq
  · rename_i heq; rw [h] at heq; cases heq

theorem Counted_ReadMap_loop_break (dict : StdMap) (r : List Byte)
    (r1 : List Byte) (n : Passes)
    (h : Counted.pass (Counted.ReadMap.body dict) r = (.ok none r1, n)) :
    Counted.ReadMap.loop dict r = (.ok dict r1, n) := by
  rw [Counted.ReadMap.loop]
  split
  · rename_i heq; rw [h] at heq; cases heq
  · rename_i heq; rw [h] at heq; cases heq; rfl
  · rename_i heq; rw [h] at heq; cases heq

theorem Counted_ReadMap_loop_more (dict dict1 : StdMap) (r : List Byte)
    (r1 : List Byte) (n : Passes)
    (h : Counted.pass (Counted.ReadMap.body dict) r = (.ok (some dict1) r1, n)) :
    Counted.ReadMap.loop dict r = Passes.after n (Counted.ReadMap.loop dict1 r1) := by
  rw [Counted.ReadMap.loop]
  split
  · rename_i heq; rw [h] at heq; cases heq
  · rename_i heq; rw [h] at heq; cases heq
  · rename_i heq; rw [h] at heq; cases heq; rfl

theorem Counted_ReadMap_loop_count (m : Nat) :
    ∀ (r : List Byte) (dict : StdMap), r.length ≤ m →
      (∀ a r1 n, Counted.ReadMap.loop dict r = (.ok a r1, n) →
        n.cut = 0 ∧ r1.length < r.length ∧ n.completed + r1.length ≤ r.length + 1) ∧
      (∀ e r1 n, Counted.ReadMap.loop dict r = (.error e r1, n) →
        n.cut ≤ 2 ∧ n.completed ≤ r.length) := by
  induction m with
  | zero =>
    intro r dict hr
    have hnil : r = [] := List.length_eq_zero.mp (Nat.le_zero.mp hr)
    subst hnil
    rcases hb : Counted.pass (Counted.ReadMap.body dict) [] with ⟨res, n0⟩
    cases res with
    | ok x r0 =>
      have := erase_consumes (ReadMap_body_consumes dict) hb
      simp at this
    | error e r0 =>
      rw [Counted_ReadMap_loop_error dict [] e r0 n0 hb]
      obtain ⟨k, hk, rfl⟩ := (pass_eq_error_iff _ _ _ _ _).mp hb
      obtain ⟨c, l⟩ := (within_ReadMap_body dict []).2 e r0 k hk
      constructor
      · intro a r1 n h; cases h
      · intro e1 r1 n h
        cases h
        simp only [Passes.add]
        omega
  | succ m ih =>
    intro r dict hr
    rcases hb : Counted.pass (Counted.ReadMap.body dict) r with ⟨res, n0⟩
    cases res with
    | error e r0 =>
      rw [Counted_ReadMap_loop_error dict r e r0 n0 hb]
      obtain ⟨k, hk, rfl⟩ := (pass_eq_error_iff _ _ _ _ _).mp hb
      obtain ⟨c, l⟩ := (within_ReadMap_body dict r).2 e r0 k hk
      constructor
      · intro a r1 n h; cases h
      · intro e1 r1 n h
        cases h
        simp only [Passes.add]
        omega
    | ok x r0 =>
      have hlt := erase_consumes (ReadMap_body_consumes dict) hb
      obtain ⟨k, hk, rfl⟩ := (pass_eq_ok_iff _ _ _ _ _).mp hb
      obtain ⟨c, l⟩ := (within_ReadMap_body dict r).1 x r0 k hk
      cases x with
      | none =>
        rw [Counted_ReadMap_loop_break dict r r0 _ hb]
        constructor
        · intro a r1 n h
          cases h
          simp only [Passes.add]
          omega
        · intro e1 r1 n h; cases h
      | some dict1 =>
        rw [Counted_ReadMap_loop_more dict dict1 r r0 _ hb]
        have l1 := Counted_ReadMap_body_more dict dict1 r r0 k hk
        obtain ⟨iok, ierr⟩ := ih r0 dict1 (by omega)
        constructor
        · intro a r1 n h
          obtain ⟨k2, hk2, rfl⟩ := (after_eq_iff _ _ _ _).mp h
          obtain ⟨c2, lt2, l2⟩ := iok a r1 k2 hk2
          simp only [Passes.add]
          omega
        · intro e1 r1 n h
          obtain ⟨k2, hk2, rfl⟩ := (after_eq_iff _ _ _ _).mp h
          obtain ⟨c2, l2⟩ := ierr e1 r1 k2 hk2
          simp only [Passes.add]
          omega

theorem erase_ReadMap_body (dict : StdMap) :
    (Counted.ReadMap.body dict).erase =
      (ReadString >>= fun key =>
        if key.isEmpty then pure none
        else ReadString >>= fun value => pure (some (StdMap.insert dict key value))) := by
  unfold Counted.ReadMap.body
  simp only [erase_bind, erase_ite, erase_pure, erase_ReadString]

theorem ReadMap_loop_body (dict : StdMap) (r : List Byte) :
    ReadMap.loop dict r =
      match (Counted.ReadMap.body dict).erase r with
      | .error e r1 => .error e r1
      | .ok none r1 => .ok dict r1
      | .ok (some dict1) r1 => ReadMap.loop dict1 r1 := by
  rw [erase_ReadMap_body, ReadMap.loop, Reader_bind_apply]
  split
  · rename_i e r1 heq
    simp only [heq]
  · rename_i key r1 heq
    simp only [heq]
    by_cases c : key.isEmpty = true
    · simp only [c, if_true, Reader_pure_apply]
    · simp only [c, Bool.false_eq_true, if_false, Reader_bind_apply]
      split
      · rename_i e r2 heq2
        simp only [heq2]
      · rename_i value r2 heq2
        simp only [heq2, Reader_pure_apply]

theorem pass_erase {α : Type} (x : Counted α) (r : List Byte) (res : Res α) (n : Passes)
    (h : Counted.pass x r = (res, n)) : x.erase r = res := by
  have h1 : (Counted.pass x).erase r = res := by
    show (Counted.pass x r).1 = res
    rw [h]
  rwa [erase_pass] at h1

theorem erase_ReadMap_loop (m : Nat) :
    ∀ (r : List Byte) (dict : StdMap), r.length < m →
      (Counted.ReadMap.loop dict r).1 = ReadMap.loop dict r := by
  induction m with
  | zero => intro r dict hr; omega
  | succ m ih =>
    intro r dict hr
    rcases hb : Counted.pass (Counted.ReadMap.body dict) r with ⟨res, n0⟩
    have he := pass_erase _ _ _ _ hb
    rw [ReadMap_loop_body, he]
    cases res with
    | error e r0 => rw [Counted_ReadMap_loop_error dict r e r0 n0 hb]
    | ok x r0 =>
      cases x with
      | none => rw [Counted_ReadMap_loop_break dict r r0 n0 hb]
      | some dict1 =>
        rw [Counted_ReadMap_loop_more dict dict1 r r0 n0 hb]
        have hlt := erase_consumes (ReadMap_body_consumes dict) hb
        exact ih r0 dict1 (by omega)

theorem erase_ReadMap : Counted.ReadMap.erase = ReadMap := by
  funext r
  exact erase_ReadMap_loop (r.length + 1) r [] (Nat.lt_succ_self _)

theorem Counted_DecodeEntityUpdateItems_end {Q : Type} (ext : External Q)
    (items : List (EntityUpdateItem Q)) :
    Counted.DecodeEntityUpdateItems ext items [] = (.ok items [], ⟨0, 0⟩) := by
  rw [Counted.DecodeEntityUpdateItems]
  simp [IsEndOfPacket]

theorem Counted_DecodeEntityUpdateItems_error {Q : Type} (ext : External Q)
    (items : List (EntityUpdateItem Q)) (b : Byte) (r : List Byte)
    (e : DecodeError) (r1 : List Byte) (n : Passes)
    (h : Counted.pass (Counted.DecodeEntityUpdateItem ext) (b :: r) = (.error e r1, n)) :
    Counted.DecodeEntityUpdateItems ext items (b :: r) = (.error e r1, n) := by
  rw [Counted.DecodeEntityUpdateItems]
  simp only [IsEndOfPacket, List.isEmpty_cons, Bool.false_eq_true, if_false]
  split
  · rename_i heq; rw [h] at heq; cases heq; rfl
  · rename_i heq; rw [h] at heq; cases heq

theorem Counted_DecodeEntityUpdateItems_step {Q : Type} (ext : External Q)
    (items : List (EntityUpdateItem Q)) (b : Byte) (r : List Byte)
    (item : EntityUpdateItem Q) (r1 : List Byte) (n : Passes)
    (h : Counted.pass (Counted.DecodeEntityUpdateItem ext) (b :: r) = (.ok item r1, n)) :
    Counted.DecodeEntityUpdateItems ext items (b :: r) =
      Passes.after n (Counted.DecodeEntityUpdateItems ext (items ++ [item]) r1) := by
  rw [Counted.DecodeEntityUpdateItems]
  simp only [IsEndOfPacket, List.isEmpty_cons, Bool.false_eq_true, if_false]
  split
  · rename_i heq; rw [h] at heq; cases heq
  · rename_i heq; rw [h] at heq; cases heq; rfl

theorem erase_DecodeEntityUpdateItems {Q : Type} (ext : External Q) (m : Nat) :
    ∀ (r : List Byte) (items : List (EntityUpdateItem Q)), r.length < m →
      (Counted.DecodeEntityUpdateItems ext items r).1 = DecodeEntityUpdateItems ext items r := by
  induction m with
  | zero => intro r items hr; omega
  | succ m ih =>
    intro r items hr
    cases r with
    | nil => rw [Counted_DecodeEntityUpdateItems_end, DecodeEntityUpdateItems_end]
    | cons b t =>
      rcases hb : Counted.pass (Counted.DecodeEntityUpdateItem ext) (b :: t) with ⟨res, n0⟩
      have he := pass_erase _ _ _ _ hb
      rw [erase_DecodeEntityUpdateItem] at he
      cases res with
      | error e r0 =>
        rw [Counted_DecodeEntityUpdateItems_error ext items b t e r0 n0 hb,
          DecodeEntityUpdateItems_error ext items b t e r0 he]
      | ok item r0 =>
        rw [Counted_DecodeEntityUpdateItems_step ext items b t item r0 n0 hb,
          DecodeEntityUpdateItems_ok ext items b t item r0 he]
        have hlt := DecodeEntityUpdateItem_consumes ext _ _ _ he
        exact ih r0 _ (by simp only [List.length_cons] at hr hlt; omega)

theorem Counted_DecodeEntityUpdateItems_count {Q : Type} (ext : External Q) (m : Nat) :
    ∀ (r : List Byte) (items : List (EntityUpdateItem Q)), r.length < m →
      (∀ a r1 n, Counted.DecodeEntityUpdateItems ext items r = (.ok a r1, n) →
        n.cut = 0 ∧ n.completed + r1.length ≤ r.length) ∧
      (∀ e r1 n, Counted.DecodeEntityUpdateItems ext items r = (.error e r1, n) →
        n.cut ≤ 2 ∧ n.completed ≤ r.length) := by
  induction m with
  | zero => intro r items hr; omega
  | succ m ih =>
    intro r items hr
    cases r with
    | nil =>
      rw [Counted_DecodeEntityUpdateItems_end]
      constructor
      · intro a r1 n h; cases h; exact ⟨rfl, Nat.le_refl _⟩
      · intro e r1 n h; cases h
    | cons b t =>
      rcases hb : Counted.pass (Counted.DecodeEntityUpdateItem ext) (b :: t) with ⟨res, n0⟩
      cases res with
      | error e r0 =>
        rw [Counted_DecodeEntityUpdateItems_error ext items b t e r0 n0 hb]
        obtain ⟨k, hk, rfl⟩ := (pass_eq_error_iff _ _ _ _ _).mp hb
        obtain ⟨c, l⟩ := (within_DecodeEntityUpdateItem ext (b :: t)).2 e r0 k hk
        constructor
        · intro a r1 n h; cases h
        · intro e1 r1 n h
          cases h
          simp only [Passes.add]
          omega
      | ok item r0 =>
        rw [Counted_DecodeEntityUpdateItems_step ext items b t item r0 n0 hb]
        obtain ⟨k, hk, rfl⟩ := (pass_eq_ok_iff _ _ _ _ _).mp hb
        obtain ⟨c, l⟩ := (within_DecodeEntityUpdateItem ext (b :: t)).1 item r0 k hk
        obtain ⟨iok, ierr⟩ := ih r0 (items ++ [item]) (by omega)
        constructor
        · intro a r1 n h
          obtain ⟨k2, hk2, rfl⟩ := (after_eq_iff _ _ _ _).mp h
          obtain ⟨c2, l2⟩ := iok a r1 k2 hk2
          simp only [Passes.add]
          omega
        · intro e1 r1 n h
          obtain ⟨k2, hk2, rfl⟩ := (after_eq_iff _ _ _ _).mp h
          obtain ⟨c2, l2⟩ := ierr e1 r1 k2 hk2
          simp only [Passes.add]
          omega

theorem atLeast_zero {α : Type} (x : Counted α) : x.AtLeast (fun _ => 0) :=
  fun _ _ _ _ _ => Nat.zero_le _

theorem atLeast_bind {α β : Type} (c : Nat) (m : β → Nat) {x : Counted α} {f : α → Counted β}
    (hx : x.AtLeast (fun _ => c)) (hf : ∀ a, (f a).AtLeast m) (k : β → Nat)
    (hk : ∀ b, k b ≤ c + m b) : (x >>= f).AtLeast k := by
  intro r b r2 n h
  rw [Counted_bind_apply] at h
  rcases hxr : x r with ⟨res, n0⟩
  rw [hxr] at h
  cases res with
  | error e r1 => cases h
  | ok a r1 =>
    obtain ⟨k1, hk1, rfl⟩ := (after_eq_iff _ _ _ _).mp h
    have h1 : c ≤ n0.completed := hx r a r1 n0 hxr
    have h2 := hf a r1 b r2 k1 hk1
    have h3 := hk b
    simp only [Passes.add]
    omega

theorem atLeast_pure {α : Type} (a : α) (m : α → Nat) (h : m a = 0) :
    (Pure.pure a : Counted α).AtLeast m := by
  intro r b r1 n hr
  rw [Counted_pure_apply] at hr
  cases hr
  show m a ≤ 0
  rw [h]

theorem atLeast_ReadVariableInteger : Counted.ReadVariableInteger.AtLeast (fun _ => 1) := by
  intro r a r1 n h
  obtain ⟨-, l⟩ := (Counted_ReadVariableInteger_loop_count 0 0 r).1 a r1 n h
  have hlt : r1.length < r.length :=
    ReadVariableInteger_consumes r a r1
      (by rw [← erase_ReadVariableInteger]; show (Counted.ReadVariableInteger r).1 = _; rw [h])
  show 1 ≤ n.completed
  omega

theorem Passes_add_zero (n : Passes) : n.add ⟨0, 0⟩ = n := rfl

theorem Counted_ReadBytes_passes (r : List Byte) :
    (Counted.ReadBytes r).2 = (Counted.ReadVariableInteger r).2 := by
  unfold Counted.ReadBytes
  rw [Counted_bind_apply]
  rcases h0 : Counted.ReadVariableInteger r with ⟨res, n0⟩
  cases res with
  | error e r0 => rfl
  | ok len r0 =>
    show (n0.add _) = n0
    by_cases c : len > 1024 * 1024
    · rw [if_pos c]
      rfl
    · rw [if_neg c, Counted_bind_apply]
      simp only [Counted.lift, ReadData]
      by_cases hl : len ≤ r0.length
      · simp only [if_pos hl]
        rfl
      · simp only [if_neg hl]
        rfl

theorem atLeast_ReadBytes : Counted.ReadBytes.AtLeast (fun _ => 1) := by
  intro r a r1 n h
  have h1 := Counted_ReadBytes_passes r
  rw [h] at h1
  rcases h0 : Counted.ReadVariableInteger r with ⟨res, n0⟩
  rw [h0] at h1
  have he : Counted.ReadBytes.erase r = .ok a r1 := by
    show (Counted.ReadBytes r).1 = _
    rw [h]
  rw [erase_ReadBytes] at he
  cases res with
  | error e r0 =>
    have hv : ReadVariableInteger r = .error e r0 := by
      rw [← erase_ReadVariableInteger]
      show (Counted.ReadVariableInteger r).1 = _
      rw [h0]
    unfold ReadBytes at he
    rw [Reader_bind_apply, hv] at he
    cases he
  | ok len r0 =>
    have := atLeast_ReadVariableInteger r len r0 n0 h0
    simp only at h1
    subst h1
    exact this

theorem atLeast_skin_group {Q : Type} (item : EntityUpdateItem Q) :
    ((if item.includeSkin then do
        let bodySkin ← Counted.ReadBytes
        let weaponSkin1 ← Counted.ReadBytes
        let weaponSkin2 ← Counted.ReadBytes
        let weaponSkin3 ← Counted.ReadBytes
        return { item with bodySkin := bodySkin, weaponSkin1 := weaponSkin1,
                           weaponSkin2 := weaponSkin2, weaponSkin3 := weaponSkin3 }
      else pure item) >>= fun item => (pure item : Counted (EntityUpdateItem Q))).AtLeast
      (fun item => if item.includeSkin then 4 else 0) := by
  by_cases hs : item.includeSkin = true
  · rw [if_pos hs]
    have h4 : ∀ x : Counted (EntityUpdateItem Q), x.AtLeast (fun _ => 4) →
        x.AtLeast (fun item => if item.includeSkin then 4 else 0) := by
      intro x hx r a r1 n h
      have : 4 ≤ n.completed := hx r a r1 n h
      show (if a.includeSkin = true then 4 else 0) ≤ n.completed
      split <;> omega
    apply h4
    refine atLeast_bind 4 (fun _ => 0) ?_ (fun a => atLeast_zero _) _ (fun _ => Nat.le_refl _)
    refine atLeast_bind 1 (fun _ => 3) atLeast_ReadBytes (fun _ => ?_) _ (fun _ => Nat.le_refl _)
    refine atLeast_bind 1 (fun _ => 2) atLeast_ReadBytes (fun _ => ?_) _ (fun _ => Nat.le_refl _)
    refine atLeast_bind 1 (fun _ => 1) atLeast_ReadBytes (fun _ => ?_) _ (fun _ => Nat.le_refl _)
    exact atLeast_bind 1 (fun _ => 0) atLeast_ReadBytes (fun _ => atLeast_zero _) _
      (fun _ => Nat.le_refl _)
  · rw [if_neg hs]
    intro r a r1 n h
    simp only [Counted_bind_apply, Counted_pure_apply, Passes.after, Passes.add, Prod.mk.injEq,
      Res.ok.injEq] at h
    obtain ⟨⟨rfl, rfl⟩, rfl⟩ := h
    show (if item.includeSkin = true then 4 else 0) ≤ 0 + 0
    rw [if_neg hs]

theorem atLeast_DecodeEntityUpdateItem {Q : Type} (ext : External Q) :
    (Counted.DecodeEntityUpdateItem ext).AtLeast
      (fun item => 1 + if item.includeSkin then 4 else 0) := by
  unfold Counted.DecodeEntityUpdateItem
  refine atLeast_bind 1 (fun item => if item.includeSkin then 4 else 0)
    atLeast_ReadVariableInteger (fun _ => ?_) _ (fun _ => Nat.le_refl _)
  have z : ∀ b : EntityUpdateItem Q,
      (if b.includeSkin then 4 else 0) ≤ 0 + if b.includeSkin then 4 else 0 :=
    fun b => by omega
  refine atLeast_bind 0 _ (atLeast_zero _) (fun _ => ?_) _ z
  refine atLeast_bind 0 _ (atLeast_zero _) (fun _ => ?_) _ z
  refine atLeast_bind 0 _ (atLeast_zero _) (fun _ => ?_) _ z
  refine atLeast_bind 0 _ (atLeast_zero _) (fun _ => ?_) _ z
  refine atLeast_bind 0 _ (atLeast_zero _) (fun _ => ?_) _ z
  refine atLeast_bind 0 _ (atLeast_zero _) (fun _ => ?_) _ z
  refine atLeast_bind 0 _ (atLeast_zero _) (fun _ => ?_) _ z
  exact atLeast_skin_group _

theorem leastPassesOfItems_append {Q : Type} (acc : List (EntityUpdateItem Q))
    (item : EntityUpdateItem Q) :
    leastPassesOfItems (acc ++ [item]) = leastPassesOfItems acc + item.leastPasses := by
  simp [leastPassesOfItems]

theorem Counted_DecodeEntityUpdateItems_least {Q : Type} (ext : External Q) (m : Nat) :
    ∀ (r : List Byte) (acc : List (EntityUpdateItem Q)), r.length < m →
      (∀ a r1 n, Counted.DecodeEntityUpdateItems ext acc r = (.ok a r1, n) →
        leastPassesOfItems a ≤ n.completed + leastPassesOfItems acc) ∧
      (∀ e r1 n, Counted.DecodeEntityUpdateItems ext acc r = (.error e r1, n) → 1 ≤ n.cut) := by
  induction m with
  | zero => intro r acc hr; omega
  | succ m ih =>
    intro r acc hr
    cases r with
    | nil =>
      rw [Counted_DecodeEntityUpdateItems_end]
      constructor
      · intro a r1 n h
        cases h
        show leastPassesOfItems acc ≤ 0 + leastPassesOfItems acc
        omega
      · intro e r1 n h; cases h
    | cons b t =>
      rcases hb : Counted.pass (Counted.DecodeEntityUpdateItem ext) (b :: t) with ⟨res, n0⟩
      cases res with
      | error e r0 =>
        rw [Counted_DecodeEntityUpdateItems_error ext acc b t e r0 n0 hb]
        obtain ⟨k, hk, rfl⟩ := (pass_eq_error_iff _ _ _ _ _).mp hb
        constructor
        · intro a r1 n h; cases h
        · intro e1 r1 n h
          cases h
          simp only [Passes.add]
          omega
      | ok item r0 =>
        rw [Counted_DecodeEntityUpdateItems_step ext acc b t item r0 n0 hb]
        have hlt := erase_consumes (DecodeEntityUpdateItem_pass_consumes ext) hb
        obtain ⟨k, hk, rfl⟩ := (pass_eq_ok_iff _ _ _ _ _).mp hb
        have hl : 1 + (if item.includeSkin = true then 4 else 0) ≤ k.completed :=
          atLeast_DecodeEntityUpdateItem ext (b :: t) item r0 k hk
        have hi : item.leastPasses = 2 + (if item.includeSkin = true then 4 else 0) := rfl
        obtain ⟨iok, ierr⟩ := ih r0 (acc ++ [item]) (by omega)
        constructor
        · intro a r1 n h
          obtain ⟨k2, hk2, rfl⟩ := (after_eq_iff _ _ _ _).mp h
          have h2 := iok a r1 k2 hk2
          rw [leastPassesOfItems_append] at h2
          simp only [Passes.add]
          omega
        · intro e1 r1 n h
          obtain ⟨k2, hk2, rfl⟩ := (after_eq_iff _ _ _ _).mp h
          have h2 := ierr e1 r1 k2 hk2
          simp only [Passes.add]
          omega

theorem StdMap_insert_length_le (dict : StdMap) (key value : Str) :
    (StdMap.insert dict key value).length ≤ dict.length + 1 := by
  induction dict with
  | nil => simp [StdMap.insert]
  | cons e rest ih =>
    obtain ⟨k, v⟩ := e
    simp only [StdMap.insert]
    split
    · simp
    · split
      · simp only [List.length_cons]
        omega
      · simp

theorem Counted_ReadMap_body_least (dict : StdMap) (r : List Byte) (x : Option StdMap)
    (r1 : List Byte) (n : Passes) (h : Counted.ReadMap.body dict r = (.ok x r1, n)) :
    (x = none → 1 ≤ n.completed) ∧
    (∀ dict1, x = some dict1 → 2 ≤ n.completed ∧ dict1.length ≤ dict.length + 1) := by
  unfold Counted.ReadMap.body Counted.ReadString at h
  rw [Counted_bind_apply] at h
  rcases h0 : Counted.ReadBytes r with ⟨res, n0⟩
  rw [h0] at h
  cases res with
  | error e r0 => cases h
  | ok key r0 =>
    have c0 : 1 ≤ n0.completed := atLeast_ReadBytes r key r0 n0 h0
    obtain ⟨k, hk, rfl⟩ := (after_eq_iff _ _ _ _).mp h
    by_cases hkey : key.isEmpty = true
    · rw [if_pos hkey, Counted_pure_apply] at hk
      cases hk
      constructor
      · intro _
        simp only [Passes.add]
        omega
      · intro dict1 hd; cases hd
    · rw [if_neg hkey, Counted_bind_apply] at hk
      rcases h1 : Counted.ReadBytes r0 with ⟨res1, n1⟩
      rw [h1] at hk
      cases res1 with
      | error e r2 => cases hk
      | ok value r2 =>
        have c1 : 1 ≤ n1.completed := atLeast_ReadBytes r0 value r2 n1 h1
        obtain ⟨k1, hk1, rfl⟩ := (after_eq_iff _ _ _ _).mp hk
        rw [Counted_pure_apply] at hk1
        cases hk1
        constructor
        · intro hx; cases hx
        · intro dict1 hd
          cases hd
          refine ⟨?_, StdMap_insert_length_le dict key value⟩
          simp only [Passes.add]
          omega

theorem Counted_ReadMap_loop_least (m : Nat) :
    ∀ (r : List Byte) (dict : StdMap), r.length < m →
      (∀ a r1 n, Counted.ReadMap.loop dict r = (.ok a r1, n) →
        3 * a.length + 2 ≤ n.completed + 3 * dict.length) ∧
      (∀ e r1 n, Counted.ReadMap.loop dict r = (.error e r1, n) → 1 ≤ n.cut) := by
  induction m with
  | zero => intro r dict hr; omega
  | succ m ih =>
    intro r dict hr
    rcases hb : Counted.pass (Counted.ReadMap.body dict) r with ⟨res, n0⟩
    cases res with
    | error e r0 =>
      rw [Counted_ReadMap_loop_error dict r e r0 n0 hb]
      obtain ⟨k, hk, rfl⟩ := (pass_eq_error_iff _ _ _ _ _).mp hb
      constructor
      · intro a r1 n h; cases h
      · intro e1 r1 n h
        cases h
        simp only [Passes.add]
        omega
    | ok x r0 =>
      have hlt := erase_consumes (ReadMap_body_consumes dict) hb
      obtain ⟨k, hk, rfl⟩ := (pass_eq_ok_iff _ _ _ _ _).mp hb
      obtain ⟨ln, ls⟩ := Counted_ReadMap_body_least dict r x r0 k hk
      cases x with
      | none =>
        rw [Counted_ReadMap_loop_break dict r r0 _ hb]
        have := ln rfl
        constructor
        · intro a r1 n h
          cases h
          simp only [Passes.add]
          omega
        · intro e1 r1 n h; cases h
      | some dict1 =>
        rw [Counted_ReadMap_loop_more dict dict1 r r0 _ hb]
        obtain ⟨l2, ld⟩ := ls dict1 rfl
        obtain ⟨iok, ierr⟩ := ih r0 dict1 (by omega)
        constructor
        · intro a r1 n h
          obtain ⟨k2, hk2, rfl⟩ := (after_eq_iff _ _ _ _).mp h
          have h2 := iok a r1 k2 hk2
          simp only [Passes.add]
          omega
        · intro e1 r1 n h
          obtain ⟨k2, hk2, rfl⟩ := (after_eq_iff _ _ _ _).mp h
          have h2 := ierr e1 r1 k2 hk2
          simp only [Passes.add]
          omega

theorem PacketReader_length (data : List Byte) :
    (PacketReader data).length = data.length - 1 := by
  simp [PacketReader]

theorem returnsWithin_of {P : Type} (decode : List Byte → Except DecodeError P)
    (counted : List Byte → Except DecodeError P × Passes) (least : P → Nat) (leastCut : Nat)
    (h : ∀ data, (counted data).1 = decode data ∧
      (∀ p, decode data = .ok p → (counted data).2.cut = 0 ∧
        (counted data).2.completed ≤ data.length ∧ least p ≤ (counted data).2.completed) ∧
      (∀ e, decode data = .error e → leastCut ≤ (counted data).2.cut ∧
        (counted data).2.cut ≤ 2 ∧ (counted data).2.completed ≤ (PacketReader data).length)) :
    ReturnsWithin decode counted least leastCut := by
  intro data
  obtain ⟨he, hok, herr⟩ := h data
  have hl := PacketReader_length data
  refine ⟨he, ?_⟩
  cases hd : decode data with
  | ok p =>
    obtain ⟨c, l, m⟩ := hok p hd
    refine ⟨l, ?_, ?_, ?_, ?_⟩
    · show (counted data).2.completed + (counted data).2.cut ≤ data.length + 2
      omega
    · intro _
      show (counted data).2.completed + (counted data).2.cut ≤ data.length + 1
      omega
    · intro p1 hp
      cases hp
      exact ⟨c, m⟩
    · intro e hp; cases hp
  | error e =>
    obtain ⟨c1, c2, l⟩ := herr e hd
    refine ⟨by omega, ?_, ?_, ?_, ?_⟩
    · show (counted data).2.completed + (counted data).2.cut ≤ data.length + 2
      omega
    · intro hne
      have : 0 < data.length := List.length_pos.mpr hne
      show (counted data).2.completed + (counted data).2.cut ≤ data.length + 1
      omega
    · intro p hp; cases hp
    · intro e1 hp
      exact ⟨c1, c2⟩

theorem returnsWithin_run {α : Type} (decode : List Byte → Except DecodeError α)
    (read : Counted α) (least : α → Nat) (leastCut : Nat)
    (herase : ∀ data, (read.erase (PacketReader data)).toExcept = decode data)
    (hok : ∀ r a r1 n, read r = (.ok a r1, n) →
      n.cut = 0 ∧ n.completed ≤ r.length + 1 ∧ (r = [] → n.completed = 0) ∧
        least a ≤ n.completed)
    (herr : ∀ r e r1 n, read r = (.error e r1, n) →
      leastCut ≤ n.cut ∧ n.cut ≤ 2 ∧ n.completed ≤ r.length) :
    ReturnsWithin decode (Counted.run read) least leastCut := by
  refine returnsWithin_of _ _ _ _ (fun data => ?_)
  have hl := PacketReader_length data
  have he := herase data
  rcases hr : read (PacketReader data) with ⟨res, n⟩
  have hres : read.erase (PacketReader data) = res := by
    show (read (PacketReader data)).1 = res
    rw [hr]
  rw [hres] at he
  simp only [Counted.run, hr]
  refine ⟨he, ?_, ?_⟩
  · intro p hp
    rw [← he] at hp
    cases res with
    | error e r1 => cases hp
    | ok a r1 =>
      cases hp
      obtain ⟨c, l, z, m⟩ := hok _ _ r1 n hr
      refine ⟨c, ?_, m⟩
      cases data with
      | nil => rw [z rfl]; exact Nat.zero_le _
      | cons b t =>
        simp only [List.length_cons] at hl ⊢
        omega
  · intro e hp
    rw [← he] at hp
    cases res with
    | ok a r1 => cases hp
    | error e1 r1 => exact herr _ e1 r1 n hr

theorem returnsWithin_of_within {α : Type} (decode : List Byte → Except DecodeError α)
    (read : Counted α) (least : α → Nat)
    (herase : ∀ data, (read.erase (PacketReader data)).toExcept = decode data)
    (hw : read.Within 0 1) (hl : read.AtLeast least) :
    ReturnsWithin decode (Counted.run read) least 0 := by
  refine returnsWithin_run decode read least 0 herase ?_ ?_
  · intro r a r1 n h
    obtain ⟨c, l⟩ := (hw r).1 a r1 n h
    refine ⟨c, by omega, ?_, hl r a r1 n h⟩
    intro hnil
    subst hnil
    simp only [List.length_nil] at l
    omega
  · intro r e r1 n h
    obtain ⟨c, l⟩ := (hw r).2 e r1 n h
    exact ⟨Nat.zero_le _, by omega, l⟩

theorem returnsWithin_of_ReadVariableInteger {α : Type}
    (decode : List Byte → Except DecodeError α) (f : Nat → α)
    (herase : ∀ data, ((ReadVariableInteger >>= fun t => pure (f t))
      (PacketReader data)).toExcept = decode data) :
    ReturnsWithin decode
      (Counted.run (Counted.ReadVariableInteger >>= fun t => pure (f t))) (fun _ => 1) 1 := by
  refine returnsWithin_run decode _ _ 1 ?_ ?_ ?_
  · intro data
    rw [erase_bind, erase_ReadVariableInteger]
    exact herase data
  · intro r a r1 n h
    rw [Counted_bind_apply] at h
    rcases h0 : Counted.ReadVariableInteger r with ⟨res, n0⟩
    rw [h0] at h
    cases res with
    | error e r0 => cases h
    | ok t r0 =>
      obtain ⟨c, l⟩ := (Counted_ReadVariableInteger_loop_count 0 0 r).1 t r0 n0 h0
      have hm : 1 ≤ n0.completed := atLeast_ReadVariableInteger r t r0 n0 h0
      obtain ⟨k, hk, rfl⟩ := (after_eq_iff _ _ _ _).mp h
      rw [Counted_pure_apply] at hk
      cases hk
      simp only [Passes.add]
      refine ⟨by omega, by omega, ?_, by omega⟩
      intro hnil
      subst hnil
      simp only [List.length_nil] at l
      omega
  · intro r e r1 n h
    rw [Counted_bind_apply] at h
    rcases h0 : Counted.ReadVariableInteger r with ⟨res, n0⟩
    rw [h0] at h
    cases res with
    | error e0 r0 =>
      cases h
      obtain ⟨-, -, l, c⟩ := (Counted_ReadVariableInteger_loop_count 0 0 r).2 e r1 n h0
      exact ⟨by omega, by omega, by omega⟩
    | ok t r0 =>
      obtain ⟨k, hk, rfl⟩ := (after_eq_iff _ _ _ _).mp h
      rw [Counted_pure_apply] at hk
      cases hk

theorem returnsWithin_of_ReadMap {α : Type} (decode : List Byte → Except DecodeError α)
    (f : StdMap → α) (least : α → Nat) (hleast : ∀ dict, least (f dict) = 3 * dict.length + 2)
    (herase : ∀ data, ((ReadMap >>= fun properties => pure (f properties))
      (PacketReader data)).toExcept = decode data) :
    ReturnsWithin decode
      (Counted.run (Counted.ReadMap >>= fun properties => pure (f properties))) least 1 := by
  refine returnsWithin_run decode _ _ 1 ?_ ?_ ?_
  · intro data
    rw [erase_bind, erase_ReadMap]
    exact herase data
  · intro r a r1 n h
    rw [Counted_bind_apply] at h
    rcases h0 : Counted.ReadMap r with ⟨res, n0⟩
    rw [h0] at h
    cases res with
    | error e r0 => cases h
    | ok dict r0 =>
      obtain ⟨c, lt, l⟩ :=
        (Counted_ReadMap_loop_count r.length r [] (Nat.le_refl _)).1 dict r0 n0 h0
      have hm := (Counted_ReadMap_loop_least (r.length + 1) r [] (Nat.lt_succ_self _)).1
        dict r0 n0 h0
      obtain ⟨k, hk, rfl⟩ := (after_eq_iff _ _ _ _).mp h
      rw [Counted_pure_apply] at hk
      cases hk
      rw [hleast]
      simp only [Passes.add, List.length_nil] at hm ⊢
      refine ⟨by omega, by omega, ?_, by omega⟩
      intro hnil
      subst hnil
      simp only [List.length_nil] at lt
      omega
  · intro r e r1 n h
    rw [Counted_bind_apply] at h
    rcases h0 : Counted.ReadMap r with ⟨res, n0⟩
    rw [h0] at h
    cases res with
    | error e0 r0 =>
      cases h
      obtain ⟨c, l⟩ := (Counted_ReadMap_loop_count r.length r [] (Nat.le_refl _)).2 e r1 n h0
      have hc := (Counted_ReadMap_loop_least (r.length + 1) r [] (Nat.lt_succ_self _)).2
        e r1 n h0
      exact ⟨hc, c, l⟩
    | ok dict r0 =>
      obtain ⟨k, hk, rfl⟩ := (after_eq_iff _ _ _ _).mp h
      rw [Counted_pure_apply] at hk
      cases hk

theorem atLeast_raise {α : Type} (e : DecodeError) (m : α → Nat) :
    (Counted.lift (SPRaise e) : Counted α).AtLeast m := by
  intro r a r1 n h
  simp [Counted.lift, SPRaise] at h

theorem atLeast_ite {α : Type} {m : α → Nat} {c : Prop} [Decidable c] {x y : Counted α}
    (hx : x.AtLeast m) (hy : y.AtLeast m) : (if c then x else y).AtLeast m := by
  split
  · exact hx
  · exact hy

theorem atLeast_mono {α : Type} {m1 : α → Nat} (m2 : α → Nat) {x : Counted α}
    (hx : x.AtLeast m2) (h : ∀ a, m1 a ≤ m2 a) : x.AtLeast m1 :=
  fun r a r1 n hr => Nat.le_trans (h a) (hx r a r1 n hr)

theorem within_ReadShort : (Counted.lift ReadShort).Within 0 1 := by
  refine within_lift 1 ?_
  unfold ReadShort
  exact noBack_bind (consumes_noBack ReadByte_consumes)
    (fun _ => noBack_bind (consumes_noBack ReadByte_consumes) (fun _ => noBack_pure _))

theorem GreetingPacket_returns_within :
    ReturnsWithin GreetingPacket.Decode Counted.GreetingPacket.Decode (fun _ => 2) 0 := by
  refine returnsWithin_of_within _ Counted.GreetingPacket.Decode.read _ ?_ ?_ ?_
  · intro data
    unfold Counted.GreetingPacket.Decode.read
    simp only [erase_bind, erase_ite, erase_lift, erase_pure, erase_ReadString, erase_ReadBytes]
    rfl
  · unfold Counted.GreetingPacket.Decode.read Counted.ReadString
    refine within_bind_right within_ReadBytes (fun _ => ?_)
    refine within_ite (within_lift 1 (noBack_raise _)) ?_
    exact within_bind_right within_ReadBytes (fun _ => within_pure 1 _)
  · unfold Counted.GreetingPacket.Decode.read Counted.ReadString
    refine atLeast_bind 1 (fun _ => 1) atLeast_ReadBytes (fun _ => ?_) _ (fun _ => Nat.le_refl _)
    refine atLeast_ite (atLeast_raise _ _) ?_
    exact atLeast_bind 1 (fun _ => 0) atLeast_ReadBytes (fun _ => atLeast_zero _) _
      (fun _ => Nat.le_refl _)

theorem InitiateConnectionPacket_returns_within :
    ReturnsWithin InitiateConnectionPacket.Decode Counted.InitiateConnectionPacket.Decode
      (fun _ => 6) 0 := by
  refine returnsWithin_of_within _ Counted.InitiateConnectionPacket.Decode.read _ ?_ ?_ ?_
  · intro data
    unfold Counted.InitiateConnectionPacket.Decode.read
    simp only [erase_bind, erase_ite, erase_lift, erase_pure, erase_ReadString, erase_ReadBytes]
    rfl
  · unfold Counted.InitiateConnectionPacket.Decode.read Counted.ReadString
    refine within_bind_right within_ReadBytes (fun _ => ?_)
    refine within_bind_right within_ReadShort (fun _ => ?_)
    refine within_bind_right within_ReadShort (fun _ => ?_)
    refine within_bind_right within_ReadShort (fun _ => ?_)
    refine within_bind_right within_ReadBytes (fun _ => ?_)
    refine within_bind_right within_ReadBytes (fun _ => ?_)
    refine within_bind_right within_ReadBytes (fun _ => ?_)
    refine within_bind_right within_ReadBytes (fun _ => ?_)
    exact within_bind_right within_ReadBytes (fun _ => within_pure 1 _)
  · unfold Counted.InitiateConnectionPacket.Decode.read Counted.ReadString
    refine atLeast_bind 1 (fun _ => 5) atLeast_ReadBytes (fun _ => ?_) _ (fun _ => Nat.le_refl _)
    refine atLeast_bind 0 (fun _ => 5) (atLeast_zero _) (fun _ => ?_) _ (fun _ => Nat.le_refl _)
    refine atLeast_bind 0 (fun _ => 5) (atLeast_zero _) (fun _ => ?_) _ (fun _ => Nat.le_refl _)
    refine atLeast_bind 0 (fun _ => 5) (atLeast_zero _) (fun _ => ?_) _ (fun _ => Nat.le_refl _)
    refine atLeast_bind 1 (fun _ => 4) atLeast_ReadBytes (fun _ => ?_) _ (fun _ => Nat.le_refl _)
    refine atLeast_bind 1 (fun _ => 3) atLeast_ReadBytes (fun _ => ?_) _ (fun _ => Nat.le_refl _)
    refine atLeast_bind 1 (fun _ => 2) atLeast_ReadBytes (fun _ => ?_) _ (fun _ => Nat.le_refl _)
    refine atLeast_bind 1 (fun _ => 1) atLeast_ReadBytes (fun _ => ?_) _ (fun _ => Nat.le_refl _)
    exact atLeast_bind 1 (fun _ => 0) atLeast_ReadBytes (fun _ => atLeast_zero _) _
      (fun _ => Nat.le_refl _)

theorem ServerCertificatePacket_returns_within :
    ReturnsWithin ServerCertificatePacket.Decode Counted.ServerCertificatePacket.Decode
      (fun p => if p.isValid then 2 else 0) 0 := by
  refine returnsWithin_of_within _ Counted.ServerCertificatePacket.Decode.read _ ?_ ?_ ?_
  · intro data
    unfold Counted.ServerCertificatePacket.Decode.read
    simp only [erase_bind, erase_ite, erase_lift, erase_pure, erase_ReadBytes]
    rfl
  · unfold Counted.ServerCertificatePacket.Decode.read
    refine within_bind_right (within_lift 1 (consumes_noBack ReadByte_consumes)) (fun _ => ?_)
    refine within_ite ?_ (within_pure 1 _)
    refine within_bind_right within_ReadBytes (fun _ => ?_)
    exact within_bind_right within_ReadBytes (fun _ => within_pure 1 _)
  · unfold Counted.ServerCertificatePacket.Decode.read
    refine atLeast_bind 0 (fun p => if p.isValid then 2 else 0) (atLeast_zero _) (fun b => ?_) _
      (fun _ => by simp)
    dsimp only
    by_cases hv : decide (b.val ≠ 0) = true
    · rw [if_pos hv]
      refine atLeast_mono (fun _ => 2) ?_ (fun a => by dsimp only; split <;> omega)
      refine atLeast_bind 1 (fun _ => 1) atLeast_ReadBytes (fun _ => ?_) _
        (fun _ => Nat.le_refl _)
      exact atLeast_bind 1 (fun _ => 0) atLeast_ReadBytes (fun _ => atLeast_zero _) _
        (fun _ => Nat.le_refl _)
    · rw [if_neg hv]
      exact atLeast_pure _ _ (if_neg hv)

theorem ClientCertificatePacket_returns_within :
    ReturnsWithin ClientCertificatePacket.Decode Counted.ClientCertificatePacket.Decode
      (fun p => if p.isValid then 2 else 0) 0 := by
  refine returnsWithin_of_within _ Counted.ClientCertificatePacket.Decode.read _ ?_ ?_ ?_
  · intro data
    unfold Counted.ClientCertificatePacket.Decode.read
    simp only [erase_bind, erase_ite, erase_lift, erase_pure, erase_ReadBytes]
    rfl
  · unfold Counted.ClientCertificatePacket.Decode.read
    refine within_bind_right (within_lift 1 (consumes_noBack ReadByte_consumes)) (fun _ => ?_)
    refine within_ite ?_ (within_pure 1 _)
    refine within_bind_right within_ReadBytes (fun _ => ?_)
    exact within_bind_right within_ReadBytes (fun _ => within_pure 1 _)
  · unfold Counted.ClientCertificatePacket.Decode.read
    refine atLeast_bind 0 (fun p => if p.isValid then 2 else 0) (atLeast_zero _) (fun b => ?_) _
      (fun _ => by simp)
    dsimp only
    by_cases hv : decide (b.val ≠ 0) = true
    · rw [if_pos hv]
      refine atLeast_mono (fun _ => 2) ?_ (fun a => by dsimp only; split <;> omega)
      refine atLeast_bind 1 (fun _ => 1) atLeast_ReadBytes (fun _ => ?_) _
        (fun _ => Nat.le_refl _)
      exact atLeast_bind 1 (fun _ => 0) atLeast_ReadBytes (fun _ => atLeast_zero _) _
        (fun _ => Nat.le_refl _)
    · rw [if_neg hv]
      exact atLeast_pure _ _ (if_neg hv)

theorem KickPacket_returns_within :
    ReturnsWithin KickPacket.Decode Counted.KickPacket.Decode (fun _ => 1) 0 := by
  refine returnsWithin_of_within _ Counted.KickPacket.Decode.read _ ?_ ?_ ?_
  · intro data
    unfold Counted.KickPacket.Decode.read
    simp only [erase_bind, erase_pure, erase_ReadString]
    rfl
  · unfold Counted.KickPacket.Decode.read Counted.ReadString
    exact within_bind_right within_ReadBytes (fun _ => within_pure 1 _)
  · unfold Counted.KickPacket.Decode.read Counted.ReadString
    exact atLeast_bind 1 (fun _ => 0) atLeast_ReadBytes (fun _ => atLeast_zero _) _
      (fun _ => Nat.le_refl _)

theorem MapDataPacket_returns_within :
    ReturnsWithin MapDataPacket.Decode Counted.MapDataPacket.Decode (fun _ => 1) 0 := by
  refine returnsWithin_of_within _ Counted.MapDataPacket.Decode.read _ ?_ ?_ ?_
  · intro data
    unfold Counted.MapDataPacket.Decode.read
    simp only [erase_bind, erase_pure, erase_ReadBytes]
    rfl
  · unfold Counted.MapDataPacket.Decode.read
    exact within_bind_right within_ReadBytes (fun _ => within_pure 1 _)
  · unfold Counted.MapDataPacket.Decode.read
    exact atLeast_bind 1 (fun _ => 0) atLeast_ReadBytes (fun _ => atLeast_zero _) _
      (fun _ => Nat.le_refl _)

theorem JumpActionPacket_returns_within :
    ReturnsWithin JumpActionPacket.Decode Counted.JumpActionPacket.Decode (fun _ => 1) 1 :=
  returnsWithin_of_ReadVariableInteger JumpActionPacket.Decode
    (fun timestamp => { timestamp := timestamp }) (fun _ => rfl)

theorem ReloadWeaponPacket_returns_within :
    ReturnsWithin ReloadWeaponPacket.Decode Counted.ReloadWeaponPacket.Decode (fun _ => 1) 1 :=
  returnsWithin_of_ReadVariableInteger ReloadWeaponPacket.Decode
    (fun timestamp => { timestamp := timestamp }) (fun _ => rfl)

theorem GameStateHeaderPacket_returns_within :
    ReturnsWithin GameStateHeaderPacket.Decode Counted.GameStateHeaderPacket.Decode
      (fun p => 3 * p.properties.length + 2) 1 :=
  returnsWithin_of_ReadMap GameStateHeaderPacket.Decode
    (fun properties => { properties := properties }) _ (fun _ => rfl) (fun _ => rfl)

theorem GameStateFinalPacket_returns_within :
    ReturnsWithin GameStateFinalPacket.Decode Counted.GameStateFinalPacket.Decode
      (fun p => 3 * p.properties.length + 2) 1 :=
  returnsWithin_of_ReadMap GameStateFinalPacket.Decode
    (fun properties => { properties := properties }) _ (fun _ => rfl) (fun _ => rfl)

theorem leastPassesOfItems_nil {Q : Type} :
    leastPassesOfItems ([] : List (EntityUpdateItem Q)) = 0 := rfl

theorem EntityUpdatePacket_returns_within {Q : Type} (ext : External Q) :
    ReturnsWithin (EntityUpdatePacket.Decode ext) (Counted.EntityUpdatePacket.Decode ext)
      (fun p => leastPassesOfItems p.items) 1 := by
  refine returnsWithin_of _ _ _ _ (fun data => ?_)
  have hl := PacketReader_length data
  have hc := Counted_DecodeEntityUpdateItems_count ext ((PacketReader data).length + 1)
    (PacketReader data) [] (Nat.lt_succ_self _)
  have hm := Counted_DecodeEntityUpdateItems_least ext ((PacketReader data).length + 1)
    (PacketReader data) [] (Nat.lt_succ_self _)
  have he := erase_DecodeEntityUpdateItems ext ((PacketReader data).length + 1)
    (PacketReader data) [] (Nat.lt_succ_self _)
  unfold Counted.EntityUpdatePacket.Decode EntityUpdatePacket.Decode
  rw [← he]
  rcases h : Counted.DecodeEntityUpdateItems ext [] (PacketReader data) with ⟨res, n⟩
  cases res with
  | ok items r1 =>
    obtain ⟨c, l⟩ := hc.1 items r1 n h
    have m := hm.1 items r1 n h
    rw [leastPassesOfItems_nil] at m
    refine ⟨rfl, ?_, ?_⟩
    · intro p hp
      cases hp
      exact ⟨c, by show n.completed ≤ data.length; omega, m⟩
    · intro e hp; cases hp
  | error e r1 =>
    obtain ⟨c, l⟩ := hc.2 e r1 n h
    have m := hm.2 e r1 n h
    refine ⟨rfl, ?_, ?_⟩
    · intro p hp; cases hp
    · intro e1 hp
      exact ⟨m, c, l⟩

theorem ClientSideEntityUpdatePacket_returns_within {Q : Type} (ext : External Q) :
    ReturnsWithin (ClientSideEntityUpdatePacket.Decode ext)
      (Counted.ClientSideEntityUpdatePacket.Decode ext)
      (fun p => 1 + leastPassesOfItems p.items) 1 := by
  refine returnsWithin_of _ _ _ _ (fun data => ?_)
  have hl := PacketReader_length data
  have he0 : (Counted.ReadTimeStamp (PacketReader data)).1 = ReadTimeStamp (PacketReader data) :=
    congrFun erase_ReadTimeStamp (PacketReader data)
  unfold Counted.ClientSideEntityUpdatePacket.Decode ClientSideEntityUpdatePacket.Decode
  rw [← he0]
  rcases h0 : Counted.ReadTimeStamp (PacketReader data) with ⟨res0, n0⟩
  cases res0 with
  | error e r0 =>
    obtain ⟨-, -, l, c⟩ :=
      (Counted_ReadVariableInteger_loop_count 0 0 (PacketReader data)).2 e r0 n0 h0
    refine ⟨rfl, ?_, ?_⟩
    · intro p hp; cases hp
    · intro e1 hp
      exact ⟨by show 1 ≤ n0.cut; omega, by show n0.cut ≤ 2; omega,
        by show n0.completed ≤ _; omega⟩
  | ok timestamp r0 =>
    obtain ⟨c0, l0⟩ :=
      (Counted_ReadVariableInteger_loop_count 0 0 (PacketReader data)).1 timestamp r0 n0 h0
    have m0 : 1 ≤ n0.completed :=
      atLeast_ReadVariableInteger (PacketReader data) timestamp r0 n0 h0
    have hc := Counted_DecodeEntityUpdateItems_count ext (r0.length + 1) r0 []
      (Nat.lt_succ_self _)
    have hm := Counted_DecodeEntityUpdateItems_least ext (r0.length + 1) r0 []
      (Nat.lt_succ_self _)
    have he := erase_DecodeEntityUpdateItems ext (r0.length + 1) r0 [] (Nat.lt_succ_self _)
    simp only
    rw [← he]
    rcases h : Counted.DecodeEntityUpdateItems ext [] r0 with ⟨res, n⟩
    cases res with
    | ok items r1 =>
      obtain ⟨c, l⟩ := hc.1 items r1 n h
      have m := hm.1 items r1 n h
      rw [leastPassesOfItems_nil] at m
      refine ⟨rfl, ?_, ?_⟩
      · intro p hp
        cases hp
        refine ⟨?_, ?_, ?_⟩
        · show (n0.add n).cut = 0
          simp only [Passes.add]
          omega
        · show (n0.add n).completed ≤ data.length
          simp only [Passes.add]
          omega
        · show 1 + leastPassesOfItems items ≤ (n0.add n).completed
          simp only [Passes.add]
          omega
      · intro e hp; cases hp
    | error e r1 =>
      obtain ⟨c, l⟩ := hc.2 e r1 n h
      have m := hm.2 e r1 n h
      refine ⟨rfl, ?_, ?_⟩
      · intro p hp; cases hp
      · intro e1 hp
        refine ⟨?_, ?_, ?_⟩
        · show 1 ≤ (n0.add n).cut
          simp only [Passes.add]
          omega
        · show (n0.add n).cut ≤ 2
          simp only [Passes.add]
          omega
        · show (n0.add n).completed ≤ (PacketReader data).length
          simp only [Passes.add]
          omega

theorem DecodeEntityUpdateItem_two_bytes {Q : Type} (ext : External Q) (r : List Byte)
    (item : EntityUpdateItem Q) (r1 : List Byte)
    (h : DecodeEntityUpdateItem ext r = .ok item r1) : r1.length + 2 ≤ r.length := by
  rcases hc : Counted.DecodeEntityUpdateItem ext r with ⟨res, n⟩
  have he : (Counted.DecodeEntityUpdateItem ext).erase r = res := by
    show (Counted.DecodeEntityUpdateItem ext r).1 = res
    rw [hc]
  rw [erase_DecodeEntityUpdateItem, h] at he
  subst he
  obtain ⟨-, l⟩ := (within_DecodeEntityUpdateItem ext r).1 item r1 n hc
  unfold Counted.DecodeEntityUpdateItem at hc
  rw [Counted_bind_apply] at hc
  rcases h0 : Counted.ReadVariableInteger r with ⟨res0, n0⟩
  rw [h0] at hc
  cases res0 with
  | error e r0 => cases hc
  | ok entityId r0 =>
    obtain ⟨k, -, rfl⟩ := (after_eq_iff _ _ _ _).mp hc
    obtain ⟨-, l0⟩ := (Counted_ReadVariableInteger_loop_count 0 0 r).1 entityId r0 n0 h0
    have hlt : r0.length < r.length :=
      ReadVariableInteger_consumes r entityId r0
        (by rw [← erase_ReadVariableInteger]; show (Counted.ReadVariableInteger r).1 = _; rw [h0])
    simp only [Passes.add] at l
    omega

/-- C21, as amended. Decoding terminates, within a number of loop passes
bounded by the buffer. The decoders are total functions whose loops recurse on
the number of bytes left; the counted decoders return what the decoders return
and count the passes through the loop bodies, a pass being completed when its
body runs to its end or to its `break`, and cut when an exception leaves it.
`ReadVariableInteger` consumes exactly one byte per completed pass, and it
fails only with the truncation error at the end of the buffer, after as many
completed passes as the buffer had bytes and one cut pass; the passes of
`ReadBytes` are those of the `ReadVariableInteger` that reads its length.
Every pass of the loop of `ReadMap` that no exception leaves consumes at
least one byte. Every item decoded by the item loop consumes at least two
bytes. For each of the twelve variants, `Decode` on a buffer of `n` bytes
returns a packet after at most `n` passes of all the loops together, none of
them cut, or an error after at most `n` completed passes and at most two cut
passes, at most `n + 1` passes in all when the buffer is not empty. The counts
are bounded from below as well: a returned packet has taken at least one pass
of `ReadVariableInteger` for each integer and string read and one pass of its
loop for each map entry, map end and item, and an error raised inside a loop
has cut at least one pass. -/
theorem Decode_terminates_with_bounded_passes {Q : Type} (ext : External Q) :
    (∀ r : List Byte,
      (Counted.ReadVariableInteger r).1 = ReadVariableInteger r ∧
      (∀ v r1 n, Counted.ReadVariableInteger r = (.ok v r1, n) →
        n.cut = 0 ∧ n.completed + r1.length = r.length) ∧
      (∀ e r1 n, Counted.ReadVariableInteger r = (.error e r1, n) →
        e = .receivedPacketTruncated ∧ r1 = [] ∧ n.completed = r.length ∧ n.cut = 1)) ∧
    (∀ r : List Byte, (Counted.ReadBytes r).1 = ReadBytes r ∧
      (Counted.ReadBytes r).2 = (Counted.ReadVariableInteger r).2) ∧
    (∀ r : List Byte, (Counted.ReadMap r).1 = ReadMap r) ∧
    (∀ dict r x r1 n, Counted.ReadMap.body dict r = (.ok x r1, n) → r1.length < r.length) ∧
    (∀ r item r1, DecodeEntityUpdateItem ext r = .ok item r1 → r1.length + 2 ≤ r.length) ∧
    ReturnsWithin GreetingPacket.Decode Counted.GreetingPacket.Decode (fun _ => 2) 0 ∧
    ReturnsWithin InitiateConnectionPacket.Decode Counted.InitiateConnectionPacket.Decode
      (fun _ => 6) 0 ∧
    ReturnsWithin ServerCertificatePacket.Decode Counted.ServerCertificatePacket.Decode
      (fun p => if p.isValid then 2 else 0) 0 ∧
    ReturnsWithin ClientCertificatePacket.Decode Counted.ClientCertificatePacket.Decode
      (fun p => if p.isValid then 2 else 0) 0 ∧
    ReturnsWithin KickPacket.Decode Counted.KickPacket.Decode (fun _ => 1) 0 ∧
    ReturnsWithin GameStateHeaderPacket.Decode Counted.GameStateHeaderPacket.Decode
      (fun p => 3 * p.properties.length + 2) 1 ∧
    ReturnsWithin MapDataPacket.Decode Counted.MapDataPacket.Decode (fun _ => 1) 0 ∧
    ReturnsWithin GameStateFinalPacket.Decode Counted.GameStateFinalPacket.Decode
      (fun p => 3 * p.properties.length + 2) 1 ∧
    ReturnsWithin (EntityUpdatePacket.Decode ext) (Counted.EntityUpdatePacket.Decode ext)
      (fun p => leastPassesOfItems p.items) 1 ∧
    ReturnsWithin (ClientSideEntityUpdatePacket.Decode ext)
      (Counted.ClientSideEntityUpdatePacket.Decode ext)
      (fun p => 1 + leastPassesOfItems p.items) 1 ∧
    ReturnsWithin JumpActionPacket.Decode Counted.JumpActionPacket.Decode (fun _ => 1) 1 ∧
    ReturnsWithin ReloadWeaponPacket.Decode Counted.ReloadWeaponPacket.Decode
      (fun _ => 1) 1 := by
  refine ⟨fun r => ⟨erase_ReadVariableInteger_loop 0 0 r,
    Counted_ReadVariableInteger_loop_count 0 0 r⟩,
    fun r => ⟨congrFun erase_ReadBytes r, Counted_ReadBytes_passes r⟩,
    fun r => congrFun erase_ReadMap r, ?_,
    DecodeEntityUpdateItem_two_bytes ext, ?_⟩
  · intro dict r x r1 n h
    have hb := ReadMap_body_consumes dict
    rw [erase_pass] at hb
    exact erase_consumes hb h
  · exact ⟨GreetingPacket_returns_within,
      InitiateConnectionPacket_returns_within,
      ServerCertificatePacket_returns_within,
      ClientCertificatePacket_returns_within,
      KickPacket_returns_within,
      GameStateHeaderPacket_returns_within,
      MapDataPacket_returns_within,
      GameStateFinalPacket_returns_within,
      EntityUpdatePacket_returns_within ext,
      ClientSideEntityUpdatePacket_returns_within ext,
      JumpActionPacket_returns_within,
      ReloadWeaponPacket_returns_within⟩

/-- C21, as amended, at a concrete buffer: `ReadVariableInteger` reads `129`
from the bytes `81 01` in two passes and leaves the byte `05`. -/
theorem Decode_terminates_with_bounded_passes_witness :
    Counted.ReadVariableInteger [0x81, 0x01, 0x05] = (.ok 129 [0x05], ⟨2, 0⟩) ∧
    ((⟨2, 0⟩ : Passes).cut = 0 ∧
      (⟨2, 0⟩ : Passes).completed + [(0x05 : Byte)].length
        = [(0x81 : Byte), 0x01, 0x05].length) :=
  have h : Counted.ReadVariableInteger [0x81, 0x01, 0x05] = (.ok 129 [0x05], ⟨2, 0⟩) := by
    unfold Counted.ReadVariableInteger
    rw [Counted_ReadVariableInteger_loop_cons, if_pos (by decide),
      Counted_ReadVariableInteger_loop_cons, if_neg (by decide)]
    rfl
  ⟨h, ((Decode_terminates_with_bounded_passes External.sample).1 [0x81, 0x01, 0x05]).2.1
    129 [0x05] ⟨2, 0⟩ h⟩

/-- C21 as stated fails: on the two-byte buffer `09 81`
`EntityUpdatePacket::Decode` raises the truncation error after three loop
iterations. The item loop begins a pass; in it `ReadVariableInteger` completes
one pass on the byte `81` and begins a second one, in which the read past the
end of the buffer raises. One pass is completed and two are cut, three passes
for two bytes. -/
theorem Decode_passes_exceed_buffer_length :
    EntityUpdatePacket.Decode External.sample [9, 0x81]
      = .error .receivedPacketTruncated ∧
    Counted.EntityUpdatePacket.Decode External.sample [9, 0x81]
      = (.error .receivedPacketTruncated, ⟨1, 2⟩) ∧
    [(9 : Byte), 0x81].length < (⟨1, 2⟩ : Passes).total := by
  have h0 : Counted.ReadVariableInteger [0x81]
      = (.error .receivedPacketTruncated [], ⟨1, 1⟩) := by
    unfold Counted.ReadVariableInteger
    rw [Counted_ReadVariableInteger_loop_cons, if_pos (by decide),
      Counted_ReadVariableInteger_loop_nil]
    rfl
  have h : Counted.pass (Counted.DecodeEntityUpdateItem External.sample) [0x81]
      = (.error .receivedPacketTruncated [], ⟨1, 2⟩) := by
    unfold Counted.pass Counted.DecodeEntityUpdateItem
    rw [Counted_bind_apply, h0]
    rfl
  have hc : Counted.EntityUpdatePacket.Decode External.sample [9, 0x81]
      = (.error .receivedPacketTruncated, ⟨1, 2⟩) := by
    unfold Counted.EntityUpdatePacket.Decode
    have hr : PacketReader [(9 : Byte), 0x81] = [0x81] := rfl
    rw [hr, Counted_DecodeEntityUpdateItems_error _ _ _ _ _ _ _ h]
  refine ⟨?_, hc, by decide⟩
  have he := (EntityUpdatePacket_returns_within External.sample [9, 0x81]).1
  rw [hc] at he
  exact he.symm

/-- The bound is attained: on the two-byte buffer `03 00` the loop of
`ReadMap` makes one pass, in which `ReadVariableInteger` makes one pass on the
byte `00`, the empty key that ends the map. Two passes are completed. -/
theorem GameStateHeaderPacket_passes_example :
    Counted.GameStateHeaderPacket.Decode [3, 0x00] = (.ok { properties := [] }, ⟨2, 0⟩) := by
  have h0 : Counted.ReadVariableInteger [0x00] = (.ok 0 [], ⟨1, 0⟩) := by
    unfold Counted.ReadVariableInteger
    rw [Counted_ReadVariableInteger_loop_cons, if_neg (by decide)]
    rfl
  have h1 : Counted.ReadString [0x00] = (.ok [] [], ⟨1, 0⟩) := by
    unfold Counted.ReadString Counted.ReadBytes
    rw [Counted_bind_apply, h0]
    rfl
  have h : Counted.pass (Counted.ReadMap.body []) [0x00] = (.ok none [], ⟨2, 0⟩) := by
    unfold Counted.pass Counted.ReadMap.body
    rw [Counted_bind_apply, h1]
    rfl
  have hr : PacketReader [(3 : Byte), 0x00] = [0x00] := rfl
  unfold Counted.GameStateHeaderPacket.Decode Counted.run
    Counted.GameStateHeaderPacket.Decode.read
  rw [hr, Counted_bind_apply]
  unfold Counted.ReadMap
  rw [Counted_ReadMap_loop_break [] [0x00] [] ⟨2, 0⟩ h]
  rfl

end spades.protocol
